import Mathlib

/-!
Garlic: instruction model, dispatch and session builder.

A shallow embedding of `instruction.go` and `sessions.go`.

Modelling conventions.

* A Go `string` that is a literal of the source, a path or a name is text and is modelled as
  `String`; its bytes are its UTF-8 encoding (`stringBytes`). A Go `[]byte` is a list of bytes,
  each a natural number below 256, and need not be valid UTF-8. A `string` made of bytes and
  handed to `json.Marshal` is written as a JSON string coerced to valid UTF-8 (`coerceUTF8`).
* `uuid.UUID` (16 bytes) is modelled by the natural number it encodes; the zero
  value `uuid.UUID{}` is `0`.
* A Go pointer that the source tests against `nil` somewhere is an `Option`.
  `*Session` and `*SessionItem` are never tested and never built as `nil`, they
  are plain values.
* `Moves` admits `nil` entries: `GetGroups` skips them, `GetByName` and `GetByID` read
  through every entry they pass. `collectMoves` builds no `nil` entry
  (`collectMoves_library`); a property of a build that needs the lookups to return
  says that the library holds none.
* A Go function that can return an `error` or abort with a run-time panic
  returns `Except Failure _`; `Failure.panic` is the run-time panic (nil-pointer
  dereference, index out of range).
* `uuid.Must(uuid.NewRandom())` is the next draw from a stream `gen : Nat → UUID`;
  the number of draws made so far is threaded through the builder.
* The file system and the transport are external: they are the fields of `World`,
  `Dirs` and `Conn`; every effect of a dispatch on them is recorded as an `Event`.
  The builder takes the function that joins the audio path as a field of `World`, so
  what is proved of it holds for `path.Join` and for any other join.
* Functions of the Go standard library and of `github.com/google/uuid` that the
  source calls (`filepath.Base`, `filepath.Ext`, `strings.Split`, `strings.Replace`,
  `path.Join`, `filepath.Glob`, `utf8.DecodeRune`, `json.Marshal` of a string,
  `UUID.String`, `uuid.Parse`) are external too; they are written out after the
  library, for a system whose path separator is the slash.
* The builder is embedded twice: over values, where a `*MoveAction` is the
  `MoveAction` it points to, and over pointers into an explicit store of
  `MoveAction` objects, where the objects that a run writes can be told apart.
-/

namespace Garlic

/-! ## Basic types -/

/-- Identity of an action, a session or a session item (`uuid.UUID`). -/
abbrev UUID := Nat

/-- The zero value `uuid.UUID{}`. -/
def UUID.Nil : UUID := 0

/-- Outcome of a Go call that does not return normally with a `nil` error. -/
inductive Failure where
  | error (msg : String)
  | panic (msg : String)
  deriving DecidableEq, Repr

/-- Message of the run-time panic raised by dereferencing a `nil` pointer. -/
def nilDeref : String := "invalid memory address or nil pointer dereference"

/-- The three commands (`SayCommand`, `MoveCommand`, `SayAndMoveCommand`, by `iota`). -/
inductive Command where
  | SayCommand
  | MoveCommand
  | SayAndMoveCommand
  deriving DecidableEq, Repr

/-- Go `Command.String`. -/
def Command.String : Command → String
  | .SayCommand => "say"
  | .MoveCommand => "move"
  | .SayAndMoveCommand => "sayAndMove"

/-- Go `SayAction`. -/
structure SayAction where
  ID : UUID := 0
  Phrase : String := ""
  FilePath : String := ""
  deriving DecidableEq, Repr

/-- Go `MoveAction`; `Delay` is a `time.Duration`, a count of nanoseconds. -/
structure MoveAction where
  ID : UUID := 0
  Name : String := ""
  FilePath : String := ""
  Delay : Int := 0
  Group : String := ""
  deriving DecidableEq, Repr

/-- Go `SayAndMoveAction`; both inner pointers may be `nil`. -/
structure SayAndMoveAction where
  ID : UUID := 0
  SayItem : Option SayAction := none
  MoveItem : Option MoveAction := none
  deriving DecidableEq, Repr

/-- Go `Moves`, a slice of `*MoveAction` whose entries may be `nil`. -/
abbrev Moves := List (Option MoveAction)

/-- Go `SessionItem`. -/
structure SessionItem where
  ID : UUID := 0
  Question : Option SayAndMoveAction := none
  PositiveAnswer : Option SayAndMoveAction := none
  NegativeAnswer : Option SayAndMoveAction := none
  deriving DecidableEq, Repr

/-- Go `Session`. -/
structure Session where
  ID : UUID := 0
  Name : String := ""
  Description : String := ""
  Items : List SessionItem := []
  deriving DecidableEq, Repr

/-- Go `Sessions`. -/
abbrev Sessions := List Session

/-- A value of the interface `Instruction`: one of the three pointer types, possibly `nil`. -/
inductive Instruction where
  | say (item : Option SayAction)
  | move (item : Option MoveAction)
  | sayAndMove (item : Option SayAndMoveAction)
  deriving DecidableEq, Repr

/-! ## External collaborators -/

/-- What `os.Stat` reports about a path, as far as `os.IsNotExist` tells apart. -/
inductive StatResult where
  | found
  | notExist
  | failed
  deriving DecidableEq, Repr

/-- What `os.Open` followed by `ioutil.ReadAll` gives for a path; the bytes of a file are
natural numbers below 256. -/
inductive ReadResult where
  | data (bytes : List Nat)
  | openError (msg : String)
  | readError (msg : String)
  deriving DecidableEq, Repr

/-- The file system and the library function `path.Join` (three arguments, as it is called). -/
structure World where
  stat : String → StatResult
  readFile : String → ReadResult
  pathJoin : String → String → String → String

/-- The JSON object `MarshalJSON` encodes: the map with keys command, content, delay, each
with the value a reader of the JSON text gets. -/
structure WireMessage where
  command : String
  content : String
  delay : Int
  deriving DecidableEq, Repr

/-- An established `*websocket.Conn`: the error `WriteMessage` returns for a message, if any. -/
structure Conn where
  WriteMessage : WireMessage → Option String

/-- An observable effect of a call. -/
inductive Event where
  | opened (path : String)
  | wrote (msg : WireMessage)
  deriving DecidableEq, Repr

/-- The transport writes among the events of a call. -/
def writes : List Event → List WireMessage
  | [] => []
  | .wrote m :: rest => m :: writes rest
  | .opened _ :: rest => writes rest

/-- The files opened among the events of a call. -/
def opens : List Event → List String
  | [] => []
  | .opened p :: rest => p :: opens rest
  | .wrote _ :: rest => opens rest

/-! ## Library functions -/

/-- Go `filepath.Base` on a slash-separated system: the last element of the path, after
trailing slashes are removed; "." for the empty path and "/" for a path of slashes only. -/
def filepathBase (path : String) : String :=
  if path = "" then "."
  else
    let stripped := (path.data.reverse.dropWhile fun c => c = '/').reverse
    let last := (stripped.reverse.takeWhile fun c => c ≠ '/').reverse
    if last = [] then "/" else String.mk last

/-- Go `time.Duration.Milliseconds`: nanoseconds divided by 10^6, truncated towards zero. -/
def Milliseconds (d : Int) : Int := Int.tdiv d 1000000

/-! ## Paths (`path`, `path/filepath`) -/

/-- The `..` step of Go `path.Clean` on the reversed output buffer: bytes are taken off the end
until a slash has been taken off or the buffer is down to `dotdot` bytes. -/
def backtrack (dotdot : Nat) : List Char → List Char
  | [] => []
  | c :: rev => if rev.length > dotdot ∧ c ≠ '/' then backtrack dotdot rev else rev

/-- The loop of Go `path.Clean` over the path. `out` is the output buffer, reversed; `dotdot`
is the length of the buffer below which `..` must not go; `skip` counts the bytes of the path
still to pass of the element read last, and `inElem` holds while a path element is copied. -/
def cleanScan (rooted : Bool) : Nat → Bool → List Char → List Char → Nat → List Char
  | _, _, [], out, _ => out
  | skip + 1, inElem, _ :: r, out, dotdot => cleanScan rooted skip inElem r out dotdot
  | 0, true, c :: r, out, dotdot =>
    if c = '/' then cleanScan rooted 0 false r out dotdot
    else cleanScan rooted 0 true r (c :: out) dotdot
  | 0, false, c :: r, out, dotdot =>
    if c = '/' then cleanScan rooted 0 false r out dotdot
    else if c = '.' ∧ (r = [] ∨ r.head? = some '/') then cleanScan rooted 0 false r out dotdot
    else if c = '.' ∧ r.head? = some '.' ∧ (r.drop 1 = [] ∨ (r.drop 1).head? = some '/') then
      if out.length > dotdot then cleanScan rooted 1 false r (backtrack dotdot out) dotdot
      else if !rooted then
        let out1 := '.' :: '.' :: (if out.length > 0 then '/' :: out else out)
        cleanScan rooted 1 false r out1 out1.length
      else cleanScan rooted 1 false r out dotdot
    else
      let out1 :=
        if (rooted ∧ out.length ≠ 1) ∨ (!rooted ∧ out.length ≠ 0) then '/' :: out else out
      cleanScan rooted 0 true r (c :: out1) dotdot

/-- Go `path.Clean` (and `filepath.Clean` on a slash-separated system): the shortest path
equivalent to `path` by purely lexical processing. -/
def pathClean (path : String) : String :=
  if path = "" then "."
  else
    let out :=
      if path.data.head? = some '/' then cleanScan true 0 false (path.data.drop 1) ['/'] 1
      else cleanScan false 0 false path.data [] 0
    if out = [] then "." else String.mk out.reverse

/-- Go `path.Join` (and `filepath.Join` on a slash-separated system): the elements joined with
slashes, empty elements before the first non-empty one ignored, and the result cleaned; the
empty string when all elements are empty. -/
def pathJoin (elem : List String) : String :=
  if elem.all fun e => e = "" then ""
  else
    pathClean (elem.foldl
      (fun buf e =>
        if buf ≠ "" ∨ e ≠ "" then (if buf ≠ "" then buf ++ "/" else buf) ++ e else buf) "")

/-- Go `filepath.Split`: the path up to and with its last slash, and what follows it. -/
def filepathSplit (path : String) : String × String :=
  let file := (path.data.reverse.takeWhile fun c => c ≠ '/').reverse
  (String.mk (path.data.take (path.data.length - file.length)), String.mk file)

/-! ## Bytes and text -/

/-- Go `utf8.RuneError`, the replacement character U+FFFD. -/
def RuneError : Nat := 0xFFFD

/-- The table `acceptRanges` of Go package `unicode/utf8`: the smallest second byte of an
encoding that starts with the byte `s0`. -/
def acceptLo (s0 : Nat) : Nat :=
  if s0 = 0xE0 then 0xA0 else if s0 = 0xF0 then 0x90 else 0x80

/-- The table `acceptRanges` of Go package `unicode/utf8`: the largest second byte of an
encoding that starts with the byte `s0`. -/
def acceptHi (s0 : Nat) : Nat :=
  if s0 = 0xED then 0x9F else if s0 = 0xF4 then 0x8F else 0xBF

/-- Go `utf8.DecodeRune`: the first rune of the bytes and its width in bytes; `(RuneError, 0)`
for no bytes and `(RuneError, 1)` when the bytes do not start with a valid encoding (a wrong
first byte, a wrong or missing continuation byte, an over-long form, a surrogate, a rune above
U+10FFFF). -/
def decodeRune : List Nat → Nat × Nat
  | [] => (RuneError, 0)
  | s0 :: rest =>
    if s0 < 0x80 then (s0, 1)
    else if s0 < 0xC2 ∨ 0xF4 < s0 then (RuneError, 1)
    else if s0 < 0xE0 then
      match rest with
      | s1 :: _ =>
        if acceptLo s0 ≤ s1 ∧ s1 ≤ acceptHi s0 then (s0 % 0x20 * 0x40 + s1 % 0x40, 2)
        else (RuneError, 1)
      | _ => (RuneError, 1)
    else if s0 < 0xF0 then
      match rest with
      | s1 :: s2 :: _ =>
        if acceptLo s0 ≤ s1 ∧ s1 ≤ acceptHi s0 ∧ 0x80 ≤ s2 ∧ s2 ≤ 0xBF then
          (s0 % 0x10 * 0x1000 + s1 % 0x40 * 0x40 + s2 % 0x40, 3)
        else (RuneError, 1)
      | _ => (RuneError, 1)
    else
      match rest with
      | s1 :: s2 :: s3 :: _ =>
        if acceptLo s0 ≤ s1 ∧ s1 ≤ acceptHi s0 ∧ 0x80 ≤ s2 ∧ s2 ≤ 0xBF ∧ 0x80 ≤ s3 ∧ s3 ≤ 0xBF then
          (s0 % 0x08 * 0x40000 + s1 % 0x40 * 0x1000 + s2 % 0x40 * 0x40 + s3 % 0x40, 4)
        else (RuneError, 1)
      | _ => (RuneError, 1)

/-- The runes `json.Marshal` writes for a Go string with these bytes: rune after rune as
`utf8.DecodeRune` gives them, so one `RuneError` for each byte that starts no valid encoding.
`skip` counts the bytes still to pass of the rune decoded last. -/
def runesFrom : Nat → List Nat → List Nat
  | _, [] => []
  | skip + 1, _ :: bs => runesFrom skip bs
  | 0, b :: bs => (decodeRune (b :: bs)).1 :: runesFrom ((decodeRune (b :: bs)).2 - 1) bs

/-- The value of the JSON string that `json.Marshal` writes for the Go string `string(bytes)`:
the bytes coerced to valid UTF-8, each invalid byte replaced by U+FFFD. The escapes of the JSON
text are notation for this value. -/
def coerceUTF8 (bytes : List Nat) : String :=
  String.mk ((runesFrom 0 bytes).map Char.ofNat)

/-- Go `utf8.AppendRune`: the UTF-8 encoding of a rune, that of `RuneError` for a surrogate or a
rune above U+10FFFF. -/
def encodeRune (r : Nat) : List Nat :=
  if r < 0x80 then [r]
  else if r < 0x800 then [0xC0 + r / 0x40, 0x80 + r % 0x40]
  else if 0x10FFFF < r ∨ (0xD800 ≤ r ∧ r ≤ 0xDFFF) then [0xEF, 0xBF, 0xBD]
  else if r < 0x10000 then [0xE0 + r / 0x1000, 0x80 + r / 0x40 % 0x40, 0x80 + r % 0x40]
  else [0xF0 + r / 0x40000, 0x80 + r / 0x1000 % 0x40, 0x80 + r / 0x40 % 0x40, 0x80 + r % 0x40]

/-- Go `[]byte(s)` for a text `s`: its UTF-8 encoding. -/
def stringBytes (s : String) : List Nat :=
  s.data.flatMap fun c => encodeRune c.toNat

/-- The scan of Go `utf8.Valid`, with `skip` bytes still to pass of the rune decoded last. -/
def validFrom : Nat → List Nat → Bool
  | 0, [] => true
  | _ + 1, [] => false
  | skip + 1, _ :: bs => validFrom skip bs
  | 0, b :: bs =>
    !(decide ((decodeRune (b :: bs)).1 = RuneError ∧ (decodeRune (b :: bs)).2 = 1))
      && validFrom ((decodeRune (b :: bs)).2 - 1) bs

/-- Go `utf8.Valid`: the bytes are made of valid encodings only. -/
def validUTF8 (bytes : List Nat) : Bool := validFrom 0 bytes

/-! ## `instruction.go` -/

/-- Go `PepperMessage`. -/
structure PepperMessage where
  Command : Command
  Content : List Nat
  Delay : Int
  deriving DecidableEq, Repr

/-- Go `PepperMessage.MarshalJSON`: the map with the text of the command, `string(pm.Content)`
and the delay, marshalled by `json.Marshal`, which coerces the string to valid UTF-8. -/
def PepperMessage.MarshalJSON (pm : PepperMessage) : WireMessage :=
  { command := pm.Command.String, content := coerceUTF8 pm.Content, delay := pm.Delay }

/-- Go `(*SayAndMoveAction).Command`. -/
def SayAndMoveAction.Command (_item : Option SayAndMoveAction) : Command := .SayAndMoveCommand

/-- Go `(*SayAndMoveAction).Content`: the named results are returned unset. -/
def SayAndMoveAction.Content (_item : Option SayAndMoveAction) :
    Except String (List Nat) × List Event :=
  (.ok [], [])

/-- Go `(*SayAndMoveAction).DelayMillis`. -/
def SayAndMoveAction.DelayMillis (_item : Option SayAndMoveAction) : Except Failure Int := .ok 0

/-- Go `(*SayAndMoveAction).IsNil`. -/
def SayAndMoveAction.IsNil (item : Option SayAndMoveAction) : Bool := item.isNone

/-- Go `(*SayAndMoveAction).SetID`. -/
def SayAndMoveAction.SetID (item : Option SayAndMoveAction) (id : UUID) : Option SayAndMoveAction :=
  match item with
  | none => none
  | some a => some { a with ID := id }

/-- Go `(*SayAndMoveAction).GetID`. -/
def SayAndMoveAction.GetID (item : Option SayAndMoveAction) : UUID :=
  match item with
  | none => UUID.Nil
  | some a => a.ID

/-- Go `(*SayAction).Command`. -/
def SayAction.Command (_item : Option SayAction) : Command := .SayCommand

/-- Go `(*SayAction).IsNil`. -/
def SayAction.IsNil (item : Option SayAction) : Bool := item.isNone

/-- Go `(*SayAction).Content`. -/
def SayAction.Content (item : Option SayAction) : Except String (List Nat) × List Event :=
  match item with
  | none => (.error "nil item", [])
  | some a => (.ok (stringBytes (filepathBase a.Phrase)), [])

/-- Go `(*SayAction).DelayMillis`. -/
def SayAction.DelayMillis (_item : Option SayAction) : Except Failure Int := .ok 0

/-- Go `(*SayAction).SetID`. -/
def SayAction.SetID (item : Option SayAction) (id : UUID) : Option SayAction :=
  match item with
  | none => none
  | some a => some { a with ID := id }

/-- Go `(*SayAction).GetID`. -/
def SayAction.GetID (item : Option SayAction) : UUID :=
  match item with
  | none => UUID.Nil
  | some a => a.ID

/-- Go `(*MoveAction).Command`. -/
def MoveAction.Command (_item : Option MoveAction) : Command := .MoveCommand

/-- Go `(*MoveAction).IsNil`. -/
def MoveAction.IsNil (item : Option MoveAction) : Bool := item.isNone

/-- Go `(*MoveAction).Content`: opens the file and reads all of it. The deferred `Close` on
the `nil` file of a failed `Open` returns an error that is dropped. -/
def MoveAction.Content (w : World) (item : Option MoveAction) :
    Except String (List Nat) × List Event :=
  match item with
  | none => (.error "nil item", [])
  | some a =>
    match w.readFile a.FilePath with
    | .openError e => (.error e, [.opened a.FilePath])
    | .readError e => (.error e, [.opened a.FilePath])
    | .data b => (.ok b, [.opened a.FilePath])

/-- Go `(*MoveAction).DelayMillis`: reads `item.Delay`, so a `nil` receiver panics. -/
def MoveAction.DelayMillis (item : Option MoveAction) : Except Failure Int :=
  match item with
  | none => .error (.panic nilDeref)
  | some a => .ok (Milliseconds a.Delay)

/-- Go `(*MoveAction).SetID`. -/
def MoveAction.SetID (item : Option MoveAction) (id : UUID) : Option MoveAction :=
  match item with
  | none => none
  | some a => some { a with ID := id }

/-- Go `(*MoveAction).GetID`. -/
def MoveAction.GetID (item : Option MoveAction) : UUID :=
  match item with
  | none => UUID.Nil
  | some a => a.ID

/-- Interface call `instruction.Command()`. -/
def Instruction.Command : Instruction → Command
  | .say item => SayAction.Command item
  | .move item => MoveAction.Command item
  | .sayAndMove item => SayAndMoveAction.Command item

/-- Interface call `instruction.Content()`. -/
def Instruction.Content (w : World) : Instruction → Except String (List Nat) × List Event
  | .say item => SayAction.Content item
  | .move item => MoveAction.Content w item
  | .sayAndMove item => SayAndMoveAction.Content item

/-- Interface call `instruction.DelayMillis()`. -/
def Instruction.DelayMillis : Instruction → Except Failure Int
  | .say item => SayAction.DelayMillis item
  | .move item => MoveAction.DelayMillis item
  | .sayAndMove item => SayAndMoveAction.DelayMillis item

/-- The closure `send` of `sendInstruction`: marshal the message, write it once. -/
def send (p : PepperMessage) (connection : Conn) : Option Failure × List Event :=
  let b := p.MarshalJSON
  ((connection.WriteMessage b).map Failure.error, [.wrote b])

/-- Go `sendInstruction`. The result is the returned error (`none` for `nil`) or the panic
that aborted the call, with the events of the call in order. -/
def sendInstruction (w : World) (instruction : Instruction) (connection : Option Conn) :
    Option Failure × List Event :=
  match connection with
  | none => (some (.error "websocket connection is nil, Pepper must initiate it first"), [])
  | some conn =>
    if instruction.Command = Command.SayAndMoveCommand then
      match instruction with
      | .sayAndMove none => (some (.panic nilDeref), [])
      | .sayAndMove (some cmd) =>
        match MoveAction.Content w cmd.MoveItem with
        | (.error err, evs) =>
          (some (.error ("can't get content out of MoveItem: " ++ err)), evs)
        | (.ok content, evs) =>
          match MoveAction.DelayMillis cmd.MoveItem with
          | .error f => (some f, evs)
          | .ok delay =>
            let move : PepperMessage :=
              { Command := MoveAction.Command cmd.MoveItem, Content := content, Delay := delay }
            let r := send move conn
            (r.1, evs ++ r.2)
      | _ => (some (.panic "interface conversion"), [])
    else
      match instruction.Content w with
      | (.error err, evs) =>
        (some (.error ("can't get content out of an instruction: " ++ err)), evs)
      | (.ok content, evs) =>
        match instruction.DelayMillis with
        | .error f => (some f, evs)
        | .ok delay =>
          let move : PepperMessage :=
            { Command := instruction.Command, Content := content, Delay := delay }
          let r := send move conn
          (r.1, evs ++ r.2)

/-- Go `Moves.GetByID`: the first entry with the identity; reading `v.ID` of a `nil` entry panics. -/
def Moves.GetByID : Moves → UUID → Except Failure (Option MoveAction)
  | [], _ => .ok none
  | none :: _, _ => .error (.panic nilDeref)
  | some v :: rest, id => if v.ID = id then .ok (some v) else Moves.GetByID rest id

/-- Go `Moves.GetByName`: the first entry with the name; reading `v.Name` of a `nil` entry
panics. -/
def Moves.GetByName : Moves → String → Except Failure (Option MoveAction)
  | [], _ => .ok none
  | none :: _, _ => .error (.panic nilDeref)
  | some v :: rest, name => if v.Name = name then .ok (some v) else Moves.GetByName rest name

/-- The keys of `groupsMap` after the first loop of `GetGroups` has ranged over `ms`:
`nil` entries are skipped, a group already present is not added again. -/
def groupKeys : Moves → List String → List String
  | [], keys => keys
  | none :: rest, keys => groupKeys rest keys
  | some v :: rest, keys => groupKeys rest (if v.Group ∈ keys then keys else keys ++ [v.Group])

/-- Go `sort.Strings`: ascending order of strings, compared character by character. -/
def sortStrings (l : List String) : List String :=
  l.insertionSort fun a b => a.data ≤ b.data

/-- Go `Moves.GetGroups`. The loop ranges over the package variable `moves`, passed here as
the first argument; the receiver `mm` is the second. The keys of a map are distinct, so the
sorted result does not depend on the order in which the second loop visits them. -/
def Moves.GetGroups (moves : Moves) (_mm : Moves) : List String :=
  sortStrings (groupKeys moves [])

/-! ## `sessions.go` -/

/-- The body of the inner loop of `GetInstructionByID` over the items of one session: the
composite returned from inside the loop, or `none` when the loop runs to its end. -/
def scanItems : List SessionItem → UUID → Option SayAndMoveAction
  | [], _ => none
  | item :: more, id =>
    if !SayAndMoveAction.IsNil item.NegativeAnswer
        ∧ SayAndMoveAction.GetID item.NegativeAnswer = id then
      item.NegativeAnswer
    else if !SayAndMoveAction.IsNil item.PositiveAnswer
        ∧ SayAndMoveAction.GetID item.PositiveAnswer = id then
      item.PositiveAnswer
    else if !SayAndMoveAction.IsNil item.Question
        ∧ SayAndMoveAction.GetID item.Question = id then
      item.Question
    else scanItems more id

/-- Go `Sessions.GetInstructionByID`. -/
def Sessions.GetInstructionByID : Sessions → UUID → Option SayAndMoveAction
  | [], _ => none
  | session :: rest, id =>
    match scanItems session.Items id with
    | some found => some found
    | none => Sessions.GetInstructionByID rest id

/-- Go `time.Second`, in nanoseconds. -/
def Second : Int := 1000000000

/-- The composite literal `sessions` at the head of `collectSessions`. Its three calls of
`uuid.Must(uuid.NewRandom())` are evaluated in source order and are the draws 0, 1 and 2. -/
def sessionTemplates (gen : Nat → UUID) : List Session :=
  [ { Name := "Session 1",
      Items := [
        { Question := some {
            SayItem := some {
              Phrase := "Tere, mina olen robot Pepper. Mina olen 6-aastane ja tahan sinuga tuttavaks saada. Mis on sinu nimi?",
              FilePath := "1out_tutvustus.wav" },
            MoveItem := some { Name := "Hello_01", Delay := 0 } },
          PositiveAnswer := some {
            SayItem := some { Phrase := "Nice" },
            MoveItem := some { Name := "NiceReaction_01" } },
          NegativeAnswer := some {
            SayItem := some { Phrase := "Sad" },
            MoveItem := some { Name := "SadReaction_01" } } },
        { Question := some {
            SayItem := some { Phrase := "Kui vana sa oled?", FilePath := "2out_vanus.wav" },
            MoveItem := some { Name := "Show_Hand_Right_02", Delay := 0 } } },
        { Question := some {
            SayItem := some {
              Phrase := "Kas Sul on vendi või õdesid?",
              FilePath := "3out_vennad.wav" },
            MoveItem := some { Name := "Show_Hand_Both_02", Delay := 0 } } },
        { Question := some {
            SayItem := some {
              Phrase := "Ma tulin siia üksi, kuid mu pere on suur ja mööda maailma laiali.",
              FilePath := "3out_vennadVV.wav" },
            MoveItem := some { Name := "Show_Hand_Both_01", Delay := 0 } } },
        { Question := some {
            SayItem := some {
              Phrase := "Mina olen pärit Pariisist ja nüüd meeldib mulle väga Eestis elada. Mis sulle Sinu Eestimaa juures meeldib?",
              FilePath := "4out_päritolu.wav" },
            MoveItem := some { Name := "Show_Self_01", Delay := Second * 5 } } },
        { Question := some {
            SayItem := some {
              Phrase := "Jaa, see on väike ja sõbralik maa ja teil on 4 aastaaega",
              FilePath := "5out_eestimaavastus.wav" },
            MoveItem := some { Name := "NiceReaction_01", Delay := 0 } } } ] },
    { ID := gen 0,
      Name := "Session 2",
      Items := [
        { ID := gen 1, Question := some { SayItem := some { Phrase := "Q1" } } },
        { ID := gen 2, Question := some { SayItem := some { Phrase := "Q2" } } } ] } ]

/-- Number of identities drawn while the literal `sessions` is built. -/
def templateDraws : Nat := 3

/-- The block "initiate unique IDs" for one of the three composites of an item (the source
repeats it for `Question`, `PositiveAnswer`, `NegativeAnswer`). `n` identities have been
drawn before; the result carries the number drawn after. The argument of the outer `SetID`
is evaluated, so drawn, also when the composite is `nil`. -/
def initIDs (gen : Nat → UUID) (c : Option SayAndMoveAction) (n : Nat) :
    Option SayAndMoveAction × Nat :=
  let c1 := SayAndMoveAction.SetID c (gen n)
  if !SayAndMoveAction.IsNil c1 then
    match c1 with
    | some a =>
      (some { a with SayItem := SayAction.SetID a.SayItem (gen (n + 1)),
                     MoveItem := MoveAction.SetID a.MoveItem (gen (n + 2)) }, n + 3)
    | none => (none, n + 1)
  else (c1, n + 1)

/-- The first inner block of the `if item.X != nil` block: the audio path of the composite is
joined under `sayDir` and the session name and must not be reported missing. Reading
`SayItem.FilePath` of a `nil` `SayItem` panics. -/
def resolveSay (w : World) (sayDir sessionName : String) (c : SayAndMoveAction) :
    Except Failure SayAndMoveAction :=
  match c.SayItem with
  | none => .error (.panic nilDeref)
  | some say =>
    if say.FilePath ≠ "" then
      let joined := w.pathJoin sayDir sessionName say.FilePath
      match w.stat joined with
      | .notExist => .error (.error ("stat " ++ joined ++ ": no such file or directory"))
      | _ => .ok { c with SayItem := some { say with FilePath := joined } }
    else .ok c

/-- The second inner block of the `if item.X != nil` block: a `MoveItem` whose `Name` is found
in the library is replaced by a copy of the library entry that keeps the authored `Delay`. -/
def bindMove (moves : Moves) (c : SayAndMoveAction) : Except Failure SayAndMoveAction :=
  match c.MoveItem with
  | none => .ok c
  | some authored =>
    match Moves.GetByName moves authored.Name with
    | .error f => .error f
    | .ok none => .ok c
    | .ok (some v) =>
      let m : MoveAction := { v with Delay := authored.Delay }
      .ok { c with MoveItem := some m }

/-- The block `if item.X != nil { ... }` for one of the three composites of an item. -/
def resolveComposite (w : World) (sayDir sessionName : String) (moves : Moves)
    (c : Option SayAndMoveAction) : Except Failure (Option SayAndMoveAction) :=
  match c with
  | none => .ok none
  | some a =>
    match resolveSay w sayDir sessionName a with
    | .error f => .error f
    | .ok a1 =>
      match bindMove moves a1 with
      | .error f => .error f
      | .ok a2 => .ok (some a2)

/-- The body of the loop over the items of a session. -/
def processItem (w : World) (gen : Nat → UUID) (sayDir sessionName : String) (moves : Moves)
    (item : SessionItem) (n : Nat) : Except Failure (SessionItem × Nat) :=
  let q := initIDs gen item.Question n
  let p := initIDs gen item.PositiveAnswer q.2
  let g := initIDs gen item.NegativeAnswer p.2
  match resolveComposite w sayDir sessionName moves q.1 with
  | .error f => .error f
  | .ok question =>
    match resolveComposite w sayDir sessionName moves p.1 with
    | .error f => .error f
    | .ok positive =>
      match resolveComposite w sayDir sessionName moves g.1 with
      | .error f => .error f
      | .ok negative =>
        .ok ({ item with Question := question, PositiveAnswer := positive,
                         NegativeAnswer := negative }, g.2)

/-- The loop over the items of a session. -/
def processItems (w : World) (gen : Nat → UUID) (sayDir sessionName : String) (moves : Moves) :
    List SessionItem → Nat → Except Failure (List SessionItem × Nat)
  | [], n => .ok ([], n)
  | item :: rest, n =>
    match processItem w gen sayDir sessionName moves item n with
    | .error f => .error f
    | .ok (item1, n1) =>
      match processItems w gen sayDir sessionName moves rest n1 with
      | .error f => .error f
      | .ok (rest1, n2) => .ok (item1 :: rest1, n2)

/-- The body of the loop over the sessions: a fresh session identity, then the items. -/
def processSession (w : World) (gen : Nat → UUID) (sayDir : String) (moves : Moves)
    (s : Session) (n : Nat) : Except Failure (Session × Nat) :=
  match processItems w gen sayDir s.Name moves s.Items (n + 1) with
  | .error f => .error f
  | .ok (items, n1) => .ok ({ s with ID := gen n, Items := items }, n1)

/-- The loop of `collectSessions` over a list of session templates, `n` identities drawn
before it starts. -/
def buildSessions (w : World) (gen : Nat → UUID) (sayDir : String) (moves : Moves) :
    List Session → Nat → Except Failure (List Session × Nat)
  | [], n => .ok ([], n)
  | s :: rest, n =>
    match processSession w gen sayDir moves s n with
    | .error f => .error f
    | .ok (s1, n1) =>
      match buildSessions w gen sayDir moves rest n1 with
      | .error f => .error f
      | .ok (rest1, n2) => .ok (s1 :: rest1, n2)

/-- Go `collectSessions`: the loop run over the hard-coded templates. An error result stands
for the Go result `nil, err`. -/
def collectSessions (w : World) (gen : Nat → UUID) (sayDir : String) (moves : Moves) :
    Except Failure (List Session) :=
  match buildSessions w gen sayDir moves (sessionTemplates gen) templateDraws with
  | .error f => .error f
  | .ok (sessions, _) => .ok sessions

/-! ## Vocabulary of the properties -/

/-- The non-nil composites of an item, in the order in which `GetInstructionByID` tests them:
`NegativeAnswer`, `PositiveAnswer`, `Question`. -/
def slots (item : SessionItem) : List SayAndMoveAction :=
  [item.NegativeAnswer, item.PositiveAnswer, item.Question].reduceOption

/-- The non-nil composites of a session tree: sessions in order, items in order, and the
composites of an item in the order of `slots`. A composite held twice is listed twice. -/
def composites (ss : Sessions) : List SayAndMoveAction :=
  ss.flatMap fun s => s.Items.flatMap slots

/-- The identities of the actions of a composite: its own, that of its `SayItem` and that of
its `MoveItem`, each when present. -/
def SayAndMoveAction.actionIDs (c : SayAndMoveAction) : List UUID :=
  c.ID :: ((c.SayItem.map fun a => a.ID).toList ++ (c.MoveItem.map fun a => a.ID).toList)

/-- The identities of all actions reachable from a session tree. -/
def actionIDs (ss : Sessions) : List UUID :=
  (composites ss).flatMap SayAndMoveAction.actionIDs

/-- The identities of the library entries (the `nil` entries have none). -/
def Moves.ids (mm : Moves) : List UUID :=
  mm.reduceOption.map fun v => v.ID

/-- The first library entry with the name, the `nil` entries left aside. -/
def Moves.firstNamed (mm : Moves) (name : String) : Option MoveAction :=
  mm.reduceOption.find? fun v => v.Name = name

/-- What the builder owes a `MoveItem`: the built one has the authored `Delay`; its `Name`,
`FilePath` and `Group` are those of the first library entry with the authored `Name` when
there is one, and the authored ones when there is none. -/
def MoveBound (moves : Moves) (authored built : MoveAction) : Prop :=
  built.Delay = authored.Delay ∧
  (∀ v, Moves.firstNamed moves authored.Name = some v →
    built.Name = v.Name ∧ built.FilePath = v.FilePath ∧ built.Group = v.Group) ∧
  (Moves.firstNamed moves authored.Name = none →
    built.Name = authored.Name ∧ built.FilePath = authored.FilePath ∧
      built.Group = authored.Group)

/-- An authored composite with a non-nil `MoveItem` is built into a non-nil composite whose
`MoveItem` is bound as `MoveBound` says. -/
def CompositeBound (moves : Moves) (authored built : Option SayAndMoveAction) : Prop :=
  ∀ a m, authored = some a → a.MoveItem = some m →
    ∃ b k, built = some b ∧ b.MoveItem = some k ∧ MoveBound moves m k

/-- The three composites of an authored item are built as `CompositeBound` says. -/
def ItemBound (moves : Moves) (authored built : SessionItem) : Prop :=
  CompositeBound moves authored.Question built.Question ∧
  CompositeBound moves authored.PositiveAnswer built.PositiveAnswer ∧
  CompositeBound moves authored.NegativeAnswer built.NegativeAnswer

/-- The items of an authored session are built one for one as `ItemBound` says. -/
def SessionBound (moves : Moves) (authored built : Session) : Prop :=
  List.Forall₂ (ItemBound moves) authored.Items built.Items

/-- The `MoveItem` of the named composite in the first item of the first session. -/
def firstMove (ss : Sessions) (sel : SessionItem → Option SayAndMoveAction) : Option MoveAction :=
  ss.head?.bind fun s => s.Items.head?.bind fun item => (sel item).bind fun c => c.MoveItem

/-- A composite, when not nil, has a `SayItem`. -/
def HasSay (c : Option SayAndMoveAction) : Prop :=
  ∀ a, c = some a → a.SayItem ≠ none

/-- Each of the three composites of an item, when not nil, has a `SayItem`. -/
def ItemHasSay (item : SessionItem) : Prop :=
  HasSay item.Question ∧ HasSay item.PositiveAnswer ∧ HasSay item.NegativeAnswer

/-! ## Concrete inputs used to evaluate the code -/

/-- A file system in which every path exists and every file holds the three bytes of "xyz";
paths are joined by `path.Join`. -/
def demoWorld : World :=
  { stat := fun _ => .found,
    readFile := fun _ => .data [0x78, 0x79, 0x7A],
    pathJoin := fun a b c => pathJoin [a, b, c] }

/-- A file system in which every file holds the three bytes ff fe 41, which are not valid
UTF-8. -/
def rawWorld : World :=
  { demoWorld with readFile := fun _ => .data [0xFF, 0xFE, 0x41] }

/-- A file system in which every path exists but no file can be opened. -/
def lockedWorld : World :=
  { demoWorld with readFile := fun p => .openError ("open " ++ p ++ ": no such file or directory") }

/-- An identity stream without repetition that yields even numbers from 2 on: never the zero
identity and never an odd number. -/
def demoGen (k : Nat) : UUID := 2 * k + 2

/-- A connection whose writes succeed. -/
def demoConn : Conn := { WriteMessage := fun _ => none }

/-- A library with the two motions "Hello_01" and "NiceReaction_01". -/
def demoLibrary : Moves :=
  [ some { ID := 1, Name := "Hello_01", FilePath := "/lib/Greetings/Hello_01.qianim",
           Delay := 7, Group := "Greetings" },
    some { ID := 3, Name := "NiceReaction_01", FilePath := "/lib/Reactions/NiceReaction_01.qianim",
           Group := "Reactions" } ]

/-- The sessions `collectSessions` returns for `demoWorld`, `demoGen`, the audio root "/audio"
and `demoLibrary` (the empty list if it returned none). -/
def demoSessions : Sessions :=
  match collectSessions demoWorld demoGen "/audio" demoLibrary with
  | .ok ss => ss
  | .error _ => []

/-- A small session tree: one item with a `Question` and a `NegativeAnswer`, no
`PositiveAnswer`. -/
def demoTree : Sessions :=
  [ { ID := 2, Name := "S",
      Items := [ { ID := 4,
                   Question := some { ID := 6, SayItem := some { ID := 8, Phrase := "Q" } },
                   NegativeAnswer := some { ID := 10, SayItem := some { ID := 12, Phrase := "N" } } } ] } ]


/-- A session tree with repeated identities: in the first item `NegativeAnswer` and `Question`
share the identity 5; the identity 7 is carried by the `Question` of the second item and by the
`NegativeAnswer` of the third; the identity 9 is carried by a `PositiveAnswer` in the first
session and by a `NegativeAnswer` in the second. -/
def clashTree : Sessions :=
  [ { ID := 2, Name := "A",
      Items := [
        { Question := some { ID := 5, SayItem := some { Phrase := "question" } },
          NegativeAnswer := some { ID := 5, SayItem := some { Phrase := "negative" } } },
        { Question := some { ID := 7, SayItem := some { Phrase := "early" } },
          PositiveAnswer := some { ID := 9, SayItem := some { Phrase := "first" } } },
        { NegativeAnswer := some { ID := 7, SayItem := some { Phrase := "late" } } } ] },
    { ID := 4, Name := "B",
      Items := [
        { NegativeAnswer := some { ID := 9, SayItem := some { Phrase := "second" } } } ] } ]

/-! ## Motion library discovery (`collectMoves`) -/

/-- Go `strings.Split(s, "/")` on the characters of `s`: the pieces between the slashes, one
more than there are slashes. -/
def splitSlash : List Char → List (List Char)
  | [] => [[]]
  | c :: rest =>
    if c = '/' then [] :: splitSlash rest
    else
      match splitSlash rest with
      | [] => [[c]]
      | piece :: pieces => (c :: piece) :: pieces

/-- The scan of Go `filepath.Ext` from the end of the path: `rev` is what is left of the
reversed path, `acc` the characters already passed. -/
def extScan : List Char → List Char → List Char
  | [], _ => []
  | c :: rev, acc =>
    if c = '/' then []
    else if c = '.' then '.' :: acc
    else extScan rev (c :: acc)

/-- Go `filepath.Ext`: the suffix beginning at the final dot of the final element of the path,
empty if there is no dot. -/
def filepathExt (path : List Char) : List Char :=
  extScan path.reverse []

/-- The first occurrence of the non-empty `old` in the string is removed. -/
def removeFirst (old : List Char) : List Char → List Char
  | [] => []
  | c :: rest =>
    if old.isPrefixOf (c :: rest) then (c :: rest).drop old.length
    else c :: removeFirst old rest

/-- Go `strings.Replace(s, old, "", 1)`: `s` itself when `old` is empty (then `old` equals
the replacement), otherwise `s` without the first occurrence of `old`. -/
def replaceOnce (s old : List Char) : List Char :=
  if old = [] then s else removeFirst old s

/-- The body of the loop of `collectMoves` for one match: the library entry built for the
path, with the identity drawn for it. Indexing `parts[len(parts)-2]` panics when the path has
no slash. -/
def moveOfMatch (id : UUID) (path : String) : Except Failure MoveAction :=
  let parts := splitSlash path.data
  match parts.reverse with
  | basename :: parent :: _ =>
    let name := replaceOnce basename (filepathExt basename)
    .ok { ID := id, FilePath := path, Group := String.mk parent, Name := String.mk name }
  | _ => .error (.panic "index out of range")

/-- The loop of `collectMoves` over the matches, `n` identities drawn before. -/
def movesOfMatches (gen : Nat → UUID) : List String → Nat → Except Failure Moves
  | [], _ => .ok []
  | path :: rest, n =>
    match moveOfMatch (gen n) path with
    | .error f => .error f
    | .ok m =>
      match movesOfMatches gen rest (n + 1) with
      | .error f => .error f
      | .ok ms => .ok (some m :: ms)

/-! ## Glob patterns (`path/filepath`) -/

/-- Go `filepath.ErrBadPattern`. -/
def ErrBadPattern : String := "syntax error in pattern"

/-- The scan of Go `scanChunk` over a pattern without leading stars: the chunk up to the first
star outside a character class, and the rest. `esc` holds after a backslash, `inrange` inside
brackets. -/
def splitChunk : Bool → Bool → List Nat → List Nat × List Nat
  | _, _, [] => ([], [])
  | true, inrange, c :: r =>
    let p := splitChunk false inrange r
    (c :: p.1, p.2)
  | false, inrange, c :: r =>
    if c = 92 then
      let p := splitChunk true inrange r
      (c :: p.1, p.2)
    else if c = 91 then
      let p := splitChunk false true r
      (c :: p.1, p.2)
    else if c = 93 then
      let p := splitChunk false false r
      (c :: p.1, p.2)
    else if c = 42 ∧ !inrange then ([], c :: r)
    else
      let p := splitChunk false inrange r
      (c :: p.1, p.2)

/-- Go `scanChunk`: whether the pattern starts with a star, the chunk after the leading stars
and the rest of the pattern. -/
def scanChunk (pattern : List Nat) : Bool × List Nat × List Nat :=
  let p := splitChunk false false (pattern.dropWhile fun c => c = 42)
  (pattern.head? = some 42, p.1, p.2)

/-- Go `getEsc`: a possibly escaped rune of a character class and the number of bytes it takes
of the chunk; the chunk must go on after it. -/
def getEsc (chunk : List Nat) : Except String (Nat × Nat) :=
  match chunk with
  | [] => .error ErrBadPattern
  | c :: rest =>
    if c = 45 ∨ c = 93 then .error ErrBadPattern
    else if c = 92 ∧ rest = [] then .error ErrBadPattern
    else
      let body := if c = 92 then rest else c :: rest
      let d := decodeRune body
      if (d.1 = RuneError ∧ d.2 = 1) ∨ body.drop d.2 = [] then .error ErrBadPattern
      else .ok (d.1, d.2 + if c = 92 then 1 else 0)

/-- The loop of Go `matchChunk` over the ranges of a character class, after the opening
bracket and the negation sign: whether the rune `r` is in a range, and the chunk after the
closing bracket. `skip` counts the bytes still to pass of the range read last. -/
def parseClass (r : Nat) : Nat → Bool → Nat → List Nat → Except String (Bool × List Nat)
  | _, _, _, [] => .error ErrBadPattern
  | skip + 1, matched, nrange, _ :: ch => parseClass r skip matched nrange ch
  | 0, matched, nrange, c :: ch =>
    if c = 93 ∧ nrange > 0 then .ok (matched, ch)
    else
      match getEsc (c :: ch) with
      | .error e => .error e
      | .ok (lo, n1) =>
        if ((c :: ch).drop n1).head? = some 45 then
          match getEsc ((c :: ch).drop (n1 + 1)) with
          | .error e => .error e
          | .ok (hi, n2) =>
            parseClass r (n1 + n2) (matched || decide (lo ≤ r ∧ r ≤ hi)) (nrange + 1) ch
        else parseClass r (n1 - 1) (matched || decide (lo ≤ r ∧ r ≤ lo)) (nrange + 1) ch

/-- The loop of Go `matchChunk`: the chunk is matched against the start of `s`; after a
mismatch (`failed`) the chunk is still read to its end to check that it is well formed. The
result is what is left of `s` after a match. `skip` counts the bytes of the chunk still to
pass of the item read last. -/
def matchChunkFrom : Nat → List Nat → List Nat → Bool → Except String (Option (List Nat))
  | _, [], s, failed => if failed then .ok none else .ok (some s)
  | skip + 1, _ :: ch, s, failed => matchChunkFrom skip ch s failed
  | 0, c :: ch, s, failed0 =>
    let failed := failed0 || s.isEmpty
    if c = 91 then
      let r := if failed then 0 else (decodeRune s).1
      let s1 := if failed then s else s.drop (decodeRune s).2
      let negated := decide (ch.head? = some 94)
      match parseClass r 0 false 0 (if negated then ch.drop 1 else ch) with
      | .error e => .error e
      | .ok (matched, rest) =>
        matchChunkFrom (ch.length - rest.length) ch s1 (failed || (matched == negated))
    else if c = 63 then
      if failed then matchChunkFrom 0 ch s failed
      else matchChunkFrom 0 ch (s.drop (decodeRune s).2) (decide (s.head? = some 47))
    else if c = 92 then
      match ch with
      | [] => .error ErrBadPattern
      | e :: _ =>
        if failed then matchChunkFrom 1 ch s failed
        else matchChunkFrom 1 ch (s.drop 1) (decide (s.head? ≠ some e))
    else
      if failed then matchChunkFrom 0 ch s failed
      else matchChunkFrom 0 ch (s.drop 1) (decide (s.head? ≠ some c))

/-- Go `matchChunk`. -/
def matchChunk (chunk s : List Nat) : Except String (Option (List Nat)) :=
  matchChunkFrom 0 chunk s false

/-- The loop of Go `Match` that looks for a match of the chunk after a star: the star takes
one more byte of the name at a time, never a slash. `last` holds when the chunk is the last
one, which must then match to the end of the name. -/
def starSearch (chunk : List Nat) (last : Bool) : List Nat → Except String (Option (List Nat))
  | [] => .ok none
  | c :: rest =>
    if c = 47 then .ok none
    else
      match matchChunk chunk rest with
      | .error e => .error e
      | .ok (some t) => if last ∧ t ≠ [] then starSearch chunk last rest else .ok (some t)
      | .ok none => starSearch chunk last rest

/-- The last loop of Go `Match`: the chunks of the rest of the pattern are checked to be well
formed. -/
def checkRest : Nat → List Nat → Except String Unit
  | _, [] => .ok ()
  | skip + 1, _ :: p => checkRest skip p
  | 0, c :: p =>
    let sc := scanChunk (c :: p)
    match matchChunk sc.2.1 [] with
    | .error e => .error e
    | .ok _ => checkRest (p.length - sc.2.2.length) p

/-- The outer loop of Go `Match` over the chunks of the pattern. -/
def matchFrom : Nat → List Nat → List Nat → Except String Bool
  | _, [], name => .ok name.isEmpty
  | skip + 1, _ :: p, name => matchFrom skip p name
  | 0, c :: p, name =>
    let sc := scanChunk (c :: p)
    if sc.1 ∧ sc.2.1 = [] then .ok (!name.contains 47)
    else
      match matchChunk sc.2.1 name with
      | .error e => .error e
      | .ok r =>
        match (match r with
               | some t => if t = [] ∨ sc.2.2 ≠ [] then some t else none
               | none => none) with
        | some t => matchFrom (p.length - sc.2.2.length) p t
        | none =>
          match (if sc.1 then starSearch sc.2.1 (decide (sc.2.2 = [])) name else .ok none) with
          | .error e => .error e
          | .ok (some t) => matchFrom (p.length - sc.2.2.length) p t
          | .ok none =>
            match checkRest 0 sc.2.2 with
            | .error e => .error e
            | .ok _ => .ok false

/-- Go `filepath.Match` on a slash-separated system. -/
def filepathMatch (pattern name : String) : Except String Bool :=
  matchFrom 0 (stringBytes pattern) (stringBytes name)

/-- Go `hasMeta` on a slash-separated system. -/
def hasMeta (path : String) : Bool :=
  path.data.any fun c => c = '*' || c = '?' || c = '[' || c = '\\'

/-- Go `cleanGlobPath`: the directory part of a pattern without its trailing slash. -/
def cleanGlobPath (path : String) : String :=
  if path = "" then "."
  else if path = "/" then "/"
  else String.mk path.data.dropLast

/-- What `filepath.Glob` reads of the file system: whether `os.Lstat` finds a path, and the
names in a directory as `Readdirnames` reads them, `none` for a path that is no directory or
cannot be read. -/
structure Dirs where
  lstat : String → Bool
  readDirNames : String → Option (List String)

/-- The loop of Go `glob` over the sorted names of a directory. -/
def globNames (pattern dir : String) : List String → List String → Except String (List String)
  | [], acc => .ok acc
  | n :: rest, acc =>
    match filepathMatch pattern n with
    | .error e => .error e
    | .ok matched =>
      globNames pattern dir rest (if matched then acc ++ [pathJoin [dir, n]] else acc)

/-- Go `glob`: the names of the directory that match the pattern, joined to the directory and
appended to the matches; a directory that cannot be read adds nothing. -/
def glob (fs : Dirs) (dir pattern : String) (acc : List String) : Except String (List String) :=
  match fs.readDirNames dir with
  | none => .ok acc
  | some names => globNames pattern dir (sortStrings names) acc

/-- The loop of Go `globWithLimit` over the matches of the directory part. -/
def globEach (fs : Dirs) (file : String) : List String → List String → Except String (List String)
  | [], acc => .ok acc
  | d :: rest, acc =>
    match glob fs d file acc with
    | .error e => .error e
    | .ok acc1 => globEach fs file rest acc1

/-- Go `globWithLimit`; `limit` is the number of nested calls still allowed, 10000 less the
depth of the call. -/
def globWithLimit (fs : Dirs) : Nat → String → Except String (List String)
  | 0, _ => .error ErrBadPattern
  | limit + 1, pattern =>
    match filepathMatch pattern "" with
    | .error e => .error e
    | .ok _ =>
      if !hasMeta pattern then
        if fs.lstat pattern then .ok [pattern] else .ok []
      else
        let dir := cleanGlobPath (filepathSplit pattern).1
        let file := (filepathSplit pattern).2
        if !hasMeta dir then glob fs dir file []
        else if dir = pattern then .error ErrBadPattern
        else
          match globWithLimit fs limit dir with
          | .error e => .error e
          | .ok m => globEach fs file m []

/-- Go `filepath.Glob`. When it returns an error the matches found so far are not kept. -/
def filepathGlob (fs : Dirs) (pattern : String) : Except String (List String) :=
  globWithLimit fs 10000 pattern

/-- Go `collectMoves` on the directories `fs`; `n` identities have been drawn before the
call. -/
def collectMoves (fs : Dirs) (gen : Nat → UUID) (n : Nat) (dataDir : String) :
    Except Failure Moves :=
  let query := pathJoin [dataDir, "**/*.qianim"]
  match filepathGlob fs query with
  | .error err => .error (.error err)
  | .ok matched => movesOfMatches gen matched n

/-- The paths of a directory tree under "data": a motion file one directory below "data", one
two directories below it, and one directly in it. -/
def demoTreePaths : List String :=
  [ "data", "data/top.qianim", "data/a", "data/a/x.qianim", "data/a/notes.txt",
    "data/a/b", "data/a/b/y.qianim" ]

/-- The directory tree of `demoTreePaths`, the names of each directory in the order in which
they are read. -/
def demoDirs : Dirs :=
  { lstat := fun p => decide (p ∈ demoTreePaths),
    readDirNames := fun d =>
      if d = "data" then some ["top.qianim", "a"]
      else if d = "data/a" then some ["x.qianim", "notes.txt", "b"]
      else if d = "data/a/b" then some ["y.qianim"]
      else none }

/-- A directory tree under "data" with the one motion file "data/g/a.qianimb.qianim". -/
def oddDirs : Dirs :=
  { lstat := fun p => decide (p ∈ ["data", "data/g", "data/g/a.qianimb.qianim"]),
    readDirNames := fun d =>
      if d = "data" then some ["g"]
      else if d = "data/g" then some ["a.qianimb.qianim"]
      else none }

/-! ## Identities as text (`github.com/google/uuid`) -/

/-- The sixteen bytes of an identity, most significant first. -/
def uuidBytes (id : UUID) : List Nat :=
  [15, 14, 13, 12, 11, 10, 9, 8, 7, 6, 5, 4, 3, 2, 1, 0].map fun i => id / 256 ^ i % 256

/-- The lower-case hexadecimal digit of a number below 16. -/
def hexChar (n : Nat) : Char :=
  Char.ofNat (if n < 10 then 48 + n else 87 + n)

/-- Go `hex.Encode`: two lower-case hexadecimal digits for every byte. -/
def hexEncode (bytes : List Nat) : List Char :=
  bytes.flatMap fun b => [hexChar (b / 16 % 16), hexChar (b % 16)]

/-- Go `UUID.String`: the form xxxxxxxx-xxxx-xxxx-xxxx-xxxxxxxxxxxx of the sixteen bytes. -/
def uuidString (id : UUID) : List Char :=
  let b := uuidBytes id
  hexEncode (b.take 4) ++ '-' :: hexEncode ((b.drop 4).take 2) ++ '-' ::
    hexEncode ((b.drop 6).take 2) ++ '-' :: hexEncode ((b.drop 8).take 2) ++ '-' ::
    hexEncode (b.drop 10)

/-- The value of a hexadecimal digit, of either case (the table `xvalues` of the library). -/
def hexValue (c : Char) : Option Nat :=
  let n := c.toNat
  if 48 ≤ n ∧ n ≤ 57 then some (n - 48)
  else if 97 ≤ n ∧ n ≤ 102 then some (n - 87)
  else if 65 ≤ n ∧ n ≤ 70 then some (n - 55)
  else none

/-- The function `xtob` of the library: the byte written by two hexadecimal digits. -/
def xtob (x1 x2 : Char) : Option Nat :=
  match hexValue x1, hexValue x2 with
  | some a, some b => some (a * 16 + b)
  | _, _ => none

/-- The bytes written at the given positions of the text, each by two digits, or `none` when
a digit is not hexadecimal. -/
def bytesAt (s : List Char) : List Nat → Option (List Nat)
  | [] => some []
  | x :: xs =>
    match xtob (s.getD x ' ') (s.getD (x + 1) ' '), bytesAt s xs with
    | some b, some bs => some (b :: bs)
    | _, _ => none

/-- The identity that sixteen bytes encode. -/
def uuidOfBytes (bytes : List Nat) : UUID :=
  bytes.foldl (fun acc b => acc * 256 + b) 0

/-- The last step of Go `uuid.Parse`, on a text that starts with the 36 characters of the
dashed form: the four dashes are checked, then the sixteen bytes are read. -/
def parseDashed (s : List Char) : Except String UUID :=
  if s.getD 8 ' ' ≠ '-' ∨ s.getD 13 ' ' ≠ '-' ∨ s.getD 18 ' ' ≠ '-' ∨ s.getD 23 ' ' ≠ '-' then
    .error "invalid UUID format"
  else
    match bytesAt s [0, 2, 4, 6, 9, 11, 14, 16, 19, 21, 24, 26, 28, 30, 32, 34] with
    | none => .error "invalid UUID format"
    | some bytes => .ok (uuidOfBytes bytes)

/-- Go `uuid.Parse`: by the length of the text it reads the dashed form, the dashed form
after "urn:uuid:" (in any case), the dashed form in braces, or 32 digits without dashes. -/
def uuidParse (s : List Char) : Except String UUID :=
  if s.length = 36 then parseDashed s
  else if s.length = 36 + 9 then
    if (s.take 9).map Char.toLower ≠ "urn:uuid:".data then .error "invalid urn prefix"
    else parseDashed (s.drop 9)
  else if s.length = 36 + 2 then parseDashed (s.drop 1)
  else if s.length = 32 then
    match bytesAt s [0, 2, 4, 6, 8, 10, 12, 14, 16, 18, 20, 22, 24, 26, 28, 30] with
    | none => .error "invalid UUID format"
    | some bytes => .ok (uuidOfBytes bytes)
  else .error "invalid UUID length"

/-- Go `(*SayAndMoveAction).IsValid`. Reading `item.SayItem.Phrase` panics when the `SayItem`
of a non-nil composite is `nil`. -/
def SayAndMoveAction.IsValid (item : Option SayAndMoveAction) : Except Failure Bool :=
  match item with
  | none => .ok false
  | some a =>
    match uuidParse (uuidString a.ID) with
    | .error _ => .ok false
    | .ok _ =>
      match a.SayItem with
      | none => .error (.panic nilDeref)
      | some say =>
        if say.Phrase = "" ∨ say.FilePath = "" then .ok false else .ok true

/-! ## Vocabulary of the builder properties -/

/-- The number of identities that the block "initiate unique IDs" draws for a composite: one
for the composite, and two more for its inner actions when it is not nil. -/
def drawsOf (c : Option SayAndMoveAction) : Nat :=
  if c.isSome then 3 else 1

/-- One composite taken through the builder alone: the identity block with `n` identities
drawn before, then its `if item.X != nil` block. -/
def buildComposite (w : World) (gen : Nat → UUID) (sayDir sessionName : String) (moves : Moves)
    (c : Option SayAndMoveAction) (n : Nat) : Except Failure (Option SayAndMoveAction) :=
  resolveComposite w sayDir sessionName moves (initIDs gen c n).1

/-- The `SayItem` owed to an authored one: the drawn identity, the authored phrase, and the
authored path joined under the audio root and the session name unless it is empty. -/
def builtSay (w : World) (gen : Nat → UUID) (sayDir sessionName : String) (say : SayAction)
    (n : Nat) : SayAction :=
  { ID := gen (n + 1), Phrase := say.Phrase,
    FilePath := if say.FilePath = "" then "" else w.pathJoin sayDir sessionName say.FilePath }

/-- The `MoveItem` owed to an authored one: the first library entry with its name, with the
authored delay, or the authored one with its drawn identity when no entry has the name. -/
def builtMove (gen : Nat → UUID) (moves : Moves) (m : MoveAction) (n : Nat) : MoveAction :=
  match Moves.firstNamed moves m.Name with
  | some v => { v with Delay := m.Delay }
  | none => { m with ID := gen (n + 2) }

/-- A relation between the three authored composites of an item and the built ones; the item
keeps its own identity. -/
def ItemRel (R : Option SayAndMoveAction → Option SayAndMoveAction → Prop)
    (authored built : SessionItem) : Prop :=
  built.ID = authored.ID ∧ R authored.Question built.Question ∧
    R authored.PositiveAnswer built.PositiveAnswer ∧
    R authored.NegativeAnswer built.NegativeAnswer

/-- A relation between the composites of an authored session and of the built one, item for
item; the relation may depend on the session name, which the session keeps. -/
def SessionRel (R : String → Option SayAndMoveAction → Option SayAndMoveAction → Prop)
    (authored built : Session) : Prop :=
  built.Name = authored.Name ∧ built.Description = authored.Description ∧
    List.Forall₂ (ItemRel (R authored.Name)) authored.Items built.Items

/-- The audio file of a composite is reported missing: its `SayItem` has a non-empty path and
`os.Stat` of the joined path gives an error for which `os.IsNotExist` holds. -/
def SayMissing (w : World) (sayDir sessionName : String) (c : SayAndMoveAction) : Prop :=
  ∃ say, c.SayItem = some say ∧ say.FilePath ≠ "" ∧
    w.stat (w.pathJoin sayDir sessionName say.FilePath) = .notExist

/-- Some non-nil composite of the templates has its audio file reported missing. -/
def AudioMissing (w : World) (sayDir : String) (templates : List Session) : Prop :=
  ∃ s ∈ templates, ∃ item ∈ s.Items, ∃ c ∈ slots item, SayMissing w sayDir s.Name c

/-- The audio file of every non-nil composite of the templates that names one exists. -/
def AudioFound (w : World) (sayDir : String) (templates : List Session) : Prop :=
  ∀ s ∈ templates, ∀ item ∈ s.Items, ∀ c ∈ slots item, ∀ say, c.SayItem = some say →
    say.FilePath ≠ "" → w.stat (w.pathJoin sayDir s.Name say.FilePath) = .found

/-- The built composite is nil exactly when the authored one is, and the `SayItem` of a
non-nil one keeps its phrase and has its path joined under the audio root and the session
name, an empty path staying empty. -/
def SayResolved (w : World) (sayDir sessionName : String)
    (authored built : Option SayAndMoveAction) : Prop :=
  (authored = none → built = none) ∧
  ∀ a, authored = some a → ∃ b say say1, built = some b ∧ a.SayItem = some say ∧
    b.SayItem = some say1 ∧ say1.Phrase = say.Phrase ∧
    say1.FilePath
      = if say.FilePath = "" then "" else w.pathJoin sayDir sessionName say.FilePath

/-- A file system in which every path exists but the audio file of the second question of
Session 1. -/
def missingWorld : World :=
  { demoWorld with
    stat := fun p => if p = "/audio/Session 1/2out_vanus.wav" then .notExist else .found }

/-- A non-nil authored composite with a nil `MoveItem` is built into a non-nil composite with
a nil `MoveItem`. -/
def NilMoveKept (authored built : Option SayAndMoveAction) : Prop :=
  ∀ a, authored = some a → a.MoveItem = none → ∃ b, built = some b ∧ b.MoveItem = none

/-- The first library entry with the identity, the `nil` entries left aside. -/
def Moves.firstWithID (mm : Moves) (id : UUID) : Option MoveAction :=
  mm.reduceOption.find? fun v => v.ID = id

/-- An authored composite whose `MoveItem` names a library motion is built with a `MoveItem`
that carries the identity of the first library entry `v` of that name, and looking that
identity up in the library gives `v`. -/
def MoveIdentity (moves : Moves) (authored built : Option SayAndMoveAction) : Prop :=
  ∀ a m v, authored = some a → a.MoveItem = some m →
    Moves.firstNamed moves m.Name = some v →
      ∃ b k, built = some b ∧ b.MoveItem = some k ∧ k.ID = v.ID ∧
        Moves.GetByID moves k.ID = .ok (some v)

/-! ## The builder at the level of pointers to `MoveAction`

The library and the session tree hold `*MoveAction`. To speak about which objects a run
writes, this section embeds the builder once more with the `MoveAction` objects in an explicit
store: a pointer is an address in the store or nil, a composite literal `&MoveAction{...}` and
the local `m` whose address is taken allocate a new object, and every function returns the
store it leaves behind, also when it fails. -/

/-- An address of a `MoveAction` object. -/
abbrev Ptr := Nat

/-- The `MoveAction` objects, by address; a new object is allocated at the end. -/
abbrev Store := List MoveAction

/-- The object a non-nil pointer points to. -/
def deref (st : Store) (p : Ptr) : MoveAction := st.getD p {}

/-- Go `SayAndMoveAction` with its `MoveItem` as a pointer. -/
structure HeapAction where
  ID : UUID := 0
  SayItem : Option SayAction := none
  MoveItem : Option Ptr := none
  deriving DecidableEq, Repr

/-- Go `SessionItem` over `HeapAction`. -/
structure HeapItem where
  ID : UUID := 0
  Question : Option HeapAction := none
  PositiveAnswer : Option HeapAction := none
  NegativeAnswer : Option HeapAction := none
  deriving DecidableEq, Repr

/-- Go `Session` over `HeapItem`. -/
structure HeapSession where
  ID : UUID := 0
  Name : String := ""
  Description : String := ""
  Items : List HeapItem := []
  deriving DecidableEq, Repr

/-- Go `Moves` as the slice of pointers it is. -/
abbrev HeapMoves := List (Option Ptr)

/-- Go `(*MoveAction).SetID` through a pointer: nothing for nil, else the identity of the
object is overwritten. -/
def setMoveID (st : Store) (item : Option Ptr) (id : UUID) : Store :=
  match item with
  | none => st
  | some p => st.set p { deref st p with ID := id }

/-- Go `Moves.GetByName` over pointers: the first entry whose object has the name. -/
def heapGetByName (st : Store) : HeapMoves → String → Except Failure (Option Ptr)
  | [], _ => .ok none
  | none :: _, _ => .error (.panic nilDeref)
  | some v :: rest, name =>
    if (deref st v).Name = name then .ok (some v) else heapGetByName st rest name

/-- The block "initiate unique IDs" for one composite, over pointers. -/
def heapInitIDs (gen : Nat → UUID) (c : Option HeapAction) (n : Nat) (st : Store) :
    Option HeapAction × Nat × Store :=
  match c with
  | none => (none, n + 1, st)
  | some a =>
    (some { a with ID := gen n, SayItem := SayAction.SetID a.SayItem (gen (n + 1)) }, n + 3,
      setMoveID st a.MoveItem (gen (n + 2)))

/-- The audio step of the `if item.X != nil` block, over pointers; it touches no
`MoveAction`. -/
def heapResolveSay (w : World) (sayDir sessionName : String) (c : HeapAction) :
    Except Failure HeapAction :=
  match c.SayItem with
  | none => .error (.panic nilDeref)
  | some say =>
    if say.FilePath ≠ "" then
      let joined := w.pathJoin sayDir sessionName say.FilePath
      match w.stat joined with
      | .notExist => .error (.error ("stat " ++ joined ++ ": no such file or directory"))
      | _ => .ok { c with SayItem := some { say with FilePath := joined } }
    else .ok c

/-- The library step of the `if item.X != nil` block, over pointers: `m := *v` copies the
object of the library entry into the new local `m`, `m.Delay = ...` writes the authored delay
into `m`, and the `MoveItem` is pointed to `m`. -/
def heapBindMove (moves : HeapMoves) (c : HeapAction) (st : Store) :
    Store × Except Failure HeapAction :=
  match c.MoveItem with
  | none => (st, .ok c)
  | some authored =>
    match heapGetByName st moves (deref st authored).Name with
    | .error f => (st, .error f)
    | .ok none => (st, .ok c)
    | .ok (some v) =>
      let m : MoveAction := { deref st v with Delay := (deref st authored).Delay }
      (st ++ [m], .ok { c with MoveItem := some st.length })

/-- The block `if item.X != nil { ... }` for one composite, over pointers. -/
def heapResolveComposite (w : World) (sayDir sessionName : String) (moves : HeapMoves)
    (c : Option HeapAction) (st : Store) : Store × Except Failure (Option HeapAction) :=
  match c with
  | none => (st, .ok none)
  | some a =>
    match heapResolveSay w sayDir sessionName a with
    | .error f => (st, .error f)
    | .ok a1 =>
      match heapBindMove moves a1 st with
      | (st1, .error f) => (st1, .error f)
      | (st1, .ok a2) => (st1, .ok (some a2))

/-- The body of the loop over the items of a session, over pointers. -/
def heapProcessItem (w : World) (gen : Nat → UUID) (sayDir sessionName : String)
    (moves : HeapMoves) (item : HeapItem) (n : Nat) (st : Store) :
    Store × Except Failure (HeapItem × Nat) :=
  let q := heapInitIDs gen item.Question n st
  let p := heapInitIDs gen item.PositiveAnswer q.2.1 q.2.2
  let g := heapInitIDs gen item.NegativeAnswer p.2.1 p.2.2
  match heapResolveComposite w sayDir sessionName moves q.1 g.2.2 with
  | (st1, .error f) => (st1, .error f)
  | (st1, .ok question) =>
    match heapResolveComposite w sayDir sessionName moves p.1 st1 with
    | (st2, .error f) => (st2, .error f)
    | (st2, .ok positive) =>
      match heapResolveComposite w sayDir sessionName moves g.1 st2 with
      | (st3, .error f) => (st3, .error f)
      | (st3, .ok negative) =>
        (st3, .ok ({ item with Question := question, PositiveAnswer := positive,
                               NegativeAnswer := negative }, g.2.1))

/-- The loop over the items of a session, over pointers. -/
def heapProcessItems (w : World) (gen : Nat → UUID) (sayDir sessionName : String)
    (moves : HeapMoves) : List HeapItem → Nat → Store →
      Store × Except Failure (List HeapItem × Nat)
  | [], n, st => (st, .ok ([], n))
  | item :: rest, n, st =>
    match heapProcessItem w gen sayDir sessionName moves item n st with
    | (st1, .error f) => (st1, .error f)
    | (st1, .ok (item1, n1)) =>
      match heapProcessItems w gen sayDir sessionName moves rest n1 st1 with
      | (st2, .error f) => (st2, .error f)
      | (st2, .ok (rest1, n2)) => (st2, .ok (item1 :: rest1, n2))

/-- The loop of `collectSessions` over the sessions, over pointers. -/
def heapBuildSessions (w : World) (gen : Nat → UUID) (sayDir : String) (moves : HeapMoves) :
    List HeapSession → Nat → Store → Store × Except Failure (List HeapSession × Nat)
  | [], n, st => (st, .ok ([], n))
  | s :: rest, n, st =>
    match heapProcessItems w gen sayDir s.Name moves s.Items (n + 1) st with
    | (st1, .error f) => (st1, .error f)
    | (st1, .ok (items, n1)) =>
      match heapBuildSessions w gen sayDir moves rest n1 st1 with
      | (st2, .error f) => (st2, .error f)
      | (st2, .ok (rest1, n2)) => (st2, .ok ({ s with ID := gen n, Items := items } :: rest1, n2))

/-- A composite of the template literal comes into being: its `&MoveAction{...}`, if any,
allocates a new object. -/
def allocAction (c : Option SayAndMoveAction) (st : Store) : Option HeapAction × Store :=
  match c with
  | none => (none, st)
  | some a =>
    match a.MoveItem with
    | none => (some { ID := a.ID, SayItem := a.SayItem, MoveItem := none }, st)
    | some m => (some { ID := a.ID, SayItem := a.SayItem, MoveItem := some st.length }, st ++ [m])

/-- An item of the template literal comes into being. -/
def allocItem (item : SessionItem) (st : Store) : HeapItem × Store :=
  let q := allocAction item.Question st
  let p := allocAction item.PositiveAnswer q.2
  let g := allocAction item.NegativeAnswer p.2
  ({ ID := item.ID, Question := q.1, PositiveAnswer := p.1, NegativeAnswer := g.1 }, g.2)

/-- The items of a session of the template literal come into being. -/
def allocItems : List SessionItem → Store → List HeapItem × Store
  | [], st => ([], st)
  | item :: rest, st =>
    let i := allocItem item st
    let r := allocItems rest i.2
    (i.1 :: r.1, r.2)

/-- The sessions of the template literal come into being. -/
def allocSessions : List Session → Store → List HeapSession × Store
  | [], st => ([], st)
  | s :: rest, st =>
    let i := allocItems s.Items st
    let r := allocSessions rest i.2
    ({ ID := s.ID, Name := s.Name, Description := s.Description, Items := i.1 } :: r.1, r.2)

/-- Go `collectSessions` over pointers: the template literal is allocated in the store the
call finds, then the loop runs. The result is the store the call leaves and what it returns. -/
def heapCollectSessions (w : World) (gen : Nat → UUID) (sayDir : String) (moves : HeapMoves)
    (st : Store) : Store × Except Failure (List HeapSession) :=
  let t := allocSessions (sessionTemplates gen) st
  match heapBuildSessions w gen sayDir moves t.1 templateDraws t.2 with
  | (st1, .error f) => (st1, .error f)
  | (st1, .ok (sessions, _)) => (st1, .ok sessions)

/-- The non-nil composites of an item over pointers. -/
def heapSlots (item : HeapItem) : List HeapAction :=
  [item.NegativeAnswer, item.PositiveAnswer, item.Question].reduceOption

/-- The `MoveItem` pointers held by a session tree over pointers. -/
def heapMovePtrs (ss : List HeapSession) : List Ptr :=
  ss.flatMap fun s => s.Items.flatMap fun item =>
    (heapSlots item).flatMap fun c => c.MoveItem.toList

/-- A store that holds the objects of a library of three motions, one of them "Show_Self_01"
with a delay of 2 ms. -/
def demoStore : Store :=
  [ { ID := 1, Name := "Hello_01", FilePath := "/lib/Greetings/Hello_01.qianim",
      Delay := 7, Group := "Greetings" },
    { ID := 3, Name := "NiceReaction_01", FilePath := "/lib/Reactions/NiceReaction_01.qianim",
      Group := "Reactions" },
    { ID := 5, Name := "Show_Self_01", FilePath := "/lib/Show/Show_Self_01.qianim",
      Delay := 2000000, Group := "Show" } ]

/-- The library whose entries are the three objects of `demoStore`. -/
def demoHeapLibrary : HeapMoves := [some 0, some 1, some 2]

/-- The store `st1` is no shorter than `st` and holds at every address below `base` the
object that `st` holds there. -/
def Frame (base : Nat) (st st1 : Store) : Prop :=
  st.length ≤ st1.length ∧ ∀ a, a < base → st1[a]? = st[a]?

/-- The `MoveItem` of the composite, if it has one, points at or above `base`. -/
def FreshAction (base : Nat) (c : Option HeapAction) : Prop :=
  ∀ a p, c = some a → a.MoveItem = some p → base ≤ p

/-- The `MoveItem` pointers of the item point at or above `base`. -/
def FreshItem (base : Nat) (item : HeapItem) : Prop :=
  FreshAction base item.Question ∧ FreshAction base item.PositiveAnswer ∧
    FreshAction base item.NegativeAnswer

/-- The `MoveItem` pointers of the sessions point at or above `base`. -/
def FreshSessions (base : Nat) (ss : List HeapSession) : Prop :=
  ∀ s ∈ ss, ∀ item ∈ s.Items, FreshItem base item

/-- The composite that a composite over pointers stands for in a store. -/
def derefAction (st : Store) (c : HeapAction) : SayAndMoveAction :=
  { ID := c.ID, SayItem := c.SayItem, MoveItem := c.MoveItem.map (deref st) }

/-- The item that an item over pointers stands for in a store. -/
def derefItem (st : Store) (item : HeapItem) : SessionItem :=
  { ID := item.ID, Question := item.Question.map (derefAction st),
    PositiveAnswer := item.PositiveAnswer.map (derefAction st),
    NegativeAnswer := item.NegativeAnswer.map (derefAction st) }

/-- The session that a session over pointers stands for in a store. -/
def derefSession (st : Store) (s : HeapSession) : Session :=
  { ID := s.ID, Name := s.Name, Description := s.Description,
    Items := s.Items.map (derefItem st) }

/-- The library that a library over pointers stands for in a store. -/
def derefMoves (st : Store) (moves : HeapMoves) : Moves :=
  moves.map fun e => e.map (deref st)

end Garlic

/-! # Properties -/

namespace Garlic

/-! ## Bytes and text -/

/-- A second byte that `acceptRanges` allows is at least 0x80. -/
theorem acceptLo_le (s0 : Nat) : 0x80 ≤ acceptLo s0 := by
  unfold acceptLo; split_ifs <;> omega

/-- A second byte that `acceptRanges` allows is at most 0xBF. -/
theorem acceptHi_le (s0 : Nat) : acceptHi s0 ≤ 0xBF := by
  unfold acceptHi; split_ifs <;> omega

/-- Passing `k` bytes is dropping them. -/
theorem runesFrom_skip (k : Nat) (bs : List Nat) : runesFrom k bs = runesFrom 0 (bs.drop k) := by
  induction k generalizing bs with
  | zero => rfl
  | succ k ih =>
    cases bs with
    | nil => rfl
    | cons b rest => simp only [runesFrom, List.drop_succ_cons]; exact ih rest

/-- A valid scan that still has `k` bytes to pass has them, and what follows is valid. -/
theorem validFrom_skip (k : Nat) (bs : List Nat) (h : validFrom k bs = true) :
    k ≤ bs.length ∧ validFrom 0 (bs.drop k) = true := by
  induction k generalizing bs with
  | zero => exact ⟨Nat.zero_le _, h⟩
  | succ k ih =>
    cases bs with
    | nil => simp [validFrom] at h
    | cons b rest =>
      simp only [validFrom] at h
      obtain ⟨h1, h2⟩ := ih rest h
      exact ⟨by simp only [List.length_cons]; omega, by simpa using h2⟩

/-- The encoding of a character, whatever follows it, decodes to the character and its width. -/
theorem decodeRune_encodeRune (c : Char) (rest : List Nat) :
    decodeRune (encodeRune c.toNat ++ rest) = (c.toNat, (encodeRune c.toNat).length) := by
  have hv : c.toNat < 0xD800 ∨ (0xDFFF < c.toNat ∧ c.toNat < 0x110000) := c.valid
  generalize c.toNat = r at hv
  unfold encodeRune
  by_cases h1 : r < 0x80
  · simp [h1, decodeRune]
  · by_cases h2 : r < 0x800
    · simp only [h1, h2, if_true, if_false, List.cons_append, List.nil_append, decodeRune,
        List.length_cons, List.length_nil]
      have e1 : ¬ (0xC0 + r / 0x40 < 0x80) := by omega
      have e2 : ¬ (0xC0 + r / 0x40 < 0xC2 ∨ 0xF4 < 0xC0 + r / 0x40) := by omega
      have e3 : 0xC0 + r / 0x40 < 0xE0 := by omega
      have e4 : acceptLo (0xC0 + r / 0x40) ≤ 0x80 + r % 0x40 ∧
          0x80 + r % 0x40 ≤ acceptHi (0xC0 + r / 0x40) := by
        unfold acceptLo acceptHi
        constructor <;> split_ifs <;> omega
      simp only [e1, e2, e3, e4, if_true, if_false, and_self]
      congr 1
      omega
    · have h3 : ¬ (0x10FFFF < r ∨ (0xD800 ≤ r ∧ r ≤ 0xDFFF)) := by omega
      by_cases h4 : r < 0x10000
      · simp only [h1, h2, h3, h4, if_true, if_false, List.cons_append, List.nil_append,
          decodeRune, List.length_cons, List.length_nil]
        have e1 : ¬ (0xE0 + r / 0x1000 < 0x80) := by omega
        have e2 : ¬ (0xE0 + r / 0x1000 < 0xC2 ∨ 0xF4 < 0xE0 + r / 0x1000) := by omega
        have e3 : ¬ (0xE0 + r / 0x1000 < 0xE0) := by omega
        have e4 : 0xE0 + r / 0x1000 < 0xF0 := by omega
        have e5 : acceptLo (0xE0 + r / 0x1000) ≤ 0x80 + r / 0x40 % 0x40 ∧
            0x80 + r / 0x40 % 0x40 ≤ acceptHi (0xE0 + r / 0x1000) ∧
            0x80 ≤ 0x80 + r % 0x40 ∧ 0x80 + r % 0x40 ≤ 0xBF := by
          unfold acceptLo acceptHi
          refine ⟨?_, ?_, by omega, by omega⟩ <;> split_ifs <;> omega
        simp only [e1, e2, e3, e4, e5, if_true, if_false, and_self]
        congr 1
        omega
      · simp only [h1, h2, h3, h4, if_true, if_false, List.cons_append, List.nil_append,
          decodeRune, List.length_cons, List.length_nil]
        have e1 : ¬ (0xF0 + r / 0x40000 < 0x80) := by omega
        have e2 : ¬ (0xF0 + r / 0x40000 < 0xC2 ∨ 0xF4 < 0xF0 + r / 0x40000) := by omega
        have e3 : ¬ (0xF0 + r / 0x40000 < 0xE0) := by omega
        have e4 : ¬ (0xF0 + r / 0x40000 < 0xF0) := by omega
        have e5 : acceptLo (0xF0 + r / 0x40000) ≤ 0x80 + r / 0x1000 % 0x40 ∧
            0x80 + r / 0x1000 % 0x40 ≤ acceptHi (0xF0 + r / 0x40000) ∧
            0x80 ≤ 0x80 + r / 0x40 % 0x40 ∧ 0x80 + r / 0x40 % 0x40 ≤ 0xBF ∧
            0x80 ≤ 0x80 + r % 0x40 ∧ 0x80 + r % 0x40 ≤ 0xBF := by
          unfold acceptLo acceptHi
          refine ⟨?_, ?_, by omega, by omega, by omega, by omega⟩ <;> split_ifs <;> omega
        simp only [e1, e2, e3, e4, e5, if_true, if_false, and_self]
        congr 1
        omega

/-- The runes of an encoded character followed by more bytes. -/
theorem runesFrom_encodeRune (c : Char) (rest : List Nat) :
    runesFrom 0 (encodeRune c.toNat ++ rest) = c.toNat :: runesFrom 0 rest := by
  have hd := decodeRune_encodeRune c rest
  have hlen : 1 ≤ (encodeRune c.toNat).length := by
    unfold encodeRune; split_ifs <;> simp
  cases he : encodeRune c.toNat with
  | nil => rw [he] at hlen; simp at hlen
  | cons b bs =>
    rw [he] at hd
    simp only [List.cons_append] at hd ⊢
    simp only [runesFrom, hd, List.length_cons, Nat.add_sub_cancel]
    rw [runesFrom_skip]
    simp

/-- The runes of the bytes of a text are its characters. -/
theorem runesFrom_stringBytes (cs : List Char) :
    runesFrom 0 (cs.flatMap fun c => encodeRune c.toNat) = cs.map Char.toNat := by
  induction cs with
  | nil => rfl
  | cons c rest ih =>
    simp only [List.flatMap_cons, List.map_cons]
    rw [runesFrom_encodeRune, ih]

/-- A text survives the conversion to bytes and the rendering as a JSON string. -/
theorem coerceUTF8_stringBytes (s : String) : coerceUTF8 (stringBytes s) = s := by
  unfold coerceUTF8 stringBytes
  rw [runesFrom_stringBytes]
  simp [List.map_map, Function.comp_def]

/-- What `decodeRune` gives for bytes that begin with a valid encoding. -/
theorem decodeRune_cases (b : Nat) (rest : List Nat)
    (h : ¬ ((decodeRune (b :: rest)).1 = RuneError ∧ (decodeRune (b :: rest)).2 = 1)) :
    (b < 0x80 ∧ decodeRune (b :: rest) = (b, 1)) ∨
    (∃ s1 more, rest = s1 :: more ∧ 0xC2 ≤ b ∧ b < 0xE0 ∧ 0x80 ≤ s1 ∧ s1 ≤ 0xBF ∧
      decodeRune (b :: rest) = (b % 0x20 * 0x40 + s1 % 0x40, 2)) ∨
    (∃ s1 s2 more, rest = s1 :: s2 :: more ∧ 0xE0 ≤ b ∧ b < 0xF0 ∧
      acceptLo b ≤ s1 ∧ s1 ≤ acceptHi b ∧ 0x80 ≤ s2 ∧ s2 ≤ 0xBF ∧
      decodeRune (b :: rest) = (b % 0x10 * 0x1000 + s1 % 0x40 * 0x40 + s2 % 0x40, 3)) ∨
    (∃ s1 s2 s3 more, rest = s1 :: s2 :: s3 :: more ∧ 0xF0 ≤ b ∧ b ≤ 0xF4 ∧
      acceptLo b ≤ s1 ∧ s1 ≤ acceptHi b ∧ 0x80 ≤ s2 ∧ s2 ≤ 0xBF ∧ 0x80 ≤ s3 ∧ s3 ≤ 0xBF ∧
      decodeRune (b :: rest)
        = (b % 0x08 * 0x40000 + s1 % 0x40 * 0x1000 + s2 % 0x40 * 0x40 + s3 % 0x40, 4)) := by
  by_cases h1 : b < 0x80
  · left
    exact ⟨h1, by simp [decodeRune, h1]⟩
  · by_cases h2 : b < 0xC2 ∨ 0xF4 < b
    · exfalso
      apply h
      simp [decodeRune, h1, h2]
    · by_cases h3 : b < 0xE0
      · right; left
        rcases rest with _ | ⟨s1, more⟩
        · exfalso; apply h; simp [decodeRune, h1, h2, h3]
        · by_cases h5 : acceptLo b ≤ s1 ∧ s1 ≤ acceptHi b
          · have hlo := acceptLo_le b
            have hhi := acceptHi_le b
            refine ⟨s1, more, rfl, by omega, h3, by omega, by omega, ?_⟩
            simp [decodeRune, h1, h2, h3, h5]
          · exfalso; apply h; simp [decodeRune, h1, h2, h3, h5]
      · by_cases h4 : b < 0xF0
        · right; right; left
          rcases rest with _ | ⟨s1, _ | ⟨s2, more⟩⟩
          · exfalso; apply h; simp [decodeRune, h1, h2, h3, h4]
          · exfalso; apply h; simp [decodeRune, h1, h2, h3, h4]
          · by_cases h5 : acceptLo b ≤ s1 ∧ s1 ≤ acceptHi b ∧ 0x80 ≤ s2 ∧ s2 ≤ 0xBF
            · refine ⟨s1, s2, more, rfl, by omega, h4, h5.1, h5.2.1, h5.2.2.1, h5.2.2.2, ?_⟩
              simp [decodeRune, h1, h2, h3, h4, h5]
            · exfalso; apply h; simp [decodeRune, h1, h2, h3, h4, h5]
        · right; right; right
          rcases rest with _ | ⟨s1, _ | ⟨s2, _ | ⟨s3, more⟩⟩⟩
          · exfalso; apply h; simp [decodeRune, h1, h2, h3, h4]
          · exfalso; apply h; simp [decodeRune, h1, h2, h3, h4]
          · exfalso; apply h; simp [decodeRune, h1, h2, h3, h4]
          · by_cases h5 : acceptLo b ≤ s1 ∧ s1 ≤ acceptHi b ∧ 0x80 ≤ s2 ∧ s2 ≤ 0xBF ∧
                0x80 ≤ s3 ∧ s3 ≤ 0xBF
            · refine ⟨s1, s2, s3, more, rfl, by omega, by omega, h5.1, h5.2.1, h5.2.2.1,
                h5.2.2.2.1, h5.2.2.2.2.1, h5.2.2.2.2.2, ?_⟩
              simp [decodeRune, h1, h2, h3, h4, h5]
            · exfalso; apply h; simp [decodeRune, h1, h2, h3, h4, h5]


/-- The encoding of a decoded rune is the bytes it was decoded from. -/
theorem encodeRune_decodeRune (b : Nat) (rest : List Nat)
    (h : ¬ ((decodeRune (b :: rest)).1 = RuneError ∧ (decodeRune (b :: rest)).2 = 1)) :
    (decodeRune (b :: rest)).1.isValidChar ∧
    encodeRune (decodeRune (b :: rest)).1 ++ rest.drop ((decodeRune (b :: rest)).2 - 1)
      = b :: rest := by
  rcases decodeRune_cases b rest h with
    ⟨h1, hd⟩ | ⟨s1, more, rfl, hb1, hb2, ha1, ha2, hd⟩ |
    ⟨s1, s2, more, rfl, hb1, hb2, ha1, ha2, ha3, ha4, hd⟩ |
    ⟨s1, s2, s3, more, rfl, hb1, hb2, ha1, ha2, ha3, ha4, ha5, ha6, hd⟩
  · rw [hd]
    refine ⟨Or.inl (by omega), ?_⟩
    simp [encodeRune, h1]
  · rw [hd]
    refine ⟨Or.inl (by simp only; omega), ?_⟩
    have e1 : ¬ (b % 0x20 * 0x40 + s1 % 0x40 < 0x80) := by omega
    have e2 : b % 0x20 * 0x40 + s1 % 0x40 < 0x800 := by omega
    simp only [encodeRune, e1, e2, if_true, if_false, List.cons_append, List.nil_append,
      Nat.add_sub_cancel, List.drop_succ_cons, List.drop_zero]
    congr 1
    · omega
    · congr 1
      omega
  · rw [hd]
    have hlo : (b = 0xE0 → 0xA0 ≤ s1) ∧ 0x80 ≤ s1 := by
      unfold acceptLo at ha1
      constructor
      · intro hb; rw [if_pos hb] at ha1; exact ha1
      · split_ifs at ha1 <;> omega
    have hhi : (b = 0xED → s1 ≤ 0x9F) ∧ s1 ≤ 0xBF := by
      unfold acceptHi at ha2
      constructor
      · intro hb; rw [if_pos hb] at ha2; exact ha2
      · split_ifs at ha2 <;> omega
    have e1 : ¬ (b % 0x10 * 0x1000 + s1 % 0x40 * 0x40 + s2 % 0x40 < 0x80) := by omega
    have e2 : ¬ (b % 0x10 * 0x1000 + s1 % 0x40 * 0x40 + s2 % 0x40 < 0x800) := by omega
    have e3 : ¬ (0x10FFFF < b % 0x10 * 0x1000 + s1 % 0x40 * 0x40 + s2 % 0x40 ∨
        (0xD800 ≤ b % 0x10 * 0x1000 + s1 % 0x40 * 0x40 + s2 % 0x40 ∧
          b % 0x10 * 0x1000 + s1 % 0x40 * 0x40 + s2 % 0x40 ≤ 0xDFFF)) := by omega
    have e4 : b % 0x10 * 0x1000 + s1 % 0x40 * 0x40 + s2 % 0x40 < 0x10000 := by omega
    refine ⟨?_, ?_⟩
    · show _ < 0xD800 ∨ (0xDFFF < _ ∧ _ < 0x110000)
      simp only
      omega
    · simp only [encodeRune, e1, e2, e3, e4, if_true, if_false, List.cons_append,
        List.nil_append, List.drop_succ_cons, List.drop_zero, Nat.add_one_sub_one,
        Nat.reduceSubDiff]
      congr 1
      · omega
      · congr 1
        · omega
        · congr 1
          omega
  · rw [hd]
    have hlo : (b = 0xF0 → 0x90 ≤ s1) ∧ 0x80 ≤ s1 := by
      unfold acceptLo at ha1
      constructor
      · intro hb
        rw [if_neg (by omega), if_pos hb] at ha1; exact ha1
      · split_ifs at ha1 <;> omega
    have hhi : (b = 0xF4 → s1 ≤ 0x8F) ∧ s1 ≤ 0xBF := by
      unfold acceptHi at ha2
      constructor
      · intro hb
        rw [if_neg (by omega), if_pos hb] at ha2; exact ha2
      · split_ifs at ha2 <;> omega
    have e1 : ¬ (b % 0x08 * 0x40000 + s1 % 0x40 * 0x1000 + s2 % 0x40 * 0x40 + s3 % 0x40
        < 0x80) := by omega
    have e2 : ¬ (b % 0x08 * 0x40000 + s1 % 0x40 * 0x1000 + s2 % 0x40 * 0x40 + s3 % 0x40
        < 0x800) := by omega
    have e3 : ¬ (0x10FFFF < b % 0x08 * 0x40000 + s1 % 0x40 * 0x1000 + s2 % 0x40 * 0x40 + s3 % 0x40 ∨
        (0xD800 ≤ b % 0x08 * 0x40000 + s1 % 0x40 * 0x1000 + s2 % 0x40 * 0x40 + s3 % 0x40 ∧
          b % 0x08 * 0x40000 + s1 % 0x40 * 0x1000 + s2 % 0x40 * 0x40 + s3 % 0x40 ≤ 0xDFFF)) := by
      omega
    have e4 : ¬ (b % 0x08 * 0x40000 + s1 % 0x40 * 0x1000 + s2 % 0x40 * 0x40 + s3 % 0x40
        < 0x10000) := by omega
    refine ⟨?_, ?_⟩
    · show _ < 0xD800 ∨ (0xDFFF < _ ∧ _ < 0x110000)
      simp only
      omega
    · simp only [encodeRune, e1, e2, e3, e4, if_true, if_false, List.cons_append,
        List.nil_append, List.drop_succ_cons, List.drop_zero, Nat.add_one_sub_one,
        Nat.reduceSubDiff]
      congr 1
      · omega
      · congr 1
        · omega
        · congr 1
          · omega
          · congr 1
            omega

/-- A number that is a Unicode scalar value is the number of its character. -/
theorem toNat_ofNat_of_valid (r : Nat) (h : r.isValidChar) : (Char.ofNat r).toNat = r := by
  simp only [Char.ofNat, h, dite_true, Char.ofNatAux, Char.toNat]
  rfl

/-- Bytes that are valid UTF-8 are the bytes of their rendering as text. -/
theorem stringBytes_coerceUTF8 (bytes : List Nat) (h : validUTF8 bytes = true) :
    stringBytes (coerceUTF8 bytes) = bytes := by
  unfold validUTF8 at h
  unfold stringBytes coerceUTF8
  simp only [List.flatMap_map]
  suffices key : ∀ n (bs : List Nat), bs.length = n → validFrom 0 bs = true →
      ((runesFrom 0 bs).flatMap fun a => encodeRune (Char.ofNat a).toNat) = bs from
    key _ bytes rfl h
  intro n
  induction n using Nat.strong_induction_on with
  | _ n ih =>
    intro bs hn hv
    cases bs with
    | nil => rfl
    | cons b rest =>
      simp only [validFrom, Bool.and_eq_true, Bool.not_eq_true', decide_eq_false_iff_not] at hv
      obtain ⟨hvalid, hrest⟩ := hv
      obtain ⟨hchar, henc⟩ := encodeRune_decodeRune b rest hvalid
      obtain ⟨hle, hdrop⟩ := validFrom_skip _ _ hrest
      simp only [runesFrom, List.flatMap_cons]
      rw [runesFrom_skip, toNat_ofNat_of_valid _ hchar]
      rw [ih (rest.drop ((decodeRune (b :: rest)).2 - 1)).length
        (by simp only [List.length_drop, ← hn, List.length_cons]; omega) _ rfl hdrop]
      exact henc

end Garlic

namespace Garlic

/-! ## Dispatch -/

/-- C1: `SayAction.Content` succeeds for every non-nil action, but what it returns is the last
path element of the `Phrase`, not of the `FilePath`, and that element is the content of the one
message written for the action: dispatching the action with `FilePath` "1out_intro.wav" and
`Phrase` "Hello" writes exactly one message, with command "say", delay 0 and content "Hello". -/
theorem sayAction_content_is_base_of_phrase (w : World) (conn : Conn) :
    (∀ a : SayAction,
      SayAction.Content (some a) = (.ok (stringBytes (filepathBase a.Phrase)), [])) ∧
    (∀ a : SayAction, sendInstruction w (.say (some a)) (some conn)
      = ((conn.WriteMessage
            { command := "say", content := filepathBase a.Phrase, delay := 0 }).map Failure.error,
          [.wrote { command := "say", content := filepathBase a.Phrase, delay := 0 }])) ∧
    sendInstruction w (.say (some { Phrase := "Hello", FilePath := "1out_intro.wav" })) (some conn)
      = ((conn.WriteMessage { command := "say", content := "Hello", delay := 0 }).map
            Failure.error,
          [.wrote { command := "say", content := "Hello", delay := 0 }]) ∧
    filepathBase "1out_intro.wav" ≠ "Hello" := by
  have key : ∀ a : SayAction, sendInstruction w (.say (some a)) (some conn)
      = ((conn.WriteMessage
            { command := "say", content := filepathBase a.Phrase, delay := 0 }).map Failure.error,
          [.wrote { command := "say", content := filepathBase a.Phrase, delay := 0 }]) := by
    intro a
    simp [sendInstruction, Instruction.Command, SayAction.Command, Instruction.Content,
      SayAction.Content, Instruction.DelayMillis, SayAction.DelayMillis, send,
      PepperMessage.MarshalJSON, Command.String, coerceUTF8_stringBytes]
  refine ⟨fun a => rfl, key, ?_, by decide⟩
  have hb : filepathBase "Hello" = "Hello" := by decide
  have h := key { Phrase := "Hello", FilePath := "1out_intro.wav" }
  rw [hb] at h
  exact h

/-- C4: `GetGroups` ranges over the package variable `moves` and never reads its receiver: the
result is the same for every receiver, so a receiver with the single group "A" gives the empty
list when `moves` is empty, and gives the groups of `moves` when that is another library. -/
theorem getGroups_ignores_receiver :
    (∀ moves mm mm' : Moves, Moves.GetGroups moves mm = Moves.GetGroups moves mm') ∧
    Moves.GetGroups [] [some { Group := "A" }] = [] ∧
    Moves.GetGroups [some { Group := "B" }] [some { Group := "A" }] = ["B"] := by
  refine ⟨fun _ _ _ => rfl, by decide, by decide⟩

/-- C5 (as amended): dispatching a non-nil composite whose `MoveItem` is `m` and whose file
reads as `bytes` opens that file, then performs exactly one transport write; the message has
command "move", not the tag "sayAndMove" of the composite, delay `m.Delay` in milliseconds, and
as content the bytes rendered as a JSON string: decoded as UTF-8 with every byte that starts no
valid encoding replaced by U+FFFD. The call returns what the write returns, and any other
composite with the same `MoveItem` (other identity, other `SayItem`) is dispatched identically.
When the bytes are valid UTF-8 the content has exactly these bytes, and when they are the bytes
of a text the content is that text. -/
theorem sendInstruction_composite_sends_move (w : World) (conn : Conn) (cmd : SayAndMoveAction)
    (m : MoveAction) (bytes : List Nat)
    (hmove : cmd.MoveItem = some m) (hread : w.readFile m.FilePath = .data bytes) :
    sendInstruction w (.sayAndMove (some cmd)) (some conn)
      = ((conn.WriteMessage
            { command := "move", content := coerceUTF8 bytes,
              delay := Milliseconds m.Delay }).map Failure.error,
          [.opened m.FilePath,
           .wrote { command := "move", content := coerceUTF8 bytes,
                    delay := Milliseconds m.Delay }]) ∧
    writes (sendInstruction w (.sayAndMove (some cmd)) (some conn)).2
      = [{ command := "move", content := coerceUTF8 bytes, delay := Milliseconds m.Delay }] ∧
    MoveAction.DelayMillis cmd.MoveItem = .ok (Milliseconds m.Delay) ∧
    (SayAndMoveAction.Command (some cmd)).String = "sayAndMove" ∧
    (∀ cmd1 : SayAndMoveAction, cmd1.MoveItem = cmd.MoveItem →
      sendInstruction w (.sayAndMove (some cmd1)) (some conn)
        = sendInstruction w (.sayAndMove (some cmd)) (some conn)) ∧
    (validUTF8 bytes = true → stringBytes (coerceUTF8 bytes) = bytes) ∧
    (∀ text : String, bytes = stringBytes text → coerceUTF8 bytes = text) := by
  have key : ∀ c : SayAndMoveAction, c.MoveItem = some m →
      sendInstruction w (.sayAndMove (some c)) (some conn)
        = ((conn.WriteMessage
              { command := "move", content := coerceUTF8 bytes,
                delay := Milliseconds m.Delay }).map Failure.error,
            [.opened m.FilePath,
             .wrote { command := "move", content := coerceUTF8 bytes,
                      delay := Milliseconds m.Delay }]) := by
    intro c hc
    simp [sendInstruction, Instruction.Command, SayAndMoveAction.Command, MoveAction.Content,
      MoveAction.DelayMillis, MoveAction.Command, send, PepperMessage.MarshalJSON,
      Command.String, hc, hread]
  refine ⟨key cmd hmove, ?_, ?_, rfl, ?_, stringBytes_coerceUTF8 bytes, ?_⟩
  · rw [key cmd hmove]; rfl
  · rw [hmove]; rfl
  · intro cmd1 h1
    rw [key cmd hmove, key cmd1 (h1.trans hmove)]
  · intro text htext
    rw [htext]
    exact coerceUTF8_stringBytes text

/-- Witness for C5: the composite of the first template item, bound to a library motion whose
file holds the three bytes of "xyz". -/
theorem sendInstruction_composite_sends_move_witness :
    sendInstruction demoWorld
        (.sayAndMove (some { ID := 6, SayItem := some { ID := 7, Phrase := "Tere" },
                             MoveItem := some { Name := "Show_Self_01", FilePath := "/lib/a.qianim",
                                                Delay := Second * 5 } }))
        (some demoConn)
      = (none, [.opened "/lib/a.qianim",
                .wrote { command := "move", content := "xyz", delay := 5000 }]) ∧
    stringBytes "xyz" = [0x78, 0x79, 0x7A] :=
  ⟨(sendInstruction_composite_sends_move demoWorld demoConn
      { ID := 6, SayItem := some { ID := 7, Phrase := "Tere" },
        MoveItem := some { Name := "Show_Self_01", FilePath := "/lib/a.qianim",
                           Delay := Second * 5 } }
      { Name := "Show_Self_01", FilePath := "/lib/a.qianim", Delay := Second * 5 }
      [0x78, 0x79, 0x7A] rfl rfl).1,
    by decide⟩

/-- C5 (as stated) fails for a motion file that is not valid UTF-8: for the file bytes
ff fe 41 the one message written has the content U+FFFD U+FFFD "A", whose bytes are
ef bf bd ef bf bd 41, and no text at all has the bytes of the file. -/
theorem sendInstruction_composite_invalid_utf8 :
    writes (sendInstruction rawWorld
        (.sayAndMove (some { SayItem := some { Phrase := "Tere" },
                             MoveItem := some { Name := "Raw_01", FilePath := "/lib/raw.qianim" } }))
        (some demoConn)).2
      = [{ command := "move", content := "\uFFFD\uFFFDA", delay := 0 }] ∧
    rawWorld.readFile "/lib/raw.qianim" = .data [0xFF, 0xFE, 0x41] ∧
    stringBytes "\uFFFD\uFFFDA" = [0xEF, 0xBF, 0xBD, 0xEF, 0xBF, 0xBD, 0x41] ∧
    stringBytes "\uFFFD\uFFFDA" ≠ [0xFF, 0xFE, 0x41] ∧
    ¬ ∃ text : String, stringBytes text = [0xFF, 0xFE, 0x41] := by
  refine ⟨by decide, rfl, by decide, by decide, ?_⟩
  rintro ⟨text, htext⟩
  have h := coerceUTF8_stringBytes text
  rw [htext] at h
  have h1 : coerceUTF8 [0xFF, 0xFE, 0x41] = "\uFFFD\uFFFDA" := by decide
  rw [h1] at h
  rw [← h] at htext
  revert htext
  decide

/-- C6: a nil `*SayAction` and a nil `*MoveAction` are answered with an error and no write, but
a nil `*SayAndMoveAction` makes `sendInstruction` read `cmd.MoveItem` through the nil pointer:
the call aborts with a panic instead of returning an error. -/
theorem sendInstruction_nil_composite_panics (w : World) (conn : Conn) :
    sendInstruction w (.sayAndMove none) (some conn) = (some (.panic nilDeref), []) ∧
    sendInstruction w (.say none) (some conn)
      = (some (.error "can't get content out of an instruction: nil item"), []) ∧
    sendInstruction w (.move none) (some conn)
      = (some (.error "can't get content out of an instruction: nil item"), []) := by
  refine ⟨?_, ?_, ?_⟩ <;>
    simp [sendInstruction, Instruction.Command, SayAndMoveAction.Command, SayAction.Command,
      MoveAction.Command, Instruction.Content, SayAction.Content, MoveAction.Content]

/-- C9: with no established connection `sendInstruction` returns an error for every
instruction, and the call has no event at all: no file is opened, nothing is written. -/
theorem sendInstruction_without_connection (w : World) (instruction : Instruction) :
    sendInstruction w instruction none
      = (some (.error "websocket connection is nil, Pepper must initiate it first"), []) ∧
    writes (sendInstruction w instruction none).2 = [] ∧
    opens (sendInstruction w instruction none).2 = [] := by
  refine ⟨rfl, rfl, rfl⟩

/-- C10: when the file of a non-nil `MoveAction` cannot be opened, dispatching the action
returns a content-resolution error carrying the open error and writes nothing; dispatching a
composite that holds the action as its `MoveItem` does the same. -/
theorem sendInstruction_unopenable_move (w : World) (conn : Conn) (m : MoveAction)
    (cmd : SayAndMoveAction) (e : String)
    (hopen : w.readFile m.FilePath = .openError e) (hmove : cmd.MoveItem = some m) :
    sendInstruction w (.move (some m)) (some conn)
      = (some (.error ("can't get content out of an instruction: " ++ e)),
          [.opened m.FilePath]) ∧
    writes (sendInstruction w (.move (some m)) (some conn)).2 = [] ∧
    sendInstruction w (.sayAndMove (some cmd)) (some conn)
      = (some (.error ("can't get content out of MoveItem: " ++ e)), [.opened m.FilePath]) ∧
    writes (sendInstruction w (.sayAndMove (some cmd)) (some conn)).2 = [] := by
  have h1 : sendInstruction w (.move (some m)) (some conn)
      = (some (.error ("can't get content out of an instruction: " ++ e)),
          [.opened m.FilePath]) := by
    simp [sendInstruction, Instruction.Command, MoveAction.Command, Instruction.Content,
      MoveAction.Content, hopen]
  have h2 : sendInstruction w (.sayAndMove (some cmd)) (some conn)
      = (some (.error ("can't get content out of MoveItem: " ++ e)), [.opened m.FilePath]) := by
    simp [sendInstruction, Instruction.Command, SayAndMoveAction.Command, MoveAction.Content,
      hopen, hmove]
  refine ⟨h1, ?_, h2, ?_⟩
  · rw [h1]; rfl
  · rw [h2]; rfl

/-- Witness for C10: a motion file that does not exist, dispatched alone and inside a
composite. -/
theorem sendInstruction_unopenable_move_witness :
    sendInstruction lockedWorld (.move (some { Name := "Hello_01", FilePath := "/gone" }))
        (some demoConn)
      = (some (.error
          "can't get content out of an instruction: open /gone: no such file or directory"),
          [.opened "/gone"]) :=
  (sendInstruction_unopenable_move lockedWorld demoConn { Name := "Hello_01", FilePath := "/gone" }
    { MoveItem := some { Name := "Hello_01", FilePath := "/gone" } }
    "open /gone: no such file or directory" rfl rfl).1

end Garlic

/-! ## Lookup by identity -/

namespace Garlic

/-- The inner loop of `GetInstructionByID` finds the first listed composite of the items that
carries the identity. -/
theorem scanItems_eq_find (items : List SessionItem) (id : UUID) :
    scanItems items id = (items.flatMap slots).find? fun c => c.ID = id := by
  induction items with
  | nil => rfl
  | cons item more ih =>
    obtain ⟨iid, q, p, g⟩ := item
    cases g <;> cases p <;> cases q <;>
      simp [scanItems, slots, SayAndMoveAction.IsNil, SayAndMoveAction.GetID, ih,
        List.reduceOption, List.find?_cons] <;>
      repeat' split <;> simp_all

/-- The lookup finds the first listed composite of the tree that carries the identity. -/
theorem getInstructionByID_eq_find (ss : Sessions) (id : UUID) :
    Sessions.GetInstructionByID ss id = (composites ss).find? fun c => c.ID = id := by
  induction ss with
  | nil => rfl
  | cons s rest ih =>
    simp only [Sessions.GetInstructionByID, composites, List.flatMap_cons, List.find?_append,
      scanItems_eq_find]
    cases h : (s.Items.flatMap slots).find? (fun c : SayAndMoveAction => decide (c.ID = id)) with
    | some found => simp
    | none => simpa [composites] using ih

/-- In a list of composites with pairwise distinct identities, searching for the identity of a
member finds that member. -/
theorem find_of_nodup (l : List SayAndMoveAction) (h : (l.map fun c => c.ID).Nodup)
    (c : SayAndMoveAction) (hc : c ∈ l) :
    l.find? (fun x => x.ID = c.ID) = some c := by
  induction l with
  | nil => cases hc
  | cons a rest ih =>
    rw [List.map_cons, List.nodup_cons] at h
    rcases List.mem_cons.mp hc with rfl | hmem
    · simp
    · have hne : a.ID ≠ c.ID := by
        intro heq
        exact h.1 (heq ▸ List.mem_map_of_mem (fun c => c.ID) hmem)
      simp [List.find?_cons, hne, ih h.2 hmem]

/-- Membership in `composites` is being held by some item of some session. -/
theorem mem_composites (ss : Sessions) (c : SayAndMoveAction) :
    c ∈ composites ss ↔
      ∃ s ∈ ss, ∃ item ∈ s.Items,
        item.Question = some c ∨ item.PositiveAnswer = some c ∨ item.NegativeAnswer = some c := by
  simp only [composites, slots, List.mem_flatMap, List.reduceOption_mem_iff, List.mem_cons,
    List.mem_singleton, List.not_mem_nil, or_false]
  constructor
  · rintro ⟨s, hs, item, hi, h⟩
    refine ⟨s, hs, item, hi, ?_⟩
    rcases h with h | h | h
    · exact Or.inr (Or.inr h.symm)
    · exact Or.inr (Or.inl h.symm)
    · exact Or.inl h.symm
  · rintro ⟨s, hs, item, hi, h⟩
    refine ⟨s, hs, item, hi, ?_⟩
    rcases h with h | h | h
    · exact Or.inr (Or.inr h.symm)
    · exact Or.inr (Or.inl h.symm)
    · exact Or.inl h.symm

/-- C8: in a session tree whose non-nil composites carry pairwise distinct identities, the
lookup with the identity of a composite held as `Question`, `PositiveAnswer` or
`NegativeAnswer` of an item returns that composite, and the lookup with an identity that no
non-nil composite carries returns the absent result; the lookup has no error result at all. -/
theorem getInstructionByID_resolves (ss : Sessions)
    (hdistinct : ((composites ss).map fun c => c.ID).Nodup) :
    (∀ s ∈ ss, ∀ item ∈ s.Items, ∀ c : SayAndMoveAction,
      (item.Question = some c ∨ item.PositiveAnswer = some c ∨ item.NegativeAnswer = some c) →
        Sessions.GetInstructionByID ss c.ID = some c) ∧
    (∀ id : UUID,
      (∀ s ∈ ss, ∀ item ∈ s.Items, ∀ c : SayAndMoveAction,
        (item.Question = some c ∨ item.PositiveAnswer = some c ∨ item.NegativeAnswer = some c) →
          c.ID ≠ id) →
        Sessions.GetInstructionByID ss id = none) := by
  constructor
  · intro s hs item hi c hc
    rw [getInstructionByID_eq_find]
    exact find_of_nodup _ hdistinct c ((mem_composites ss c).mpr ⟨s, hs, item, hi, hc⟩)
  · intro id hid
    rw [getInstructionByID_eq_find, List.find?_eq_none]
    intro c hc
    obtain ⟨s, hs, item, hi, h⟩ := (mem_composites ss c).mp hc
    simpa using hid s hs item hi c h

end Garlic

/-! ## The session builder -/

namespace Garlic

/-- A lookup by name that returns gives the first non-nil entry with the name. -/
theorem getByName_eq_firstNamed (moves : Moves) (name : String) (r : Option MoveAction)
    (h : Moves.GetByName moves name = .ok r) : r = Moves.firstNamed moves name := by
  induction moves with
  | nil =>
    simp [Moves.GetByName] at h
    subst h; rfl
  | cons e rest ih =>
    cases e with
    | none => simp [Moves.GetByName] at h
    | some v =>
      by_cases hv : v.Name = name
      · simp [Moves.GetByName, hv] at h
        subst h
        simp [Moves.firstNamed, List.reduceOption_cons_of_some, hv]
      · simp only [Moves.GetByName, hv, if_false] at h
        rw [ih h]
        simp [Moves.firstNamed, List.reduceOption_cons_of_some, hv]

/-- In a library without `nil` entries the lookup by name always returns. -/
theorem getByName_of_no_nil (moves : Moves) (name : String)
    (hnil : ∀ e ∈ moves, e ≠ none) :
    Moves.GetByName moves name = .ok (Moves.firstNamed moves name) := by
  induction moves with
  | nil => rfl
  | cons e rest ih =>
    cases e with
    | none => exact absurd rfl (hnil none (List.mem_cons_self _ _))
    | some v =>
      have ih1 := ih fun e he => hnil e (List.mem_cons_of_mem _ he)
      by_cases hv : v.Name = name
      · simp [Moves.GetByName, Moves.firstNamed, List.reduceOption_cons_of_some, hv]
      · simp only [Moves.GetByName, hv, if_false, ih1]
        simp [Moves.firstNamed, List.reduceOption_cons_of_some, hv]

/-- The identity block keeps everything of a composite but the three identities. -/
theorem initIDs_some (gen : Nat → UUID) (a : SayAndMoveAction) (n : Nat) :
    initIDs gen (some a) n
      = (some { ID := gen n, SayItem := SayAction.SetID a.SayItem (gen (n + 1)),
                MoveItem := MoveAction.SetID a.MoveItem (gen (n + 2)) }, n + 3) := by
  simp [initIDs, SayAndMoveAction.SetID, SayAndMoveAction.IsNil]

/-- The identity block leaves a nil composite nil and draws one identity. -/
theorem initIDs_none (gen : Nat → UUID) (n : Nat) : initIDs gen none n = (none, n + 1) := by
  simp [initIDs, SayAndMoveAction.SetID, SayAndMoveAction.IsNil]

/-- The audio step leaves the `MoveItem` and the identity of a composite alone. -/
theorem resolveSay_keeps_move (w : World) (sayDir sessionName : String)
    (a b : SayAndMoveAction) (h : resolveSay w sayDir sessionName a = .ok b) :
    b.MoveItem = a.MoveItem ∧ b.ID = a.ID := by
  unfold resolveSay at h
  split at h
  · cases h
  · split at h
    · simp only at h
      split at h
      · cases h
      · cases h; exact ⟨rfl, rfl⟩
    · cases h; exact ⟨rfl, rfl⟩

/-- The library step, when it returns, binds the `MoveItem` as `MoveBound` says. -/
theorem bindMove_bound (moves : Moves) (a b : SayAndMoveAction) (m : MoveAction)
    (hm : a.MoveItem = some m) (h : bindMove moves a = .ok b) :
    ∃ k, b.MoveItem = some k ∧ k.Delay = m.Delay ∧
      (∀ v, Moves.firstNamed moves m.Name = some v → k = { v with Delay := m.Delay }) ∧
      (Moves.firstNamed moves m.Name = none → k = m) := by
  unfold bindMove at h
  rw [hm] at h
  simp only at h
  cases hg : Moves.GetByName moves m.Name with
  | error f => rw [hg] at h; cases h
  | ok r =>
    have hr := getByName_eq_firstNamed moves m.Name r hg
    rw [hg] at h
    cases r with
    | none =>
      cases h
      refine ⟨m, hm, rfl, ?_, fun _ => rfl⟩
      intro v hv
      rw [← hr] at hv; cases hv
    | some v =>
      cases h
      refine ⟨{ v with Delay := m.Delay }, rfl, rfl, ?_, ?_⟩
      · intro v1 hv1
        rw [← hr] at hv1; cases hv1; rfl
      · intro hnone
        rw [← hr] at hnone; cases hnone

/-- One composite through the identity block and then through its `if item.X != nil` block. -/
theorem resolveComposite_bound (w : World) (gen : Nat → UUID) (sayDir sessionName : String)
    (moves : Moves) (c built : Option SayAndMoveAction) (n : Nat)
    (h : resolveComposite w sayDir sessionName moves (initIDs gen c n).1 = .ok built) :
    CompositeBound moves c built := by
  intro a m hc hm
  subst hc
  rw [initIDs_some] at h
  simp only [resolveComposite] at h
  cases hs : resolveSay w sayDir sessionName
      { ID := gen n, SayItem := SayAction.SetID a.SayItem (gen (n + 1)),
        MoveItem := MoveAction.SetID a.MoveItem (gen (n + 2)) } with
  | error f => rw [hs] at h; cases h
  | ok a1 =>
    rw [hs] at h
    simp only at h
    have hk := (resolveSay_keeps_move w sayDir sessionName _ a1 hs).1
    simp only [hm, MoveAction.SetID] at hk
    cases hb : bindMove moves a1 with
    | error f => rw [hb] at h; cases h
    | ok a2 =>
      rw [hb] at h
      cases h
      obtain ⟨k, hk2, hdelay, hhit, hmiss⟩ := bindMove_bound moves a1 a2 _ hk hb
      refine ⟨a2, k, rfl, hk2, hdelay, ?_, ?_⟩
      · intro v hv
        rw [hhit v hv]
        exact ⟨rfl, rfl, rfl⟩
      · intro hnone
        rw [hmiss hnone]
        exact ⟨rfl, rfl, rfl⟩

/-- One item through the body of the item loop. -/
theorem processItem_bound (w : World) (gen : Nat → UUID) (sayDir sessionName : String)
    (moves : Moves) (item built : SessionItem) (n n1 : Nat)
    (h : processItem w gen sayDir sessionName moves item n = .ok (built, n1)) :
    ItemBound moves item built := by
  unfold processItem at h
  simp only at h
  split at h
  · cases h
  · rename_i question hq
    split at h
    · cases h
    · rename_i positive hp
      split at h
      · cases h
      · rename_i negative hg
        cases h
        exact ⟨resolveComposite_bound w gen sayDir sessionName moves _ _ _ hq,
          resolveComposite_bound w gen sayDir sessionName moves _ _ _ hp,
          resolveComposite_bound w gen sayDir sessionName moves _ _ _ hg⟩

/-- The items of a session through the item loop. -/
theorem processItems_bound (w : World) (gen : Nat → UUID) (sayDir sessionName : String)
    (moves : Moves) (items built : List SessionItem) (n n1 : Nat)
    (h : processItems w gen sayDir sessionName moves items n = .ok (built, n1)) :
    List.Forall₂ (ItemBound moves) items built := by
  induction items generalizing built n n1 with
  | nil =>
    simp only [processItems, Except.ok.injEq, Prod.mk.injEq] at h
    rw [← h.1]; exact List.Forall₂.nil
  | cons item rest ih =>
    unfold processItems at h
    split at h
    · cases h
    · rename_i item1 k hi
      split at h
      · cases h
      · rename_i rest1 k2 hr
        cases h
        exact List.Forall₂.cons (processItem_bound w gen sayDir sessionName moves _ _ _ _ hi)
          (ih _ _ _ hr)

/-- The sessions through the session loop. -/
theorem buildSessions_bound (w : World) (gen : Nat → UUID) (sayDir : String) (moves : Moves)
    (templates built : List Session) (n n1 : Nat)
    (h : buildSessions w gen sayDir moves templates n = .ok (built, n1)) :
    List.Forall₂ (SessionBound moves) templates built := by
  induction templates generalizing built n n1 with
  | nil =>
    simp only [buildSessions, Except.ok.injEq, Prod.mk.injEq] at h
    rw [← h.1]; exact List.Forall₂.nil
  | cons s rest ih =>
    unfold buildSessions at h
    split at h
    · cases h
    · rename_i s1 k hs
      split at h
      · cases h
      · rename_i rest1 k2 hr
        cases h
        refine List.Forall₂.cons ?_ (ih _ _ _ hr)
        unfold processSession at hs
        split at hs
        · cases hs
        · rename_i items k3 hi
          cases hs
          exact processItems_bound w gen sayDir s.Name moves _ _ _ _ hi

end Garlic

namespace Garlic

/-- The library step returns for every composite when the library holds no nil entry. -/
theorem bindMove_returns (moves : Moves) (a : SayAndMoveAction)
    (hnil : ∀ e ∈ moves, e ≠ none) : ∃ b, bindMove moves a = .ok b := by
  unfold bindMove
  cases hm : a.MoveItem with
  | none => exact ⟨a, rfl⟩
  | some m =>
    simp only
    rw [getByName_of_no_nil moves m.Name hnil]
    cases Moves.firstNamed moves m.Name with
    | none => exact ⟨a, rfl⟩
    | some v => exact ⟨_, rfl⟩

/-- Every composite of the hard-coded templates has a `SayItem`. -/
theorem sessionTemplates_have_say (gen : Nat → UUID) :
    ∀ s ∈ sessionTemplates gen, ∀ item ∈ s.Items, ItemHasSay item := by
  intro s hs item hi
  simp only [sessionTemplates, List.mem_cons, List.mem_singleton, List.not_mem_nil,
    or_false] at hs
  rcases hs with rfl | rfl <;>
    simp only [List.mem_cons, List.mem_singleton, List.not_mem_nil, or_false] at hi <;>
    rcases hi with rfl | rfl | rfl | rfl | rfl | rfl <;>
    simp [ItemHasSay, HasSay]

/-- C2: with an identity stream that never repeats and never gives a library identity, and a
library of two entries with distinct identities, the run succeeds and the identities of the
reachable actions are not pairwise distinct: the motion "NiceReaction_01", referenced by the
`PositiveAnswer` of the first item and by the `Question` of the sixth item of Session 1, gives
both `MoveItem`s the identity 3 of its library entry. -/
theorem collectSessions_repeats_library_identity :
    Function.Injective demoGen ∧
    (∀ k, demoGen k ∉ Moves.ids demoLibrary) ∧
    (Moves.ids demoLibrary).Nodup ∧
    collectSessions demoWorld demoGen "/audio" demoLibrary = .ok demoSessions ∧
    (actionIDs demoSessions).count 3 = 2 ∧
    ¬ (actionIDs demoSessions).Nodup := by
  refine ⟨?_, ?_, by decide, rfl, by decide, by decide⟩
  · intro a b h
    have h2 : 2 * a + 2 = 2 * b + 2 := h
    omega
  · intro k
    show demoGen k ∉ [1, 3]
    have h1 : demoGen k ≠ 1 := fun h => by
      have h2 : 2 * k + 2 = 1 := h
      omega
    have h3 : demoGen k ≠ 3 := fun h => by
      have h2 : 2 * k + 2 = 3 := h
      omega
    simp [h1, h3]

/-- C3: on a successful run with an identity stream that never gives 0 nor 3, the six items of
Session 1 are returned with the all-zero identity (only the two items of Session 2 carry a
drawn one), and the `MoveItem` of the first `PositiveAnswer` carries the identity 3 of the
library entry, not the identity `demoGen 9` that the builder assigned to it and that it keeps
when the library is empty. -/
theorem collectSessions_item_identity_unset :
    (∀ k, demoGen k ≠ UUID.Nil ∧ demoGen k ≠ 3) ∧
    collectSessions demoWorld demoGen "/audio" demoLibrary = .ok demoSessions ∧
    demoSessions.map (fun s => s.Items.map fun item => item.ID)
      = [[0, 0, 0, 0, 0, 0], [demoGen 1, demoGen 2]] ∧
    (firstMove demoSessions SessionItem.PositiveAnswer).map (fun m => m.ID) = some 3 ∧
    (∃ ss, collectSessions demoWorld demoGen "/audio" [] = .ok ss ∧
      (firstMove ss SessionItem.PositiveAnswer).map (fun m => m.ID) = some (demoGen 9)) := by
  refine ⟨?_, rfl, by decide, by decide, ⟨_, rfl, by decide⟩⟩
  intro k
  constructor
  · intro h
    have h2 : 2 * k + 2 = 0 := h
    omega
  · intro h
    have h2 : 2 * k + 2 = 3 := h
    omega

/-- Witness for C8: in `demoTree` the identity 6 of the `Question` resolves to the `Question`,
and the all-zero identity, which no composite carries, resolves to the absent result although
the `PositiveAnswer` of the item is nil. -/
theorem getInstructionByID_resolves_witness :
    Sessions.GetInstructionByID demoTree 6
      = some { ID := 6, SayItem := some { ID := 8, Phrase := "Q" } } ∧
    Sessions.GetInstructionByID demoTree 0 = none :=
  ⟨(getInstructionByID_resolves demoTree (by decide)).1 _ (List.Mem.head _) _ (List.Mem.head _)
      { ID := 6, SayItem := some { ID := 8, Phrase := "Q" } } (Or.inl rfl),
    (getInstructionByID_resolves demoTree (by decide)).2 0 (by
      intro s hs item hi c hc
      simp only [demoTree, List.mem_singleton] at hs
      subst hs
      simp only [List.mem_singleton] at hi
      subst hi
      rcases hc with h | h | h <;> simp at h <;> subst h <;> decide)⟩

end Garlic

/-! ## Scan order of the lookup -/

namespace Garlic

/-- C17: for every session tree and every identity, nothing assumed about uniqueness, the
lookup returns the first composite carrying the identity in the list `composites`, which lists
the non-nil composites session by session, item by item, and within an item `NegativeAnswer`
before `PositiveAnswer` before `Question`. So in `clashTree` the identity 5 resolves to the
`NegativeAnswer` rather than the `Question` of the same item, the identity 7 to the composite
of the earlier item, and the identity 9 to the composite of the earlier session. -/
theorem getInstructionByID_first_match (ss : Sessions) (id : UUID) :
    Sessions.GetInstructionByID ss id = (composites ss).find? (fun c => c.ID = id) ∧
    (∀ (s : Session) (rest : Sessions),
      composites (s :: rest) = s.Items.flatMap slots ++ composites rest) ∧
    (∀ (item : SessionItem) (more : List SessionItem),
      (item :: more).flatMap slots
        = [item.NegativeAnswer, item.PositiveAnswer, item.Question].reduceOption
            ++ more.flatMap slots) ∧
    Sessions.GetInstructionByID clashTree 5
      = some { ID := 5, SayItem := some { Phrase := "negative" } } ∧
    Sessions.GetInstructionByID clashTree 7
      = some { ID := 7, SayItem := some { Phrase := "early" } } ∧
    Sessions.GetInstructionByID clashTree 9
      = some { ID := 9, SayItem := some { Phrase := "first" } } := by
  refine ⟨getInstructionByID_eq_find ss id, ?_, ?_, by decide, by decide, by decide⟩
  · intro s rest
    simp [composites]
  · intro item more
    simp [slots]

end Garlic

/-! ## Motion library discovery -/

namespace Garlic

/-- C12: for a matched path the entry keeps the path as `FilePath` and takes the component
before the file name as `Group`, but `Name` is the file name with the FIRST occurrence of the
extension text removed: the matched path "data/g/a.qianimb.qianim" gives the name "ab.qianim",
not "a.qianimb", and this is the entry `collectMoves` builds for the file. For a file name in
which the extension text occurs only at the end, as in "data/Greetings/Hello_01.qianim", the
name is the file name without its extension. -/
theorem moveOfMatch_removes_first_occurrence :
    filepathMatch "data/**/*.qianim" "data/g/a.qianimb.qianim" = .ok true ∧
    moveOfMatch 5 "data/g/a.qianimb.qianim"
      = .ok { ID := 5, FilePath := "data/g/a.qianimb.qianim", Group := "g",
              Name := "ab.qianim" } ∧
    filepathExt "a.qianimb.qianim".data = ".qianim".data ∧
    moveOfMatch 7 "data/Greetings/Hello_01.qianim"
      = .ok { ID := 7, FilePath := "data/Greetings/Hello_01.qianim", Group := "Greetings",
              Name := "Hello_01" } ∧
    collectMoves oddDirs demoGen 0 "data"
      = .ok [some { ID := demoGen 0, FilePath := "data/g/a.qianimb.qianim", Group := "g",
                    Name := "ab.qianim" }] := by
  refine ⟨rfl, rfl, by decide, rfl, rfl⟩

/-- C13: the scan pattern "data/**/*.qianim" matches only paths with exactly one directory
between "data" and the file name. In the tree `demoDirs` the library gets the single entry
of "data/a/x.qianim"; the motion file "data/a/b/y.qianim" two directories below "data" and the
motion file "data/top.qianim" directly in it are in the tree and get no entry. -/
theorem collectMoves_one_level_only :
    collectMoves demoDirs demoGen 0 "data"
      = .ok [some { ID := demoGen 0, Name := "x", FilePath := "data/a/x.qianim",
                    Group := "a" }] ∧
    pathJoin ["data", "**/*.qianim"] = "data/**/*.qianim" ∧
    "data/a/b/y.qianim" ∈ demoTreePaths ∧
    demoDirs.readDirNames "data/a/b" = some ["y.qianim"] ∧
    filepathMatch "data/**/*.qianim" "data/a/b/y.qianim" = .ok false ∧
    "data/top.qianim" ∈ demoTreePaths ∧
    demoDirs.readDirNames "data" = some ["top.qianim", "a"] ∧
    filepathMatch "data/**/*.qianim" "data/top.qianim" = .ok false := by
  refine ⟨rfl, by decide, by decide, rfl, rfl, by decide, rfl, rfl⟩

/-- The scan pattern is the cleaned join of the directory and "**/*.qianim": a directory "."
or "" gives the pattern "**/*.qianim", a trailing slash is dropped, and a directory that
opens a character class it does not close makes the scan return the pattern error. -/
theorem collectMoves_scan_pattern :
    pathJoin [".", "**/*.qianim"] = "**/*.qianim" ∧
    pathJoin ["", "**/*.qianim"] = "**/*.qianim" ∧
    pathJoin ["data/", "**/*.qianim"] = "data/**/*.qianim" ∧
    collectMoves demoDirs demoGen 0 "data/" = collectMoves demoDirs demoGen 0 "data" ∧
    collectMoves demoDirs demoGen 0 "da[ta" = .error (.error ErrBadPattern) := by
  refine ⟨by decide, by decide, by decide, rfl, rfl⟩

/-- Every entry of a library built from matches is a motion, none is nil. -/
theorem movesOfMatches_no_nil (gen : Nat → UUID) (paths : List String) (n : Nat) (ms : Moves)
    (h : movesOfMatches gen paths n = .ok ms) : ∀ e ∈ ms, e ≠ none := by
  induction paths generalizing n ms with
  | nil =>
    simp only [movesOfMatches, Except.ok.injEq] at h
    subst h
    intro e he
    cases he
  | cons path rest ih =>
    unfold movesOfMatches at h
    split at h
    · cases h
    · rename_i m hm
      split at h
      · cases h
      · rename_i ms1 hrest
        cases h
        intro e he
        rcases List.mem_cons.mp he with rfl | hmem
        · simp
        · exact ih _ _ hrest e hmem

/-- The identities of a library built from matches are the identities drawn for them, one
after the other. -/
theorem movesOfMatches_ids (gen : Nat → UUID) (paths : List String) (n : Nat) (ms : Moves)
    (h : movesOfMatches gen paths n = .ok ms) :
    Moves.ids ms = (List.range paths.length).map fun i => gen (n + i) := by
  induction paths generalizing n ms with
  | nil =>
    simp only [movesOfMatches, Except.ok.injEq] at h
    subst h
    rfl
  | cons path rest ih =>
    unfold movesOfMatches at h
    split at h
    · cases h
    · rename_i m hm
      split at h
      · cases h
      · rename_i ms1 hrest
        cases h
        have hid : m.ID = gen n := by
          unfold moveOfMatch at hm
          simp only at hm
          split at hm
          · cases hm; rfl
          · cases hm
        have ih1 := ih _ _ hrest
        simp only [Moves.ids] at ih1 ⊢
        rw [List.reduceOption_cons_of_some, List.map_cons, ih1, List.length_cons,
          List.range_succ_eq_map, List.map_cons, List.map_map, hid]
        congr 1
        apply List.map_congr_left
        intro i _
        simp only [Function.comp, Nat.add_zero]
        congr 1
        omega

/-- A library that `collectMoves` returns holds no nil entry, and its entries carry pairwise
distinct identities when the identity generator never repeats an identity. -/
theorem collectMoves_library (fs : Dirs) (gen : Nat → UUID) (n : Nat) (dataDir : String)
    (ms : Moves) (h : collectMoves fs gen n dataDir = .ok ms) :
    (∀ e ∈ ms, e ≠ none) ∧ (Function.Injective gen → (Moves.ids ms).Nodup) := by
  unfold collectMoves at h
  simp only at h
  split at h
  · cases h
  · rename_i matched hglob
    refine ⟨movesOfMatches_no_nil gen matched n ms h, ?_⟩
    intro hinj
    rw [movesOfMatches_ids gen matched n ms h]
    refine List.Nodup.map ?_ (List.nodup_range _)
    intro i j hij
    have := hinj hij
    omega

end Garlic

/-! ## Validity of a composite -/

namespace Garlic

/-- A hexadecimal digit written by `hexChar` is read back by `hexValue`. -/
theorem hexValue_hexChar (n : Nat) : hexValue (hexChar (n % 16)) = some (n % 16) := by
  have key : ∀ m, m < 16 → hexValue (hexChar m) = some m := by decide
  exact key _ (Nat.mod_lt _ (by norm_num))

/-- Two digits written by `hexChar` are read back by `xtob`. -/
theorem xtob_hexChar (a b : Nat) :
    xtob (hexChar (a % 16)) (hexChar (b % 16)) = some (a % 16 * 16 + b % 16) := by
  simp [xtob, hexValue_hexChar]

/-- The 36 characters of the text of an identity. -/
theorem uuidString_eq (id : UUID) :
    uuidString id =
      [hexChar (id / 256 ^ 15 % 256 / 16 % 16),
       hexChar (id / 256 ^ 15 % 256 % 16),
       hexChar (id / 256 ^ 14 % 256 / 16 % 16),
       hexChar (id / 256 ^ 14 % 256 % 16),
       hexChar (id / 256 ^ 13 % 256 / 16 % 16),
       hexChar (id / 256 ^ 13 % 256 % 16),
       hexChar (id / 256 ^ 12 % 256 / 16 % 16),
       hexChar (id / 256 ^ 12 % 256 % 16),
       '-',
       hexChar (id / 256 ^ 11 % 256 / 16 % 16),
       hexChar (id / 256 ^ 11 % 256 % 16),
       hexChar (id / 256 ^ 10 % 256 / 16 % 16),
       hexChar (id / 256 ^ 10 % 256 % 16),
       '-',
       hexChar (id / 256 ^ 9 % 256 / 16 % 16),
       hexChar (id / 256 ^ 9 % 256 % 16),
       hexChar (id / 256 ^ 8 % 256 / 16 % 16),
       hexChar (id / 256 ^ 8 % 256 % 16),
       '-',
       hexChar (id / 256 ^ 7 % 256 / 16 % 16),
       hexChar (id / 256 ^ 7 % 256 % 16),
       hexChar (id / 256 ^ 6 % 256 / 16 % 16),
       hexChar (id / 256 ^ 6 % 256 % 16),
       '-',
       hexChar (id / 256 ^ 5 % 256 / 16 % 16),
       hexChar (id / 256 ^ 5 % 256 % 16),
       hexChar (id / 256 ^ 4 % 256 / 16 % 16),
       hexChar (id / 256 ^ 4 % 256 % 16),
       hexChar (id / 256 ^ 3 % 256 / 16 % 16),
       hexChar (id / 256 ^ 3 % 256 % 16),
       hexChar (id / 256 ^ 2 % 256 / 16 % 16),
       hexChar (id / 256 ^ 2 % 256 % 16),
       hexChar (id / 256 ^ 1 % 256 / 16 % 16),
       hexChar (id / 256 ^ 1 % 256 % 16),
       hexChar (id / 256 ^ 0 % 256 / 16 % 16),
       hexChar (id / 256 ^ 0 % 256 % 16)] := rfl

/-- The text of every identity parses. -/
theorem uuidParse_uuidString (id : UUID) : ∃ u, uuidParse (uuidString id) = .ok u := by
  rw [uuidString_eq]
  simp [uuidParse, parseDashed, bytesAt, xtob_hexChar]

/-- C14: for a non-nil composite with a non-nil `SayItem`, `IsValid` returns true exactly when
the text of its identity parses back as an identity and `Phrase` and `FilePath` of the
`SayItem` are both non-empty. The text of every identity parses, the all-zero one included, so
`IsValid` returns whether `Phrase` and `FilePath` are both non-empty; it does not depend on the
`MoveItem`; and for the nil composite it returns false. -/
theorem isValid_iff_phrase_and_path (c : SayAndMoveAction) (say : SayAction)
    (hsay : c.SayItem = some say) :
    (SayAndMoveAction.IsValid (some c) = .ok true ↔
      (∃ u, uuidParse (uuidString c.ID) = .ok u) ∧ say.Phrase ≠ "" ∧ say.FilePath ≠ "") ∧
    (∀ id : UUID, ∃ u, uuidParse (uuidString id) = .ok u) ∧
    SayAndMoveAction.IsValid (some c) = .ok (decide (say.Phrase ≠ "" ∧ say.FilePath ≠ "")) ∧
    (∀ m : Option MoveAction,
      SayAndMoveAction.IsValid (some { c with MoveItem := m })
        = SayAndMoveAction.IsValid (some c)) ∧
    SayAndMoveAction.IsValid none = .ok false := by
  obtain ⟨u, hu⟩ := uuidParse_uuidString c.ID
  have hval : SayAndMoveAction.IsValid (some c)
      = .ok (decide (say.Phrase ≠ "" ∧ say.FilePath ≠ "")) := by
    simp only [SayAndMoveAction.IsValid, hu, hsay]
    by_cases h1 : say.Phrase = "" <;> by_cases h2 : say.FilePath = "" <;> simp [h1, h2]
  refine ⟨?_, uuidParse_uuidString, hval, ?_, rfl⟩
  · rw [hval]
    constructor
    · intro h
      have h2 : decide (say.Phrase ≠ "" ∧ say.FilePath ≠ "") = true := by
        injection h
      exact ⟨⟨u, hu⟩, of_decide_eq_true h2⟩
    · rintro ⟨_, h⟩
      rw [decide_eq_true h]
  · intro m
    simp only [SayAndMoveAction.IsValid]

/-- Witness for C14: the first question of the templates, with the all-zero identity it is
authored with, is valid; the first question of Session 2, authored without audio file, is
not. -/
theorem isValid_iff_phrase_and_path_witness :
    SayAndMoveAction.IsValid
        (some { ID := 0, SayItem := some { Phrase := "Tere", FilePath := "1out_tutvustus.wav" },
                MoveItem := some { Name := "Hello_01" } })
      = .ok true ∧
    SayAndMoveAction.IsValid (some { ID := demoGen 4, SayItem := some { Phrase := "Q1" } })
      = .ok false :=
  ⟨(isValid_iff_phrase_and_path
      { ID := 0, SayItem := some { Phrase := "Tere", FilePath := "1out_tutvustus.wav" },
        MoveItem := some { Name := "Hello_01" } }
      { Phrase := "Tere", FilePath := "1out_tutvustus.wav" } rfl).2.2.1,
    (isValid_iff_phrase_and_path { ID := demoGen 4, SayItem := some { Phrase := "Q1" } }
      { Phrase := "Q1" } rfl).2.2.1⟩

end Garlic

/-! ## The builder, composite by composite -/

namespace Garlic

/-- A nil composite taken through the builder alone stays nil, whatever the file system and
the library. -/
theorem buildComposite_none (w : World) (gen : Nat → UUID) (sayDir sessionName : String)
    (moves : Moves) (n : Nat) :
    buildComposite w gen sayDir sessionName moves none n = .ok none := by
  simp [buildComposite, initIDs_none, resolveComposite]

/-- The identity block draws `drawsOf` identities. -/
theorem initIDs_draws (gen : Nat → UUID) (c : Option SayAndMoveAction) (n : Nat) :
    (initIDs gen c n).2 = n + drawsOf c := by
  cases c with
  | none => simp [initIDs_none, drawsOf]
  | some a => simp [initIDs_some, drawsOf]

/-- What the audio step gives when it returns. -/
theorem resolveSay_ok (w : World) (sayDir sessionName : String) (a b : SayAndMoveAction)
    (h : resolveSay w sayDir sessionName a = .ok b) :
    ∃ say, a.SayItem = some say ∧
      (say.FilePath ≠ "" →
        w.stat (w.pathJoin sayDir sessionName say.FilePath) ≠ .notExist) ∧
      b = { a with SayItem := some { say with
              FilePath := if say.FilePath = "" then ""
                          else w.pathJoin sayDir sessionName say.FilePath } } := by
  unfold resolveSay at h
  cases hs : a.SayItem with
  | none => rw [hs] at h; cases h
  | some say =>
    rw [hs] at h
    refine ⟨say, rfl, ?_⟩
    by_cases hp : say.FilePath = ""
    · simp only [hp, ne_eq, not_true_eq_false, if_false] at h
      cases h
      refine ⟨fun hne => absurd hp hne, ?_⟩
      obtain ⟨aid, asay, amove⟩ := a
      obtain ⟨sid, sphrase, spath⟩ := say
      simp only at hs hp
      subst hs hp
      rfl
    · simp only [ne_eq, hp, not_false_eq_true, if_true] at h
      cases hst : w.stat (w.pathJoin sayDir sessionName say.FilePath) with
      | notExist => rw [hst] at h; cases h
      | found =>
        rw [hst] at h
        cases h
        exact ⟨fun _ => by simp, by simp [hp]⟩
      | failed =>
        rw [hst] at h
        cases h
        exact ⟨fun _ => by simp, by simp [hp]⟩

/-- What the library step gives when it returns. -/
theorem bindMove_ok (moves : Moves) (a b : SayAndMoveAction)
    (h : bindMove moves a = .ok b) :
    (∀ m, a.MoveItem = some m →
      Moves.GetByName moves m.Name = .ok (Moves.firstNamed moves m.Name)) ∧
    b = { a with MoveItem := a.MoveItem.map fun m =>
            match Moves.firstNamed moves m.Name with
            | some v => { v with Delay := m.Delay }
            | none => m } := by
  unfold bindMove at h
  cases hm : a.MoveItem with
  | none =>
    rw [hm] at h
    cases h
    refine ⟨fun m hm2 => (by cases hm2), ?_⟩
    obtain ⟨aid, asay, amove⟩ := a
    simp only at hm
    subst hm
    rfl
  | some m =>
    rw [hm] at h
    simp only at h
    cases hg : Moves.GetByName moves m.Name with
    | error f => rw [hg] at h; cases h
    | ok r =>
      have hr := getByName_eq_firstNamed moves m.Name r hg
      subst hr
      rw [hg] at h
      refine ⟨fun m2 hm2 => (by cases hm2; exact hg), ?_⟩
      obtain ⟨aid, asay, amove⟩ := a
      simp only at hm
      subst hm
      cases hf : Moves.firstNamed moves m.Name with
      | none =>
        rw [hf] at h
        cases h
        simp only [Option.map_some', hf]
      | some v =>
        rw [hf] at h
        cases h
        simp only [Option.map_some', hf]

/-- What a successful build of a non-nil composite gives: the composite has a `SayItem`, its
audio file if it names one is not reported missing, the library lookup for its `MoveItem` if
it has one returned, and the built composite is made of the drawn identity, `builtSay` and
`builtMove`. -/
theorem buildComposite_some_ok (w : World) (gen : Nat → UUID) (sayDir sessionName : String)
    (moves : Moves) (a : SayAndMoveAction) (n : Nat) (built : Option SayAndMoveAction)
    (h : buildComposite w gen sayDir sessionName moves (some a) n = .ok built) :
    ∃ say, a.SayItem = some say ∧
      (say.FilePath ≠ "" →
        w.stat (w.pathJoin sayDir sessionName say.FilePath) ≠ .notExist) ∧
      (∀ m, a.MoveItem = some m →
        Moves.GetByName moves m.Name = .ok (Moves.firstNamed moves m.Name)) ∧
      built = some { ID := gen n, SayItem := some (builtSay w gen sayDir sessionName say n),
                     MoveItem := a.MoveItem.map fun m => builtMove gen moves m n } := by
  unfold buildComposite at h
  rw [initIDs_some] at h
  simp only [resolveComposite] at h
  cases h1 : resolveSay w sayDir sessionName
      { ID := gen n, SayItem := SayAction.SetID a.SayItem (gen (n + 1)),
        MoveItem := MoveAction.SetID a.MoveItem (gen (n + 2)) } with
  | error f => rw [h1] at h; cases h
  | ok a1 =>
    rw [h1] at h
    simp only at h
    cases h2 : bindMove moves a1 with
    | error f => rw [h2] at h; cases h
    | ok a2 =>
      rw [h2] at h
      cases h
      obtain ⟨say1, hs1, hstat, ha1⟩ := resolveSay_ok w sayDir sessionName _ a1 h1
      obtain ⟨hget, ha2⟩ := bindMove_ok moves a1 a2 h2
      cases hs : a.SayItem with
      | none => simp [hs, SayAction.SetID] at hs1
      | some say =>
        simp only [hs, SayAction.SetID, Option.some.injEq] at hs1
        subst hs1
        refine ⟨say, rfl, hstat, ?_, ?_⟩
        · intro m hm
          apply hget { m with ID := gen (n + 2) }
          rw [ha1]
          simp [hm, MoveAction.SetID]
        · rw [ha2, ha1]
          cases hm : a.MoveItem with
          | none => simp [builtSay, MoveAction.SetID]
          | some m =>
            simp only [builtSay, builtMove, MoveAction.SetID, Option.map_some']

end Garlic

/-! ## The builder, item by item and session by session -/

namespace Garlic

/-- The body of the item loop is the three composites of the item taken through the builder
alone, one after the other, each starting where the draws of the one before end; the first
failure is the failure of the item. -/
theorem processItem_eq (w : World) (gen : Nat → UUID) (sayDir sessionName : String)
    (moves : Moves) (item : SessionItem) (n : Nat) :
    processItem w gen sayDir sessionName moves item n =
      match buildComposite w gen sayDir sessionName moves item.Question n with
      | .error f => .error f
      | .ok question =>
        match buildComposite w gen sayDir sessionName moves item.PositiveAnswer
            (n + drawsOf item.Question) with
        | .error f => .error f
        | .ok positive =>
          match buildComposite w gen sayDir sessionName moves item.NegativeAnswer
              (n + drawsOf item.Question + drawsOf item.PositiveAnswer) with
          | .error f => .error f
          | .ok negative =>
            .ok ({ item with Question := question, PositiveAnswer := positive,
                             NegativeAnswer := negative },
                 n + drawsOf item.Question + drawsOf item.PositiveAnswer
                   + drawsOf item.NegativeAnswer) := by
  simp only [processItem, buildComposite, initIDs_draws]

/-- A relation that holds between every composite and what the builder makes of it alone
holds between every item and what the body of the item loop makes of it. -/
theorem processItem_rel (w : World) (gen : Nat → UUID) (sayDir sessionName : String)
    (moves : Moves) (R : Option SayAndMoveAction → Option SayAndMoveAction → Prop)
    (hR : ∀ c n built, buildComposite w gen sayDir sessionName moves c n = .ok built → R c built)
    (item built : SessionItem) (n n1 : Nat)
    (h : processItem w gen sayDir sessionName moves item n = .ok (built, n1)) :
    ItemRel R item built := by
  rw [processItem_eq] at h
  split at h
  · cases h
  · rename_i question hq
    split at h
    · cases h
    · rename_i positive hp
      split at h
      · cases h
      · rename_i negative hg
        cases h
        exact ⟨rfl, hR _ _ _ hq, hR _ _ _ hp, hR _ _ _ hg⟩

/-- The same for the item loop. -/
theorem processItems_rel (w : World) (gen : Nat → UUID) (sayDir sessionName : String)
    (moves : Moves) (R : Option SayAndMoveAction → Option SayAndMoveAction → Prop)
    (hR : ∀ c n built, buildComposite w gen sayDir sessionName moves c n = .ok built → R c built)
    (items built : List SessionItem) (n n1 : Nat)
    (h : processItems w gen sayDir sessionName moves items n = .ok (built, n1)) :
    List.Forall₂ (ItemRel R) items built := by
  induction items generalizing built n n1 with
  | nil =>
    simp only [processItems, Except.ok.injEq, Prod.mk.injEq] at h
    rw [← h.1]; exact List.Forall₂.nil
  | cons item rest ih =>
    unfold processItems at h
    split at h
    · cases h
    · rename_i item1 k hi
      split at h
      · cases h
      · rename_i rest1 k2 hr
        cases h
        exact List.Forall₂.cons
          (processItem_rel w gen sayDir sessionName moves R hR _ _ _ _ hi) (ih _ _ _ hr)

/-- The same for the session loop: sessions are built one for one, each keeps its name and
description. -/
theorem buildSessions_rel (w : World) (gen : Nat → UUID) (sayDir : String) (moves : Moves)
    (R : String → Option SayAndMoveAction → Option SayAndMoveAction → Prop)
    (hR : ∀ name c n built,
      buildComposite w gen sayDir name moves c n = .ok built → R name c built)
    (templates built : List Session) (n n1 : Nat)
    (h : buildSessions w gen sayDir moves templates n = .ok (built, n1)) :
    List.Forall₂ (SessionRel R) templates built := by
  induction templates generalizing built n n1 with
  | nil =>
    simp only [buildSessions, Except.ok.injEq, Prod.mk.injEq] at h
    rw [← h.1]; exact List.Forall₂.nil
  | cons s rest ih =>
    unfold buildSessions at h
    split at h
    · cases h
    · rename_i s1 k hs
      split at h
      · cases h
      · rename_i rest1 k2 hr
        cases h
        refine List.Forall₂.cons ?_ (ih _ _ _ hr)
        unfold processSession at hs
        split at hs
        · cases hs
        · rename_i items k3 hi
          cases hs
          exact ⟨rfl, rfl, processItems_rel w gen sayDir s.Name moves (R s.Name) (hR s.Name)
            _ _ _ _ hi⟩

/-- The same for `collectSessions` and its hard-coded templates. -/
theorem collectSessions_rel (w : World) (gen : Nat → UUID) (sayDir : String) (moves : Moves)
    (R : String → Option SayAndMoveAction → Option SayAndMoveAction → Prop)
    (hR : ∀ name c n built,
      buildComposite w gen sayDir name moves c n = .ok built → R name c built)
    (ss : List Session) (h : collectSessions w gen sayDir moves = .ok ss) :
    List.Forall₂ (SessionRel R) (sessionTemplates gen) ss := by
  unfold collectSessions at h
  split at h
  · cases h
  · rename_i built k hb
    cases h
    exact buildSessions_rel w gen sayDir moves R hR _ _ _ _ hb

end Garlic

/-! ## Missing audio files -/

namespace Garlic

/-- Membership in `slots` is being one of the three composites of the item. -/
theorem mem_slots (item : SessionItem) (c : SayAndMoveAction) :
    c ∈ slots item ↔
      item.Question = some c ∨ item.PositiveAnswer = some c ∨ item.NegativeAnswer = some c := by
  simp only [slots, List.reduceOption_mem_iff, List.mem_cons, List.mem_singleton,
    List.not_mem_nil, or_false]
  constructor
  · rintro (h | h | h)
    · exact Or.inr (Or.inr h.symm)
    · exact Or.inr (Or.inl h.symm)
    · exact Or.inl h.symm
  · rintro (h | h | h)
    · exact Or.inr (Or.inr h.symm)
    · exact Or.inr (Or.inl h.symm)
    · exact Or.inl h.symm

/-- Over a library without nil entries, a composite that has a `SayItem` when it is not nil is
either built, or the build returns an error and the audio file of the composite is reported
missing. -/
theorem buildComposite_outcome (w : World) (gen : Nat → UUID) (sayDir sessionName : String)
    (moves : Moves) (hnil : ∀ e ∈ moves, e ≠ none) (c : Option SayAndMoveAction)
    (hsay : HasSay c) (n : Nat) :
    (∃ built, buildComposite w gen sayDir sessionName moves c n = .ok built) ∨
    (∃ msg a, buildComposite w gen sayDir sessionName moves c n = .error (.error msg) ∧
      c = some a ∧ SayMissing w sayDir sessionName a) := by
  cases c with
  | none => exact Or.inl ⟨none, buildComposite_none w gen sayDir sessionName moves n⟩
  | some a =>
    cases hs : a.SayItem with
    | none => exact absurd hs (hsay a rfl)
    | some say =>
      unfold buildComposite
      rw [initIDs_some]
      simp only [resolveComposite, resolveSay, hs, SayAction.SetID]
      by_cases hp : say.FilePath = ""
      · left
        simp only [hp, ne_eq, not_true_eq_false, if_false]
        obtain ⟨b, hb⟩ := bindMove_returns moves
          { ID := gen n, SayItem := some { ID := gen (n + 1), Phrase := say.Phrase, FilePath := "" },
            MoveItem := MoveAction.SetID a.MoveItem (gen (n + 2)) } hnil
        rw [hb]
        exact ⟨_, rfl⟩
      · simp only [ne_eq, hp, not_false_eq_true, if_true]
        cases hst : w.stat (w.pathJoin sayDir sessionName say.FilePath) with
        | notExist =>
          right
          exact ⟨_, a, rfl, rfl, say, hs, hp, hst⟩
        | found =>
          left
          obtain ⟨b, hb⟩ := bindMove_returns moves
            { ID := gen n,
              SayItem := some { ID := gen (n + 1), Phrase := say.Phrase,
                                FilePath := w.pathJoin sayDir sessionName say.FilePath },
              MoveItem := MoveAction.SetID a.MoveItem (gen (n + 2)) } hnil
          simp only [hb]
          exact ⟨_, rfl⟩
        | failed =>
          left
          obtain ⟨b, hb⟩ := bindMove_returns moves
            { ID := gen n,
              SayItem := some { ID := gen (n + 1), Phrase := say.Phrase,
                                FilePath := w.pathJoin sayDir sessionName say.FilePath },
              MoveItem := MoveAction.SetID a.MoveItem (gen (n + 2)) } hnil
          simp only [hb]
          exact ⟨_, rfl⟩

/-- The same for the body of the item loop. -/
theorem processItem_outcome (w : World) (gen : Nat → UUID) (sayDir sessionName : String)
    (moves : Moves) (hnil : ∀ e ∈ moves, e ≠ none) (item : SessionItem)
    (hsay : ItemHasSay item) (n : Nat) :
    (∃ r, processItem w gen sayDir sessionName moves item n = .ok r) ∨
    (∃ msg, processItem w gen sayDir sessionName moves item n = .error (.error msg) ∧
      ∃ c ∈ slots item, SayMissing w sayDir sessionName c) := by
  obtain ⟨hq, hp, hg⟩ := hsay
  rw [processItem_eq]
  rcases buildComposite_outcome w gen sayDir sessionName moves hnil item.Question hq n with
    ⟨q, h1⟩ | ⟨msg, a, h1, ha, hmiss⟩
  · rw [h1]
    rcases buildComposite_outcome w gen sayDir sessionName moves hnil item.PositiveAnswer hp
        (n + drawsOf item.Question) with ⟨p, h2⟩ | ⟨msg, a, h2, ha, hmiss⟩
    · rw [h2]
      rcases buildComposite_outcome w gen sayDir sessionName moves hnil item.NegativeAnswer hg
          (n + drawsOf item.Question + drawsOf item.PositiveAnswer) with
        ⟨g, h3⟩ | ⟨msg, a, h3, ha, hmiss⟩
      · rw [h3]
        exact Or.inl ⟨_, rfl⟩
      · rw [h3]
        exact Or.inr ⟨msg, rfl, a, (mem_slots item a).mpr (Or.inr (Or.inr ha)), hmiss⟩
    · rw [h2]
      exact Or.inr ⟨msg, rfl, a, (mem_slots item a).mpr (Or.inr (Or.inl ha)), hmiss⟩
  · rw [h1]
    exact Or.inr ⟨msg, rfl, a, (mem_slots item a).mpr (Or.inl ha), hmiss⟩

/-- The same for the item loop. -/
theorem processItems_outcome (w : World) (gen : Nat → UUID) (sayDir sessionName : String)
    (moves : Moves) (hnil : ∀ e ∈ moves, e ≠ none) (items : List SessionItem)
    (hsay : ∀ item ∈ items, ItemHasSay item) (n : Nat) :
    (∃ r, processItems w gen sayDir sessionName moves items n = .ok r) ∨
    (∃ msg, processItems w gen sayDir sessionName moves items n = .error (.error msg) ∧
      ∃ item ∈ items, ∃ c ∈ slots item, SayMissing w sayDir sessionName c) := by
  induction items generalizing n with
  | nil => exact Or.inl ⟨_, rfl⟩
  | cons item rest ih =>
    unfold processItems
    rcases processItem_outcome w gen sayDir sessionName moves hnil item
        (hsay item (List.mem_cons_self _ _)) n with ⟨⟨item1, n1⟩, h1⟩ | ⟨msg, h1, c, hc, hmiss⟩
    · rw [h1]
      rcases ih (fun i hi => hsay i (List.mem_cons_of_mem _ hi)) n1 with
        ⟨⟨rest1, n2⟩, h2⟩ | ⟨msg, h2, i, hi, c, hc, hmiss⟩
      · simp only [h2]
        exact Or.inl ⟨_, rfl⟩
      · simp only [h2]
        exact Or.inr ⟨msg, rfl, i, List.mem_cons_of_mem _ hi, c, hc, hmiss⟩
    · rw [h1]
      exact Or.inr ⟨msg, rfl, item, List.mem_cons_self _ _, c, hc, hmiss⟩

/-- The same for the session loop. -/
theorem buildSessions_outcome (w : World) (gen : Nat → UUID) (sayDir : String) (moves : Moves)
    (hnil : ∀ e ∈ moves, e ≠ none) (templates : List Session)
    (hsay : ∀ s ∈ templates, ∀ item ∈ s.Items, ItemHasSay item) (n : Nat) :
    (∃ r, buildSessions w gen sayDir moves templates n = .ok r) ∨
    (∃ msg, buildSessions w gen sayDir moves templates n = .error (.error msg) ∧
      AudioMissing w sayDir templates) := by
  induction templates generalizing n with
  | nil => exact Or.inl ⟨_, rfl⟩
  | cons s rest ih =>
    unfold buildSessions processSession
    rcases processItems_outcome w gen sayDir s.Name moves hnil s.Items
        (hsay s (List.mem_cons_self _ _)) (n + 1) with
      ⟨⟨items1, n1⟩, h1⟩ | ⟨msg, h1, i, hi, c, hc, hmiss⟩
    · simp only [h1]
      rcases ih (fun t ht => hsay t (List.mem_cons_of_mem _ ht)) n1 with
        ⟨⟨rest1, n2⟩, h2⟩ | ⟨msg, h2, t, ht, i, hi, c, hc, hmiss⟩
      · simp only [h2]
        exact Or.inl ⟨_, rfl⟩
      · simp only [h2]
        exact Or.inr ⟨msg, rfl, t, List.mem_cons_of_mem _ ht, i, hi, c, hc, hmiss⟩
    · simp only [h1]
      exact Or.inr ⟨msg, rfl, s, List.mem_cons_self _ _, i, hi, c, hc, hmiss⟩

end Garlic

namespace Garlic

/-- A relation that holds for every pair of two lists related item for item holds for every
member of the first list and some member of the second. -/
theorem forall₂_mem_left {α β : Type} (R : α → β → Prop) (l : List α) (l1 : List β)
    (h : List.Forall₂ R l l1) (a : α) (ha : a ∈ l) : ∃ b ∈ l1, R a b := by
  induction h with
  | nil => cases ha
  | cons hab _ ih =>
    rcases List.mem_cons.mp ha with rfl | hmem
    · exact ⟨_, List.mem_cons_self _ _, hab⟩
    · obtain ⟨b, hb, hr⟩ := ih hmem
      exact ⟨b, List.mem_cons_of_mem _ hb, hr⟩

/-- A composite that the builder builds does not have its audio file reported missing. -/
theorem buildComposite_ok_not_missing (w : World) (gen : Nat → UUID)
    (sayDir sessionName : String) (moves : Moves) (c built : Option SayAndMoveAction) (n : Nat)
    (h : buildComposite w gen sayDir sessionName moves c n = .ok built) :
    ∀ a, c = some a → ¬ SayMissing w sayDir sessionName a := by
  intro a hc hmiss
  subst hc
  obtain ⟨say, hs, hstat, _, _⟩ := buildComposite_some_ok w gen sayDir sessionName moves a n built h
  obtain ⟨say1, hs1, hp, hst⟩ := hmiss
  rw [hs] at hs1
  cases hs1
  exact hstat hp hst

/-- A composite that the builder builds has its `SayItem` resolved as `SayResolved` says. -/
theorem buildComposite_ok_say (w : World) (gen : Nat → UUID)
    (sayDir sessionName : String) (moves : Moves) (c built : Option SayAndMoveAction) (n : Nat)
    (h : buildComposite w gen sayDir sessionName moves c n = .ok built) :
    SayResolved w sayDir sessionName c built := by
  constructor
  · intro hc
    subst hc
    rw [buildComposite_none] at h
    cases h
    rfl
  · intro a hc
    subst hc
    obtain ⟨say, hs, _, _, hb⟩ := buildComposite_some_ok w gen sayDir sessionName moves a n built h
    exact ⟨_, say, _, hb, hs, rfl, rfl, rfl⟩

/-- A successful run of the session loop leaves no audio file reported missing. -/
theorem buildSessions_ok_not_missing (w : World) (gen : Nat → UUID) (sayDir : String)
    (moves : Moves) (templates built : List Session) (n n1 : Nat)
    (h : buildSessions w gen sayDir moves templates n = .ok (built, n1)) :
    ¬ AudioMissing w sayDir templates := by
  rintro ⟨s, hs, item, hi, c, hc, hmiss⟩
  have hrel := buildSessions_rel w gen sayDir moves
    (fun name c _ => ∀ a, c = some a → ¬ SayMissing w sayDir name a)
    (fun name c n built hb => buildComposite_ok_not_missing w gen sayDir name moves c built n hb)
    templates built n n1 h
  obtain ⟨s1, _, _, _, hitems⟩ := forall₂_mem_left _ _ _ hrel s hs
  obtain ⟨item1, _, _, hq, hp, hg⟩ := forall₂_mem_left _ _ _ hitems item hi
  rcases (mem_slots item c).mp hc with h1 | h1 | h1
  · exact hq c h1 hmiss
  · exact hp c h1 hmiss
  · exact hg c h1 hmiss

/-- Audio files that all exist are not reported missing. -/
theorem audioFound_not_missing (w : World) (sayDir : String) (templates : List Session)
    (h : AudioFound w sayDir templates) : ¬ AudioMissing w sayDir templates := by
  rintro ⟨s, hs, item, hi, c, hc, say, hsay, hp, hst⟩
  rw [h s hs item hi c hc say hsay hp] at hst
  cases hst

/-- C7: on every successful run of the builder, over any templates and so over the hard-coded
ones of `collectSessions`, each authored composite with a non-nil `MoveItem` is built into a
composite whose `MoveItem` has the authored `Delay` and the `Name`, `FilePath` and `Group` of
the first library entry with the authored `Name`. When no entry has that `Name` the `MoveItem`
is kept: it is the authored one with the identity the builder drew for it, and the library step
returns the composite as it is. A name that is not in the library never makes the build fail:
over a library of motions, a list without nil entry as `collectMoves` builds it, the build
never aborts and returns a session list whenever no audio path is reported missing. -/
theorem collectSessions_binds_moves (w : World) (gen : Nat → UUID) (sayDir : String)
    (moves : Moves) :
    (∀ templates n built n1,
      buildSessions w gen sayDir moves templates n = .ok (built, n1) →
        List.Forall₂ (SessionBound moves) templates built) ∧
    (∀ ss, collectSessions w gen sayDir moves = .ok ss →
        List.Forall₂ (SessionBound moves) (sessionTemplates gen) ss) ∧
    (∀ (name : String) (a : SayAndMoveAction) (m : MoveAction) (n : Nat)
        (built : Option SayAndMoveAction),
      a.MoveItem = some m → Moves.firstNamed moves m.Name = none →
      buildComposite w gen sayDir name moves (some a) n = .ok built →
        ∃ b, built = some b ∧ b.MoveItem = some { m with ID := gen (n + 2) }) ∧
    (∀ (c : SayAndMoveAction) (m : MoveAction), c.MoveItem = some m →
      (∀ e ∈ moves, e ≠ none) → Moves.firstNamed moves m.Name = none →
        bindMove moves c = .ok c) ∧
    ((∀ e ∈ moves, e ≠ none) → ¬ AudioMissing w sayDir (sessionTemplates gen) →
      ∃ ss, collectSessions w gen sayDir moves = .ok ss) ∧
    ((∀ e ∈ moves, e ≠ none) → ∀ msg,
      collectSessions w gen sayDir moves ≠ .error (.panic msg)) := by
  have outcome : (∀ e ∈ moves, e ≠ none) →
      (∃ r, buildSessions w gen sayDir moves (sessionTemplates gen) templateDraws = .ok r) ∨
      (∃ msg, buildSessions w gen sayDir moves (sessionTemplates gen) templateDraws
          = .error (.error msg) ∧ AudioMissing w sayDir (sessionTemplates gen)) :=
    fun hnil => buildSessions_outcome w gen sayDir moves hnil (sessionTemplates gen)
      (sessionTemplates_have_say gen) templateDraws
  refine ⟨fun templates n built n1 h => buildSessions_bound w gen sayDir moves _ _ _ _ h,
    ?_, ?_, ?_, ?_, ?_⟩
  · intro ss h
    unfold collectSessions at h
    split at h
    · cases h
    · rename_i built k hb
      cases h
      exact buildSessions_bound w gen sayDir moves _ _ _ _ hb
  · intro name a m n built hm hmiss h
    obtain ⟨say, _, _, _, hb⟩ := buildComposite_some_ok w gen sayDir name moves a n built h
    exact ⟨_, hb, by simp [hm, builtMove, hmiss]⟩
  · intro c m hm hnil hmiss
    unfold bindMove
    rw [hm]
    simp only
    rw [getByName_of_no_nil moves m.Name hnil, hmiss]
  · intro hnil hfound
    rcases outcome hnil with ⟨r, hr⟩ | ⟨msg, _, hmiss⟩
    · exact ⟨r.1, by simp only [collectSessions, hr]⟩
    · exact absurd hmiss hfound
  · intro hnil msg h
    rcases outcome hnil with ⟨r, hr⟩ | ⟨msg1, hr, _⟩
    · simp only [collectSessions, hr] at h
      cases h
    · simp only [collectSessions, hr] at h
      cases h

/-- Witness for C7: with "Hello_01" in the library under group "Greetings" and an authored
delay of 0, the first question is built with the library name, group and path and delay 0;
"SadReaction_01" is not in the library and is kept, with the identity drawn for it; and the
build over the library returns. -/
theorem collectSessions_binds_moves_witness :
    List.Forall₂ (SessionBound demoLibrary) (sessionTemplates demoGen) demoSessions ∧
    firstMove demoSessions SessionItem.Question
      = some { ID := 1, Name := "Hello_01", FilePath := "/lib/Greetings/Hello_01.qianim",
               Delay := 0, Group := "Greetings" } ∧
    firstMove demoSessions SessionItem.NegativeAnswer
      = some { ID := demoGen 12, Name := "SadReaction_01" } ∧
    bindMove demoLibrary { MoveItem := some { Name := "SadReaction_01" } }
      = .ok { MoveItem := some { Name := "SadReaction_01" } } ∧
    (∃ ss, collectSessions demoWorld demoGen "/audio" demoLibrary = .ok ss) :=
  ⟨(collectSessions_binds_moves demoWorld demoGen "/audio" demoLibrary).2.1 demoSessions rfl,
    by decide, by decide,
    (collectSessions_binds_moves demoWorld demoGen "/audio" demoLibrary).2.2.2.1
      { MoveItem := some { Name := "SadReaction_01" } } { Name := "SadReaction_01" } rfl
      (by decide) (by decide),
    (collectSessions_binds_moves demoWorld demoGen "/audio" demoLibrary).2.2.2.2.1 (by decide)
      (audioFound_not_missing demoWorld "/audio" _ fun _ _ _ _ _ _ _ _ _ => rfl)⟩

/-- C11: for every audio root, every file system state and every motion library, a library
being a list of motions without nil entry as `collectMoves` builds it, over any templates whose
non-nil composites have a `SayItem`, and so over the hard-coded ones: if the joined audio path of some non-nil composite with a non-empty
authored path is reported missing, the build returns an error and no session list; otherwise,
in particular if every such path exists, it returns a session list with one session for each
template and one item for each authored item, in which the audio path of every composite is the
joined path and an empty authored path is left empty. -/
theorem collectSessions_audio (w : World) (gen : Nat → UUID) (sayDir : String) (moves : Moves)
    (hnil : ∀ e ∈ moves, e ≠ none) :
    (∀ templates n, (∀ s ∈ templates, ∀ item ∈ s.Items, ItemHasSay item) →
      (AudioMissing w sayDir templates →
        ∃ msg, buildSessions w gen sayDir moves templates n = .error (.error msg)) ∧
      (¬ AudioMissing w sayDir templates →
        ∃ built n1, buildSessions w gen sayDir moves templates n = .ok (built, n1) ∧
          List.Forall₂ (SessionRel (SayResolved w sayDir)) templates built)) ∧
    (AudioMissing w sayDir (sessionTemplates gen) →
      ∃ msg, collectSessions w gen sayDir moves = .error (.error msg)) ∧
    (¬ AudioMissing w sayDir (sessionTemplates gen) →
      ∃ ss, collectSessions w gen sayDir moves = .ok ss ∧
        List.Forall₂ (SessionRel (SayResolved w sayDir)) (sessionTemplates gen) ss) ∧
    (AudioFound w sayDir (sessionTemplates gen) →
      ¬ AudioMissing w sayDir (sessionTemplates gen)) := by
  have general : ∀ templates n, (∀ s ∈ templates, ∀ item ∈ s.Items, ItemHasSay item) →
      (AudioMissing w sayDir templates →
        ∃ msg, buildSessions w gen sayDir moves templates n = .error (.error msg)) ∧
      (¬ AudioMissing w sayDir templates →
        ∃ built n1, buildSessions w gen sayDir moves templates n = .ok (built, n1) ∧
          List.Forall₂ (SessionRel (SayResolved w sayDir)) templates built) := by
    intro templates n hsay
    rcases buildSessions_outcome w gen sayDir moves hnil templates hsay n with
      ⟨⟨built, n1⟩, hok⟩ | ⟨msg, herr, hmiss⟩
    · refine ⟨fun hmiss => ?_, fun _ => ⟨built, n1, hok, ?_⟩⟩
      · exact absurd hmiss (buildSessions_ok_not_missing w gen sayDir moves _ _ _ _ hok)
      · exact buildSessions_rel w gen sayDir moves (SayResolved w sayDir)
          (fun name c n built hb => buildComposite_ok_say w gen sayDir name moves c built n hb)
          _ _ _ _ hok
    · exact ⟨fun _ => ⟨msg, herr⟩, fun hnot => absurd hmiss hnot⟩
  have templ := general (sessionTemplates gen) templateDraws (sessionTemplates_have_say gen)
  refine ⟨general, ?_, ?_, audioFound_not_missing w sayDir _⟩
  · intro hmiss
    obtain ⟨msg, h⟩ := templ.1 hmiss
    exact ⟨msg, by simp only [collectSessions, h]⟩
  · intro hnot
    obtain ⟨built, n1, h, hrel⟩ := templ.2 hnot
    exact ⟨built, by simp only [collectSessions, h], hrel⟩

/-- Witness for C11: with the audio file of the second question of Session 1 missing the build
over `demoLibrary` returns an error; with every file present it returns `demoSessions`, whose
first question has the joined audio path and whose first positive answer keeps the empty
one. -/
theorem collectSessions_audio_witness :
    (∃ msg, collectSessions missingWorld demoGen "/audio" demoLibrary = .error (.error msg)) ∧
    (∃ ss, collectSessions demoWorld demoGen "/audio" demoLibrary = .ok ss ∧
      List.Forall₂ (SessionRel (SayResolved demoWorld "/audio")) (sessionTemplates demoGen) ss) ∧
    (demoSessions.head?.bind fun s => s.Items.head?.map fun item =>
        (item.Question.bind fun c => c.SayItem.map fun say => say.FilePath,
         item.PositiveAnswer.bind fun c => c.SayItem.map fun say => say.FilePath))
      = some (some "/audio/Session 1/1out_tutvustus.wav", some "") :=
  ⟨(collectSessions_audio missingWorld demoGen "/audio" demoLibrary (by decide)).2.1
      ⟨_, List.Mem.head _, _, List.Mem.tail _ (List.Mem.head _), _, List.Mem.head _,
        _, rfl, by decide, rfl⟩,
    (collectSessions_audio demoWorld demoGen "/audio" demoLibrary (by decide)).2.2.1
      (audioFound_not_missing demoWorld "/audio" _ fun _ _ _ _ _ _ _ _ _ => rfl),
    by decide⟩

end Garlic

/-! ## Nil composites and nil motions -/

namespace Garlic

/-- The counterpart of `forall₂_mem_left` for the members of the second list. -/
theorem forall₂_mem_right {α β : Type} (R : α → β → Prop) (l : List α) (l1 : List β)
    (h : List.Forall₂ R l l1) (b : β) (hb : b ∈ l1) : ∃ a ∈ l, R a b := by
  induction h with
  | nil => cases hb
  | cons hab _ ih =>
    rcases List.mem_cons.mp hb with rfl | hmem
    · exact ⟨_, List.mem_cons_self _ _, hab⟩
    · obtain ⟨a, ha, hr⟩ := ih hmem
      exact ⟨a, List.mem_cons_of_mem _ ha, hr⟩

/-- A composite that the builder builds keeps a nil `MoveItem`. -/
theorem buildComposite_ok_nil_move (w : World) (gen : Nat → UUID)
    (sayDir sessionName : String) (moves : Moves) (c built : Option SayAndMoveAction) (n : Nat)
    (h : buildComposite w gen sayDir sessionName moves c n = .ok built) :
    NilMoveKept c built := by
  intro a hc hm
  subst hc
  obtain ⟨say, _, _, _, hb⟩ := buildComposite_some_ok w gen sayDir sessionName moves a n built h
  exact ⟨_, hb, by simp [hm]⟩

/-- C19: dispatching a non-nil composite whose `MoveItem` is nil returns the error of the nil
`MoveItem` and the call has no event: nothing is written, no file is opened, and the delay of
the nil `MoveItem` is never read, so the call does not abort. The two questions of Session 2
are authored with a nil `MoveItem`, and in the session list of every successful run each
question of Session 2 still has a nil `MoveItem`. -/
theorem sendInstruction_nil_moveItem (w : World) (conn : Conn) (cmd : SayAndMoveAction)
    (hmove : cmd.MoveItem = none) :
    sendInstruction w (.sayAndMove (some cmd)) (some conn)
      = (some (.error "can't get content out of MoveItem: nil item"), []) ∧
    writes (sendInstruction w (.sayAndMove (some cmd)) (some conn)).2 = [] ∧
    opens (sendInstruction w (.sayAndMove (some cmd)) (some conn)).2 = [] ∧
    (∀ gen : Nat → UUID,
      ((sessionTemplates gen).drop 1).map
          (fun s => (s.Name, s.Items.map fun item => item.Question.map fun c => c.MoveItem))
        = [("Session 2", [some none, some none])]) ∧
    (∀ (gen : Nat → UUID) (sayDir : String) (moves : Moves) (ss : List Session),
      collectSessions w gen sayDir moves = .ok ss →
        ∀ s ∈ ss, s.Name = "Session 2" → ∀ item ∈ s.Items, ∀ c, item.Question = some c →
          c.MoveItem = none) := by
  have hsend : sendInstruction w (.sayAndMove (some cmd)) (some conn)
      = (some (.error "can't get content out of MoveItem: nil item"), []) := by
    simp [sendInstruction, Instruction.Command, SayAndMoveAction.Command, MoveAction.Content,
      hmove]
  refine ⟨hsend, by rw [hsend]; rfl, by rw [hsend]; rfl, fun gen => rfl, ?_⟩
  intro gen sayDir moves ss hrun s hs hname item hi c hc
  have hrel := collectSessions_rel w gen sayDir moves (fun _ => NilMoveKept)
    (fun name c n built hb => buildComposite_ok_nil_move w gen sayDir name moves c built n hb)
    ss hrun
  obtain ⟨t, ht, htname, _, hitems⟩ := forall₂_mem_right _ _ _ hrel s hs
  obtain ⟨it, hit, _, hq, _, _⟩ := forall₂_mem_right _ _ _ hitems item hi
  rw [hname] at htname
  simp only [sessionTemplates, List.mem_cons, List.mem_singleton, List.not_mem_nil,
    or_false] at ht
  rcases ht with rfl | rfl
  · simp at htname
  · simp only [List.mem_cons, List.mem_singleton, List.not_mem_nil, or_false] at hit
    rcases hit with rfl | rfl
    · obtain ⟨b, hb, hbm⟩ := hq _ rfl rfl
      rw [hc] at hb
      cases hb
      exact hbm
    · obtain ⟨b, hb, hbm⟩ := hq _ rfl rfl
      rw [hc] at hb
      cases hb
      exact hbm

/-- Witness for C19: the first question of Session 2 as `collectSessions` returns it, with a
nil `MoveItem` and no audio path, is answered with the error and nothing is written. -/
theorem sendInstruction_nil_moveItem_witness :
    sendInstruction demoWorld
        (.sayAndMove (some { ID := demoGen 39, SayItem := some { ID := demoGen 40, Phrase := "Q1" } }))
        (some demoConn)
      = (some (.error "can't get content out of MoveItem: nil item"), []) ∧
    ((demoSessions.drop 1).head?.bind fun s => s.Items.head?.bind fun item => item.Question)
      = some { ID := demoGen 39, SayItem := some { ID := demoGen 40, Phrase := "Q1" } } ∧
    (demoSessions.map fun s => s.Items.map fun item => item.Question.map fun c => c.MoveItem).drop 1
      = [[some none, some none]] :=
  ⟨(sendInstruction_nil_moveItem demoWorld demoConn
      { ID := demoGen 39, SayItem := some { ID := demoGen 40, Phrase := "Q1" } } rfl).1,
    by decide, by decide⟩

end Garlic
namespace Garlic

/-- The audio step of a composite that has a `SayItem` does not abort. -/
theorem resolveSay_no_panic (w : World) (sayDir sessionName : String) (a : SayAndMoveAction)
    (say : SayAction) (hs : a.SayItem = some say) (msg : String) :
    resolveSay w sayDir sessionName a ≠ .error (.panic msg) := by
  intro h
  unfold resolveSay at h
  rw [hs] at h
  simp only at h
  by_cases hp : say.FilePath = ""
  · simp [hp] at h
  · simp only [ne_eq, hp, not_false_eq_true, if_true] at h
    cases hst : w.stat (w.pathJoin sayDir sessionName say.FilePath) <;> simp [hst] at h

/-- C15: a nil composite taken through the builder stays nil for every file system and every
library, so no path is joined or checked and no library lookup is made for it, and it has no
identity stored although one identity is drawn for it. The body of the item loop is the three
composites of the item taken through the builder alone, in turn; an item with only a
`Question` is therefore processed exactly as its `Question` alone is. A non-nil composite with
a `SayItem` and a nil `MoveItem` is built the same for every library, never aborts, and when
built keeps the nil `MoveItem`. And every item whose non-nil composites have a `SayItem`,
whichever of its composites are nil, is processed without aborting over a library of motions
(a list without nil entry, as `collectMoves` builds it): the body of the item loop returns the
built item, in which exactly the composites that were nil are nil, or it returns the error of
an audio file of the item reported missing, and it returns the built item whenever no audio
file of the item is reported missing. -/
theorem nil_composite_skipped (w : World) (gen : Nat → UUID) (sayDir sessionName : String)
    (moves : Moves) :
    (∀ (w1 : World) (moves1 : Moves) (n : Nat),
      buildComposite w1 gen sayDir sessionName moves1 none n = .ok none) ∧
    drawsOf none = 1 ∧
    (∀ (item : SessionItem) (n : Nat),
      processItem w gen sayDir sessionName moves item n =
        match buildComposite w gen sayDir sessionName moves item.Question n with
        | .error f => .error f
        | .ok question =>
          match buildComposite w gen sayDir sessionName moves item.PositiveAnswer
              (n + drawsOf item.Question) with
          | .error f => .error f
          | .ok positive =>
            match buildComposite w gen sayDir sessionName moves item.NegativeAnswer
                (n + drawsOf item.Question + drawsOf item.PositiveAnswer) with
            | .error f => .error f
            | .ok negative =>
              .ok ({ item with Question := question, PositiveAnswer := positive,
                               NegativeAnswer := negative },
                   n + drawsOf item.Question + drawsOf item.PositiveAnswer
                     + drawsOf item.NegativeAnswer)) ∧
    (∀ (item : SessionItem) (n : Nat), item.PositiveAnswer = none → item.NegativeAnswer = none →
      processItem w gen sayDir sessionName moves item n =
        match buildComposite w gen sayDir sessionName moves item.Question n with
        | .error f => .error f
        | .ok question =>
          .ok ({ item with Question := question }, n + drawsOf item.Question + 2)) ∧
    (∀ (a : SayAndMoveAction) (say : SayAction) (n : Nat),
      a.SayItem = some say → a.MoveItem = none →
        (∀ moves1 : Moves,
          buildComposite w gen sayDir sessionName moves1 (some a) n
            = buildComposite w gen sayDir sessionName moves (some a) n) ∧
        (∀ msg, buildComposite w gen sayDir sessionName moves (some a) n
            ≠ .error (.panic msg)) ∧
        (∀ built, buildComposite w gen sayDir sessionName moves (some a) n = .ok built →
          ∃ b, built = some b ∧ b.MoveItem = none)) ∧
    ((∀ e ∈ moves, e ≠ none) → ∀ (item : SessionItem) (n : Nat), ItemHasSay item →
      (∀ msg, processItem w gen sayDir sessionName moves item n ≠ .error (.panic msg)) ∧
      ((∃ r, processItem w gen sayDir sessionName moves item n = .ok r) ∨
        (∃ msg, processItem w gen sayDir sessionName moves item n = .error (.error msg) ∧
          ∃ c ∈ slots item, SayMissing w sayDir sessionName c)) ∧
      ((∀ c ∈ slots item, ¬ SayMissing w sayDir sessionName c) →
        ∃ r, processItem w gen sayDir sessionName moves item n = .ok r) ∧
      (∀ built n1, processItem w gen sayDir sessionName moves item n = .ok (built, n1) →
        (built.Question = none ↔ item.Question = none) ∧
        (built.PositiveAnswer = none ↔ item.PositiveAnswer = none) ∧
        (built.NegativeAnswer = none ↔ item.NegativeAnswer = none))) := by
  refine ⟨fun w1 moves1 n => buildComposite_none w1 gen sayDir sessionName moves1 n, rfl,
    fun item n => processItem_eq w gen sayDir sessionName moves item n, ?_, ?_, ?_⟩
  rotate_left 2
  · intro hnil item n hsay
    have hout := processItem_outcome w gen sayDir sessionName moves hnil item hsay n
    refine ⟨?_, hout, ?_, ?_⟩
    · intro msg h
      rcases hout with ⟨r, hr⟩ | ⟨msg1, hr, _⟩
      · rw [hr] at h; cases h
      · rw [hr] at h; cases h
    · intro hfound
      rcases hout with ⟨r, hr⟩ | ⟨msg1, _, c, hc, hmiss⟩
      · exact ⟨r, hr⟩
      · exact absurd hmiss (hfound c hc)
    · intro built n1 h
      have hrel := processItem_rel w gen sayDir sessionName moves
        (SayResolved w sayDir sessionName)
        (fun c n built hb => buildComposite_ok_say w gen sayDir sessionName moves c built n hb)
        item built n n1 h
      obtain ⟨_, hq, hp, hg⟩ := hrel
      have key : ∀ c b : Option SayAndMoveAction, SayResolved w sayDir sessionName c b →
          (b = none ↔ c = none) := by
        intro c b hcb
        constructor
        · intro hb
          cases c with
          | none => rfl
          | some a =>
            obtain ⟨b1, _, _, hb1, _⟩ := hcb.2 a rfl
            rw [hb] at hb1
            cases hb1
        · exact hcb.1
      exact ⟨key _ _ hq, key _ _ hp, key _ _ hg⟩
  · intro item n hp hg
    rw [processItem_eq, hp, hg]
    simp only [buildComposite_none, drawsOf, Option.isSome_none, Bool.false_eq_true, if_false]
  · intro a say n hs hm
    have hform : ∀ moves1 : Moves,
        buildComposite w gen sayDir sessionName moves1 (some a) n
          = (match resolveSay w sayDir sessionName
                { ID := gen n, SayItem := some { say with ID := gen (n + 1) }, MoveItem := none } with
              | .error f => .error f
              | .ok a1 => .ok (some a1)) := by
      intro moves1
      unfold buildComposite
      rw [initIDs_some]
      simp only [resolveComposite, hs, hm, SayAction.SetID, MoveAction.SetID]
      cases h1 : resolveSay w sayDir sessionName
          { ID := gen n, SayItem := some { say with ID := gen (n + 1) }, MoveItem := none } with
      | error f => rfl
      | ok a1 =>
        have hk := (resolveSay_keeps_move w sayDir sessionName _ a1 h1).1
        simp only [bindMove, hk]
    refine ⟨fun moves1 => by rw [hform moves1, hform moves], ?_, ?_⟩
    · intro msg h
      rw [hform moves] at h
      cases h1 : resolveSay w sayDir sessionName
          { ID := gen n, SayItem := some { say with ID := gen (n + 1) }, MoveItem := none } with
      | error f =>
        rw [h1] at h
        simp only [Except.error.injEq] at h
        rw [h] at h1
        exact resolveSay_no_panic w sayDir sessionName _ _ rfl msg h1
      | ok a1 =>
        rw [h1] at h
        cases h
    · intro built h
      exact buildComposite_ok_nil_move w gen sayDir sessionName moves (some a) built n h a rfl hm

/-- Witness for C15: the second item of Session 1 has a `Question` only; with three identities
drawn before, it is built into an item with the `Question` built alone and two nil answers,
and five identities are drawn for it; over `demoLibrary` and with every audio file present the
body of the item loop returns the built item. -/
theorem nil_composite_skipped_witness :
    processItem demoWorld demoGen "/audio" "Session 1" demoLibrary
        { Question := some {
            SayItem := some { Phrase := "Kui vana sa oled?", FilePath := "2out_vanus.wav" },
            MoveItem := some { Name := "Show_Hand_Right_02", Delay := 0 } } } 3
      = (match buildComposite demoWorld demoGen "/audio" "Session 1" demoLibrary
            (some { SayItem := some { Phrase := "Kui vana sa oled?", FilePath := "2out_vanus.wav" },
                    MoveItem := some { Name := "Show_Hand_Right_02", Delay := 0 } }) 3 with
          | .error f => .error f
          | .ok question =>
            .ok ({ Question := question }, 3 + 3 + 2)) ∧
    (∃ r, processItem demoWorld demoGen "/audio" "Session 1" demoLibrary
        { Question := some {
            SayItem := some { Phrase := "Kui vana sa oled?", FilePath := "2out_vanus.wav" },
            MoveItem := some { Name := "Show_Hand_Right_02", Delay := 0 } } } 3 = .ok r) ∧
    processItem demoWorld demoGen "/audio" "Session 1" demoLibrary
        { Question := some {
            SayItem := some { Phrase := "Kui vana sa oled?", FilePath := "2out_vanus.wav" },
            MoveItem := some { Name := "Show_Hand_Right_02", Delay := 0 } } } 3
      = .ok ({ Question := some {
                 ID := demoGen 3,
                 SayItem := some { ID := demoGen 4, Phrase := "Kui vana sa oled?",
                                   FilePath := "/audio/Session 1/2out_vanus.wav" },
                 MoveItem := some { ID := demoGen 5, Name := "Show_Hand_Right_02",
                                    Delay := 0 } } }, 8) :=
  ⟨(nil_composite_skipped demoWorld demoGen "/audio" "Session 1" demoLibrary).2.2.2.1
      { Question := some {
          SayItem := some { Phrase := "Kui vana sa oled?", FilePath := "2out_vanus.wav" },
          MoveItem := some { Name := "Show_Hand_Right_02", Delay := 0 } } } 3 rfl rfl,
    ((nil_composite_skipped demoWorld demoGen "/audio" "Session 1" demoLibrary).2.2.2.2.2
      (by decide)
      { Question := some {
          SayItem := some { Phrase := "Kui vana sa oled?", FilePath := "2out_vanus.wav" },
          MoveItem := some { Name := "Show_Hand_Right_02", Delay := 0 } } } 3
      (by simp [ItemHasSay, HasSay])).2.2.1
      (by
        intro c hc hmiss
        obtain ⟨say, _, _, hst⟩ := hmiss
        cases hst),
    rfl⟩

end Garlic
/-! ## Identities of bound motions -/

namespace Garlic

/-- When the lookup by name returns an entry, the lookup by the identity of that entry returns
as well, with the first entry that carries the identity. -/
theorem getByID_of_getByName (moves : Moves) (name : String) (v : MoveAction)
    (h : Moves.GetByName moves name = .ok (some v)) :
    Moves.GetByID moves v.ID = .ok (Moves.firstWithID moves v.ID) := by
  induction moves with
  | nil => simp [Moves.GetByName] at h
  | cons e rest ih =>
    cases e with
    | none => simp [Moves.GetByName] at h
    | some u =>
      by_cases hid : u.ID = v.ID
      · simp [Moves.GetByID, Moves.firstWithID, List.reduceOption_cons_of_some, hid]
      · have hname : ¬ u.Name = name := by
          intro hn
          simp [Moves.GetByName, hn] at h
          exact hid (by rw [h])
        simp only [Moves.GetByName, hname, if_false] at h
        simp only [Moves.GetByID, hid, if_false, ih h]
        simp [Moves.firstWithID, List.reduceOption_cons_of_some, hid]

/-- In a library with pairwise distinct identities the first entry that carries the identity
of an entry is that entry. -/
theorem firstWithID_of_nodup (l : List MoveAction) (h : (l.map fun v => v.ID).Nodup)
    (v : MoveAction) (hv : v ∈ l) :
    l.find? (fun x => x.ID = v.ID) = some v := by
  induction l with
  | nil => cases hv
  | cons a rest ih =>
    rw [List.map_cons, List.nodup_cons] at h
    rcases List.mem_cons.mp hv with rfl | hmem
    · simp
    · have hne : a.ID ≠ v.ID := by
        intro heq
        exact h.1 (heq ▸ List.mem_map_of_mem (fun v => v.ID) hmem)
      simp [List.find?_cons, hne, ih h.2 hmem]

/-- A composite that the builder builds and whose `MoveItem` names a library motion carries
the identity of the library entry, and in a library with pairwise distinct identities the
lookup of that identity gives the entry. -/
theorem buildComposite_ok_identity (w : World) (gen : Nat → UUID)
    (sayDir sessionName : String) (moves : Moves) (hdistinct : (Moves.ids moves).Nodup)
    (c built : Option SayAndMoveAction) (n : Nat)
    (h : buildComposite w gen sayDir sessionName moves c n = .ok built) :
    MoveIdentity moves c built := by
  intro a m v hc hm hv
  subst hc
  obtain ⟨say, _, _, hget, hb⟩ :=
    buildComposite_some_ok w gen sayDir sessionName moves a n built h
  have hg := hget m hm
  rw [hv] at hg
  have hid := getByID_of_getByName moves m.Name v hg
  refine ⟨_, { v with Delay := m.Delay }, hb, ?_, rfl, ?_⟩
  · simp [hm, builtMove, hv]
  · show Moves.GetByID moves v.ID = .ok (some v)
    rw [hid]
    have hmem : v ∈ moves.reduceOption := List.mem_of_find?_eq_some hv
    exact congrArg Except.ok (firstWithID_of_nodup _ hdistinct v hmem)

/-- C18: over a library whose entries carry pairwise distinct identities, on every successful
run, over any templates and so over the hard-coded ones, each authored composite whose non-nil
`MoveItem` names a library motion holds a `MoveItem` with the identity of the first library
entry of that name, and the lookup of that identity in the library returns that entry. The
identity is the entry's whatever identity the builder drew for the authored `MoveItem`, the
draw `n + 2` of the composite, which the built composite does not hold unless the library
entry has it; and two composites bound to the same library entry hold `MoveItem`s with equal
identities. -/
theorem collectSessions_move_identity (w : World) (gen : Nat → UUID) (sayDir : String)
    (moves : Moves) (hdistinct : (Moves.ids moves).Nodup) :
    (∀ templates n built n1,
      buildSessions w gen sayDir moves templates n = .ok (built, n1) →
        List.Forall₂ (SessionRel fun _ => MoveIdentity moves) templates built) ∧
    (∀ ss, collectSessions w gen sayDir moves = .ok ss →
        List.Forall₂ (SessionRel fun _ => MoveIdentity moves) (sessionTemplates gen) ss) ∧
    (∀ (name : String) (a : SayAndMoveAction) (m v : MoveAction) (n : Nat)
        (built : Option SayAndMoveAction),
      a.MoveItem = some m → Moves.firstNamed moves m.Name = some v →
      buildComposite w gen sayDir name moves (some a) n = .ok built →
        (∃ c1, (initIDs gen (some a) n).1 = some c1 ∧
          c1.MoveItem = some { m with ID := gen (n + 2) }) ∧
        ∃ b k, built = some b ∧ b.MoveItem = some k ∧ k.ID = v.ID ∧
          (v.ID ≠ gen (n + 2) → k.ID ≠ gen (n + 2))) ∧
    (∀ (c1 b1 c2 b2 : Option SayAndMoveAction) (a1 a2 : SayAndMoveAction)
        (m1 m2 v : MoveAction),
      MoveIdentity moves c1 b1 → MoveIdentity moves c2 b2 →
      c1 = some a1 → a1.MoveItem = some m1 → c2 = some a2 → a2.MoveItem = some m2 →
      Moves.firstNamed moves m1.Name = some v → Moves.firstNamed moves m2.Name = some v →
        ∃ x1 k1 x2 k2, b1 = some x1 ∧ x1.MoveItem = some k1 ∧ b2 = some x2 ∧
          x2.MoveItem = some k2 ∧ k1.ID = k2.ID) := by
  refine ⟨?_, ?_, ?_, ?_⟩
  · intro templates n built n1 h
    exact buildSessions_rel w gen sayDir moves (fun _ => MoveIdentity moves)
      (fun name c n built hb =>
        buildComposite_ok_identity w gen sayDir name moves hdistinct c built n hb)
      _ _ _ _ h
  · intro ss h
    exact collectSessions_rel w gen sayDir moves (fun _ => MoveIdentity moves)
      (fun name c n built hb =>
        buildComposite_ok_identity w gen sayDir name moves hdistinct c built n hb)
      ss h
  · intro name a m v n built hm hv h
    refine ⟨⟨_, by rw [initIDs_some], by simp only [hm, MoveAction.SetID]⟩, ?_⟩
    obtain ⟨b, k, hb, hk, hid, _⟩ :=
      buildComposite_ok_identity w gen sayDir name moves hdistinct (some a) built n h a m v
        rfl hm hv
    exact ⟨b, k, hb, hk, hid, fun hne => by rw [hid]; exact hne⟩
  · intro c1 b1 c2 b2 a1 a2 m1 m2 v h1 h2 hc1 hm1 hc2 hm2 hv1 hv2
    obtain ⟨x1, k1, hb1, hk1, hid1, _⟩ := h1 a1 m1 v hc1 hm1 hv1
    obtain ⟨x2, k2, hb2, hk2, hid2, _⟩ := h2 a2 m2 v hc2 hm2 hv2
    exact ⟨x1, k1, x2, k2, hb1, hk1, hb2, hk2, hid1.trans hid2.symm⟩

/-- Witness for C18: over `demoLibrary`, whose two identities 1 and 3 are distinct, the first
question holds a `MoveItem` with the identity 1 of "Hello_01", the first positive answer and
the sixth question both hold one with the identity 3 of "NiceReaction_01", none of them an
identity of the stream `demoGen`, and the lookup of the identity 3 returns the library
entry. -/
theorem collectSessions_move_identity_witness :
    List.Forall₂ (SessionRel fun _ => MoveIdentity demoLibrary) (sessionTemplates demoGen)
      demoSessions ∧
    (firstMove demoSessions SessionItem.Question).map (fun k => k.ID) = some 1 ∧
    (firstMove demoSessions SessionItem.PositiveAnswer).map (fun k => k.ID) = some 3 ∧
    (demoSessions.head?.bind fun s => (s.Items.drop 5).head?.bind fun item =>
        item.Question.bind fun c => c.MoveItem.map fun k => k.ID) = some 3 ∧
    Moves.GetByID demoLibrary 3
      = .ok (some { ID := 3, Name := "NiceReaction_01",
                    FilePath := "/lib/Reactions/NiceReaction_01.qianim",
                    Group := "Reactions" }) :=
  ⟨(collectSessions_move_identity demoWorld demoGen "/audio" demoLibrary (by decide)).2.1
      demoSessions rfl,
    by decide, by decide, by decide, rfl⟩

end Garlic

/-! ## The library is not written -/

namespace Garlic

/-- Every store frames itself. -/
theorem frame_refl (base : Nat) (st : Store) : Frame base st st :=
  ⟨Nat.le_refl _, fun _ _ => rfl⟩

/-- Frames compose. -/
theorem frame_trans (base : Nat) (st st1 st2 : Store) (h1 : Frame base st st1)
    (h2 : Frame base st1 st2) : Frame base st st2 :=
  ⟨Nat.le_trans h1.1 h2.1, fun a ha => (h2.2 a ha).trans (h1.2 a ha)⟩

/-- Allocation only adds an object at the end. -/
theorem frame_alloc (base : Nat) (st : Store) (m : MoveAction) (hbase : base ≤ st.length) :
    Frame base st (st ++ [m]) := by
  refine ⟨by simp, fun a ha => ?_⟩
  exact List.getElem?_append_left (Nat.lt_of_lt_of_le ha hbase)

/-- Setting the identity through a pointer at or above `base` writes nothing below `base`. -/
theorem setMoveID_frame (base : Nat) (st : Store) (item : Option Ptr) (id : UUID)
    (hfresh : ∀ p, item = some p → base ≤ p) : Frame base st (setMoveID st item id) := by
  cases item with
  | none => exact frame_refl base st
  | some p =>
    refine ⟨by simp [setMoveID], fun a ha => ?_⟩
    have hne : p ≠ a := Nat.ne_of_gt (Nat.lt_of_lt_of_le ha (hfresh p rfl))
    simp [setMoveID, List.getElem?_set_ne hne]

/-- The identity block writes nothing below `base` and moves no `MoveItem` pointer. -/
theorem heapInitIDs_frame (base : Nat) (gen : Nat → UUID) (c : Option HeapAction) (n : Nat)
    (st : Store) (hfresh : FreshAction base c) :
    Frame base st (heapInitIDs gen c n st).2.2 ∧ FreshAction base (heapInitIDs gen c n st).1 := by
  cases c with
  | none => exact ⟨frame_refl base st, fun a p h => by cases h⟩
  | some a =>
    refine ⟨setMoveID_frame base st a.MoveItem _ (fun p hp => hfresh a p rfl hp), ?_⟩
    intro b p hb hp
    simp only [heapInitIDs, Option.some.injEq] at hb
    subst hb
    exact hfresh a p rfl hp

/-- The audio step keeps the `MoveItem` pointer. -/
theorem heapResolveSay_move (w : World) (sayDir sessionName : String) (a b : HeapAction)
    (h : heapResolveSay w sayDir sessionName a = .ok b) : b.MoveItem = a.MoveItem := by
  unfold heapResolveSay at h
  split at h
  · cases h
  · split at h
    · simp only at h
      split at h
      · cases h
      · cases h; rfl
    · cases h; rfl

/-- The library step writes nothing below `base`: it only allocates; and the `MoveItem`
pointer it leaves points at or above `base`. -/
theorem heapBindMove_frame (base : Nat) (moves : HeapMoves) (c : HeapAction) (st : Store)
    (hbase : base ≤ st.length) (hfresh : ∀ p, c.MoveItem = some p → base ≤ p) :
    Frame base st (heapBindMove moves c st).1 ∧
    ∀ b, (heapBindMove moves c st).2 = .ok b → ∀ p, b.MoveItem = some p → base ≤ p := by
  unfold heapBindMove
  cases hm : c.MoveItem with
  | none =>
    refine ⟨frame_refl base st, ?_⟩
    intro b hb p hp
    simp only [Except.ok.injEq] at hb
    subst hb
    exact hfresh p hp
  | some authored =>
    simp only
    cases hg : heapGetByName st moves (deref st authored).Name with
    | error f =>
      refine ⟨frame_refl base st, ?_⟩
      intro b hb
      cases hb
    | ok r =>
      cases r with
      | none =>
        refine ⟨frame_refl base st, ?_⟩
        intro b hb p hp
        simp only [Except.ok.injEq] at hb
        subst hb
        exact hfresh p hp
      | some v =>
        refine ⟨frame_alloc base st _ hbase, ?_⟩
        intro b hb p hp
        simp only [Except.ok.injEq] at hb
        subst hb
        simp only [Option.some.injEq] at hp
        rw [← hp]
        exact hbase

/-- The block `if item.X != nil { ... }` writes nothing below `base`, whether it returns or
fails, and leaves a `MoveItem` pointer at or above `base`. -/
theorem heapResolveComposite_frame (base : Nat) (w : World) (sayDir sessionName : String)
    (moves : HeapMoves) (c : Option HeapAction) (st : Store) (hbase : base ≤ st.length)
    (hfresh : FreshAction base c) :
    Frame base st (heapResolveComposite w sayDir sessionName moves c st).1 ∧
    ∀ c1, (heapResolveComposite w sayDir sessionName moves c st).2 = .ok c1 →
      FreshAction base c1 := by
  cases c with
  | none =>
    refine ⟨frame_refl base st, ?_⟩
    intro c1 h a p ha
    simp only [heapResolveComposite, Except.ok.injEq] at h
    subst h
    cases ha
  | some a =>
    unfold heapResolveComposite
    simp only
    cases hs : heapResolveSay w sayDir sessionName a with
    | error f =>
      refine ⟨frame_refl base st, ?_⟩
      intro c1 h
      cases h
    | ok a1 =>
      have hk := heapResolveSay_move w sayDir sessionName a a1 hs
      have hb := heapBindMove_frame base moves a1 st hbase
        (fun p hp => hfresh a p rfl (hk ▸ hp))
      simp only
      rcases hr : heapBindMove moves a1 st with ⟨st1, f | a2⟩
      · rw [hr] at hb
        refine ⟨hb.1, ?_⟩
        intro c1 h
        cases h
      · rw [hr] at hb
        refine ⟨hb.1, ?_⟩
        intro c1 h b p hc hp
        simp only [Except.ok.injEq] at h
        subst h
        simp only [Option.some.injEq] at hc
        subst hc
        exact hb.2 a2 rfl p hp

end Garlic
namespace Garlic

/-- The body of the item loop writes nothing below `base`, whether it returns or fails, and
leaves the `MoveItem` pointers of the item at or above `base`. -/
theorem heapProcessItem_frame (base : Nat) (w : World) (gen : Nat → UUID)
    (sayDir sessionName : String) (moves : HeapMoves) (item : HeapItem) (n : Nat) (st : Store)
    (hbase : base ≤ st.length) (hfresh : FreshItem base item) :
    Frame base st (heapProcessItem w gen sayDir sessionName moves item n st).1 ∧
    ∀ r, (heapProcessItem w gen sayDir sessionName moves item n st).2 = .ok r →
      FreshItem base r.1 := by
  obtain ⟨hq, hp, hg⟩ := hfresh
  have fq := heapInitIDs_frame base gen item.Question n st hq
  have fp := heapInitIDs_frame base gen item.PositiveAnswer
    (heapInitIDs gen item.Question n st).2.1 (heapInitIDs gen item.Question n st).2.2 hp
  have fg := heapInitIDs_frame base gen item.NegativeAnswer
    (heapInitIDs gen item.PositiveAnswer (heapInitIDs gen item.Question n st).2.1
      (heapInitIDs gen item.Question n st).2.2).2.1
    (heapInitIDs gen item.PositiveAnswer (heapInitIDs gen item.Question n st).2.1
      (heapInitIDs gen item.Question n st).2.2).2.2 hg
  have f3 := frame_trans base _ _ _ (frame_trans base _ _ _ fq.1 fp.1) fg.1
  have r1 := heapResolveComposite_frame base w sayDir sessionName moves
    (heapInitIDs gen item.Question n st).1 _ (Nat.le_trans hbase f3.1) fq.2
  unfold heapProcessItem
  simp only
  rcases h1 : heapResolveComposite w sayDir sessionName moves
      (heapInitIDs gen item.Question n st).1
      (heapInitIDs gen item.NegativeAnswer
        (heapInitIDs gen item.PositiveAnswer (heapInitIDs gen item.Question n st).2.1
          (heapInitIDs gen item.Question n st).2.2).2.1
        (heapInitIDs gen item.PositiveAnswer (heapInitIDs gen item.Question n st).2.1
          (heapInitIDs gen item.Question n st).2.2).2.2).2.2 with ⟨st1, f | question⟩
  · rw [h1] at r1
    exact ⟨frame_trans base _ _ _ f3 r1.1, fun r h => by cases h⟩
  · rw [h1] at r1
    have f4 := frame_trans base _ _ _ f3 r1.1
    have r2 := heapResolveComposite_frame base w sayDir sessionName moves
      (heapInitIDs gen item.PositiveAnswer (heapInitIDs gen item.Question n st).2.1
        (heapInitIDs gen item.Question n st).2.2).1 st1 (Nat.le_trans hbase f4.1) fp.2
    simp only
    rcases h2 : heapResolveComposite w sayDir sessionName moves
        (heapInitIDs gen item.PositiveAnswer (heapInitIDs gen item.Question n st).2.1
          (heapInitIDs gen item.Question n st).2.2).1 st1 with ⟨st2, f | positive⟩
    · rw [h2] at r2
      exact ⟨frame_trans base _ _ _ f4 r2.1, fun r h => by cases h⟩
    · rw [h2] at r2
      have f5 := frame_trans base _ _ _ f4 r2.1
      have r3 := heapResolveComposite_frame base w sayDir sessionName moves
        (heapInitIDs gen item.NegativeAnswer
          (heapInitIDs gen item.PositiveAnswer (heapInitIDs gen item.Question n st).2.1
            (heapInitIDs gen item.Question n st).2.2).2.1
          (heapInitIDs gen item.PositiveAnswer (heapInitIDs gen item.Question n st).2.1
            (heapInitIDs gen item.Question n st).2.2).2.2).1 st2 (Nat.le_trans hbase f5.1) fg.2
      simp only
      rcases h3 : heapResolveComposite w sayDir sessionName moves
          (heapInitIDs gen item.NegativeAnswer
            (heapInitIDs gen item.PositiveAnswer (heapInitIDs gen item.Question n st).2.1
              (heapInitIDs gen item.Question n st).2.2).2.1
            (heapInitIDs gen item.PositiveAnswer (heapInitIDs gen item.Question n st).2.1
              (heapInitIDs gen item.Question n st).2.2).2.2).1 st2 with ⟨st3, f | negative⟩
      · rw [h3] at r3
        exact ⟨frame_trans base _ _ _ f5 r3.1, fun r h => by cases h⟩
      · rw [h3] at r3
        refine ⟨frame_trans base _ _ _ f5 r3.1, ?_⟩
        intro r h
        simp only [Except.ok.injEq] at h
        subst h
        exact ⟨r1.2 _ rfl, r2.2 _ rfl, r3.2 _ rfl⟩

/-- The item loop writes nothing below `base`, whether it returns or fails, and leaves the
`MoveItem` pointers of the items at or above `base`. -/
theorem heapProcessItems_frame (base : Nat) (w : World) (gen : Nat → UUID)
    (sayDir sessionName : String) (moves : HeapMoves) (items : List HeapItem) (n : Nat)
    (st : Store) (hbase : base ≤ st.length) (hfresh : ∀ item ∈ items, FreshItem base item) :
    Frame base st (heapProcessItems w gen sayDir sessionName moves items n st).1 ∧
    ∀ r, (heapProcessItems w gen sayDir sessionName moves items n st).2 = .ok r →
      ∀ item ∈ r.1, FreshItem base item := by
  induction items generalizing n st with
  | nil =>
    refine ⟨frame_refl base st, ?_⟩
    intro r h item hi
    simp only [heapProcessItems, Except.ok.injEq] at h
    subst h
    cases hi
  | cons item rest ih =>
    have r1 := heapProcessItem_frame base w gen sayDir sessionName moves item n st hbase
      (hfresh item (List.mem_cons_self _ _))
    unfold heapProcessItems
    rcases h1 : heapProcessItem w gen sayDir sessionName moves item n st with
      ⟨st1, f | ⟨item1, n1⟩⟩
    · rw [h1] at r1
      exact ⟨r1.1, fun r h => by cases h⟩
    · rw [h1] at r1
      have r2 := ih n1 st1 (Nat.le_trans hbase r1.1.1)
        (fun i hi => hfresh i (List.mem_cons_of_mem _ hi))
      simp only
      rcases h2 : heapProcessItems w gen sayDir sessionName moves rest n1 st1 with
        ⟨st2, f | ⟨rest1, n2⟩⟩
      · rw [h2] at r2
        exact ⟨frame_trans base _ _ _ r1.1 r2.1, fun r h => by cases h⟩
      · rw [h2] at r2
        refine ⟨frame_trans base _ _ _ r1.1 r2.1, ?_⟩
        intro r h i hi
        simp only [Except.ok.injEq] at h
        subst h
        rcases List.mem_cons.mp hi with rfl | hmem
        · exact r1.2 _ rfl
        · exact r2.2 _ rfl i hmem

/-- The session loop writes nothing below `base`, whether it returns or fails, and leaves the
`MoveItem` pointers of the sessions at or above `base`. -/
theorem heapBuildSessions_frame (base : Nat) (w : World) (gen : Nat → UUID) (sayDir : String)
    (moves : HeapMoves) (templates : List HeapSession) (n : Nat) (st : Store)
    (hbase : base ≤ st.length) (hfresh : FreshSessions base templates) :
    Frame base st (heapBuildSessions w gen sayDir moves templates n st).1 ∧
    ∀ r, (heapBuildSessions w gen sayDir moves templates n st).2 = .ok r →
      FreshSessions base r.1 := by
  induction templates generalizing n st with
  | nil =>
    refine ⟨frame_refl base st, ?_⟩
    intro r h s hs
    simp only [heapBuildSessions, Except.ok.injEq] at h
    subst h
    cases hs
  | cons s rest ih =>
    have r1 := heapProcessItems_frame base w gen sayDir s.Name moves s.Items (n + 1) st hbase
      (hfresh s (List.mem_cons_self _ _))
    unfold heapBuildSessions
    rcases h1 : heapProcessItems w gen sayDir s.Name moves s.Items (n + 1) st with
      ⟨st1, f | ⟨items, n1⟩⟩
    · rw [h1] at r1
      exact ⟨r1.1, fun r h => by cases h⟩
    · rw [h1] at r1
      have r2 := ih n1 st1 (Nat.le_trans hbase r1.1.1)
        (fun t ht => hfresh t (List.mem_cons_of_mem _ ht))
      simp only
      rcases h2 : heapBuildSessions w gen sayDir moves rest n1 st1 with
        ⟨st2, f | ⟨rest1, n2⟩⟩
      · rw [h2] at r2
        exact ⟨frame_trans base _ _ _ r1.1 r2.1, fun r h => by cases h⟩
      · rw [h2] at r2
        refine ⟨frame_trans base _ _ _ r1.1 r2.1, ?_⟩
        intro r h t ht
        simp only [Except.ok.injEq] at h
        subst h
        rcases List.mem_cons.mp ht with rfl | hmem
        · exact r1.2 _ rfl
        · exact r2.2 _ rfl t hmem

/-- Bringing a composite of the template literal into being writes nothing below `base` and
gives it a `MoveItem` pointer at or above `base`. -/
theorem allocAction_frame (base : Nat) (c : Option SayAndMoveAction) (st : Store)
    (hbase : base ≤ st.length) :
    Frame base st (allocAction c st).2 ∧ FreshAction base (allocAction c st).1 := by
  cases c with
  | none => exact ⟨frame_refl base st, fun a p h => by cases h⟩
  | some a =>
    cases hm : a.MoveItem with
    | none =>
      simp only [allocAction, hm]
      refine ⟨frame_refl base st, ?_⟩
      intro b p hb hp
      simp only [Option.some.injEq] at hb
      subst hb
      cases hp
    | some m =>
      simp only [allocAction, hm]
      refine ⟨frame_alloc base st m hbase, ?_⟩
      intro b p hb hp
      simp only [Option.some.injEq] at hb
      subst hb
      simp only [Option.some.injEq] at hp
      rw [← hp]
      exact hbase

/-- The same for an item of the template literal. -/
theorem allocItem_frame (base : Nat) (item : SessionItem) (st : Store)
    (hbase : base ≤ st.length) :
    Frame base st (allocItem item st).2 ∧ FreshItem base (allocItem item st).1 := by
  have q := allocAction_frame base item.Question st hbase
  have p := allocAction_frame base item.PositiveAnswer (allocAction item.Question st).2
    (Nat.le_trans hbase q.1.1)
  have g := allocAction_frame base item.NegativeAnswer
    (allocAction item.PositiveAnswer (allocAction item.Question st).2).2
    (Nat.le_trans hbase (Nat.le_trans q.1.1 p.1.1))
  exact ⟨frame_trans base _ _ _ (frame_trans base _ _ _ q.1 p.1) g.1, q.2, p.2, g.2⟩

/-- The same for the items of a session of the template literal. -/
theorem allocItems_frame (base : Nat) (items : List SessionItem) (st : Store)
    (hbase : base ≤ st.length) :
    Frame base st (allocItems items st).2 ∧
    ∀ item ∈ (allocItems items st).1, FreshItem base item := by
  induction items generalizing st with
  | nil => exact ⟨frame_refl base st, fun item hi => by cases hi⟩
  | cons item rest ih =>
    have r1 := allocItem_frame base item st hbase
    have r2 := ih (allocItem item st).2 (Nat.le_trans hbase r1.1.1)
    refine ⟨frame_trans base _ _ _ r1.1 r2.1, ?_⟩
    intro i hi
    rcases List.mem_cons.mp hi with rfl | hmem
    · exact r1.2
    · exact r2.2 i hmem

/-- The same for the sessions of the template literal. -/
theorem allocSessions_frame (base : Nat) (templates : List Session) (st : Store)
    (hbase : base ≤ st.length) :
    Frame base st (allocSessions templates st).2 ∧
    FreshSessions base (allocSessions templates st).1 := by
  induction templates generalizing st with
  | nil => exact ⟨frame_refl base st, fun s hs => by cases hs⟩
  | cons s rest ih =>
    have r1 := allocItems_frame base s.Items st hbase
    have r2 := ih (allocItems s.Items st).2 (Nat.le_trans hbase r1.1.1)
    refine ⟨frame_trans base _ _ _ r1.1 r2.1, ?_⟩
    intro t ht
    rcases List.mem_cons.mp ht with rfl | hmem
    · exact r1.2
    · exact r2.2 t hmem

/-- The `MoveItem` pointers of a tree are those of the composites of its items. -/
theorem mem_heapMovePtrs (ss : List HeapSession) (p : Ptr) :
    p ∈ heapMovePtrs ss ↔
      ∃ s ∈ ss, ∃ item ∈ s.Items, ∃ c ∈ heapSlots item, c.MoveItem = some p := by
  simp only [heapMovePtrs, List.mem_flatMap, Option.mem_toList, Option.mem_def]

/-- The `MoveItem` pointers of a tree whose pointers are at or above `base` are so. -/
theorem freshSessions_ptrs (base : Nat) (ss : List HeapSession) (h : FreshSessions base ss)
    (p : Ptr) (hp : p ∈ heapMovePtrs ss) : base ≤ p := by
  obtain ⟨s, hs, item, hi, c, hc, hm⟩ := (mem_heapMovePtrs ss p).mp hp
  obtain ⟨hq, hpos, hneg⟩ := h s hs item hi
  simp only [heapSlots, List.reduceOption_mem_iff, List.mem_cons, List.mem_singleton,
    List.not_mem_nil, or_false] at hc
  rcases hc with h1 | h1 | h1
  · exact hneg c p h1.symm hm
  · exact hpos c p h1.symm hm
  · exact hq c p h1.symm hm

end Garlic
namespace Garlic

/-- C16: in the embedding over pointers, a run of `collectSessions`, successful or failed,
leaves at every address that held an object before the call the same object: each library
entry has the same `ID`, `Name`, `FilePath`, `Delay` and `Group` after the run as before it.
Every `MoveItem` pointer of the returned sessions points to an object allocated during the
run, so it is no entry of the library, and overwriting the `Delay` of the object it points to
leaves every object that existed before the call, the library entries included, as it was. -/
theorem heapCollectSessions_keeps_library (w : World) (gen : Nat → UUID) (sayDir : String)
    (moves : HeapMoves) (st : Store) :
    (∀ a, a < st.length → (heapCollectSessions w gen sayDir moves st).1[a]? = st[a]?) ∧
    (∀ v, some v ∈ moves → v < st.length →
      deref (heapCollectSessions w gen sayDir moves st).1 v = deref st v) ∧
    (∀ ss, (heapCollectSessions w gen sayDir moves st).2 = .ok ss →
      ∀ p ∈ heapMovePtrs ss,
        st.length ≤ p ∧
        ((∀ v, some v ∈ moves → v < st.length) → some p ∉ moves) ∧
        ∀ (d : Int) (a : Nat), a < st.length →
          ((heapCollectSessions w gen sayDir moves st).1.set p
              { deref (heapCollectSessions w gen sayDir moves st).1 p with Delay := d })[a]?
            = st[a]?) := by
  have ha := allocSessions_frame st.length (sessionTemplates gen) st (Nat.le_refl _)
  have hb := heapBuildSessions_frame st.length w gen sayDir moves
    (allocSessions (sessionTemplates gen) st).1 templateDraws
    (allocSessions (sessionTemplates gen) st).2 ha.1.1 ha.2
  have hframe : Frame st.length st (heapCollectSessions w gen sayDir moves st).1 := by
    unfold heapCollectSessions
    simp only
    rcases h : heapBuildSessions w gen sayDir moves (allocSessions (sessionTemplates gen) st).1
        templateDraws (allocSessions (sessionTemplates gen) st).2 with ⟨st1, f | ⟨ss, n⟩⟩
    · rw [h] at hb
      exact frame_trans _ _ _ _ ha.1 hb.1
    · rw [h] at hb
      exact frame_trans _ _ _ _ ha.1 hb.1
  have hfresh : ∀ ss, (heapCollectSessions w gen sayDir moves st).2 = .ok ss →
      FreshSessions st.length ss := by
    intro ss hss
    unfold heapCollectSessions at hss
    simp only at hss
    rcases h : heapBuildSessions w gen sayDir moves (allocSessions (sessionTemplates gen) st).1
        templateDraws (allocSessions (sessionTemplates gen) st).2 with ⟨st1, f | ⟨ss1, n⟩⟩
    · rw [h] at hss
      cases hss
    · rw [h] at hss hb
      simp only [Except.ok.injEq] at hss
      subst hss
      exact hb.2 _ rfl
  refine ⟨hframe.2, ?_, ?_⟩
  · intro v _ hv
    simp only [deref, List.getD_eq_getElem?_getD, hframe.2 v hv]
  · intro ss hss p hp
    have hge := freshSessions_ptrs st.length ss (hfresh ss hss) p hp
    refine ⟨hge, ?_, ?_⟩
    · intro hvalid hmem
      exact absurd (hvalid p hmem) (Nat.not_lt.mpr hge)
    · intro d a ha1
      have hne : p ≠ a := Nat.ne_of_gt (Nat.lt_of_lt_of_le ha1 hge)
      rw [List.getElem?_set_ne hne]
      exact hframe.2 a ha1

/-- Witness for C16: over the library of `demoStore`, whose entry "Show_Self_01" has a delay
of 2 ms, the successful run leaves the three library objects as they were, and the question
authored with "Show_Self_01" and a delay of 5 s holds a pointer to a new object with the
library path and the delay of 5 s; the run that fails for a missing audio file leaves the
library objects as they were, too. Read through the store it leaves, the sessions of the
successful run are the sessions that `collectSessions` returns for the library read through
the store it found. -/
theorem heapCollectSessions_keeps_library_witness :
    deref (heapCollectSessions demoWorld demoGen "/audio" demoHeapLibrary demoStore).1 2
      = { ID := 5, Name := "Show_Self_01", FilePath := "/lib/Show/Show_Self_01.qianim",
          Delay := 2000000, Group := "Show" } ∧
    (heapCollectSessions demoWorld demoGen "/audio" demoHeapLibrary demoStore).1.take 3
      = demoStore ∧
    deref (heapCollectSessions demoWorld demoGen "/audio" demoHeapLibrary demoStore).1 13
      = { ID := 5, Name := "Show_Self_01", FilePath := "/lib/Show/Show_Self_01.qianim",
          Delay := Second * 5, Group := "Show" } ∧
    (∃ ss, (heapCollectSessions demoWorld demoGen "/audio" demoHeapLibrary demoStore).2 = .ok ss ∧
      heapMovePtrs ss = [5, 12, 11, 6, 7, 8, 13, 14]) ∧
    (∃ msg, (heapCollectSessions missingWorld demoGen "/audio" demoHeapLibrary demoStore).2
        = .error (.error msg)) ∧
    (heapCollectSessions missingWorld demoGen "/audio" demoHeapLibrary demoStore).1.take 3
      = demoStore ∧
    (∃ ss, (heapCollectSessions demoWorld demoGen "/audio" demoHeapLibrary demoStore).2 = .ok ss ∧
      collectSessions demoWorld demoGen "/audio" (derefMoves demoStore demoHeapLibrary)
        = .ok (ss.map (derefSession
            (heapCollectSessions demoWorld demoGen "/audio" demoHeapLibrary demoStore).1))) :=
  ⟨(heapCollectSessions_keeps_library demoWorld demoGen "/audio" demoHeapLibrary demoStore).2.1
      2 (by decide) (by decide),
    by decide, by decide, ⟨_, rfl, by decide⟩, ⟨_, rfl⟩, by decide, ⟨_, rfl, rfl⟩⟩

end Garlic

/-! ## The two embeddings of the library step agree -/

namespace Garlic

/-- Reading the object just allocated gives that object. -/
theorem deref_alloc_new (st : Store) (m : MoveAction) : deref (st ++ [m]) st.length = m := by
  simp [deref, List.getD_eq_getElem?_getD]

/-- The lookup by name over pointers finds the entry whose object the lookup over values
finds. -/
theorem heapGetByName_deref (st : Store) (moves : HeapMoves) (name : String) :
    Moves.GetByName (derefMoves st moves) name
      = (heapGetByName st moves name).map fun r => r.map (deref st) := by
  induction moves with
  | nil => rfl
  | cons e rest ih =>
    cases e with
    | none => rfl
    | some v =>
      by_cases hv : (deref st v).Name = name
      · simp [derefMoves, Moves.GetByName, heapGetByName, hv, Except.map]
      · have ih1 : Moves.GetByName (List.map (fun e => Option.map (deref st) e) rest) name
            = Except.map (fun r => Option.map (deref st) r) (heapGetByName st rest name) := ih
        simp [derefMoves, Moves.GetByName, heapGetByName, hv, ih1]

/-- The library step over pointers, read through the store it leaves, is the library step
over values on what the composite and the library stand for in the store it finds. -/
theorem heapBindMove_deref (moves : HeapMoves) (c : HeapAction) (st : Store) :
    bindMove (derefMoves st moves) (derefAction st c)
      = (heapBindMove moves c st).2.map (derefAction (heapBindMove moves c st).1) := by
  unfold bindMove heapBindMove
  cases hm : c.MoveItem with
  | none => simp [derefAction, hm, Except.map]
  | some authored =>
    simp only [derefAction, hm, Option.map_some', heapGetByName_deref]
    cases hg : heapGetByName st moves (deref st authored).Name with
    | error f => simp [Except.map]
    | ok r =>
      cases r with
      | none => simp [Except.map, derefAction, hm]
      | some v => simp [Except.map, derefAction, deref_alloc_new]

end Garlic
